import Mathlib

/-!
# S3eker: the discovery pipeline of `cmd/scraper/main.go`

A shallow embedding of the scraper's history store (the globals `buckets`,
`existingBuckets` and the session counters), of the checkpoint loader and
writer, of the per-row logic of `processResponse`, and of the concurrent parts
as transition systems (the goroutines inside `scrape` with their reads and
writes of the unguarded counters, the critical section under `bucketsMutex`,
the pacing loop of `runScraper` with its worker tasks),
and of the page processing of the root scraper `main.go` (namespace `Root`),
followed by theorems about them.

Conventions of the embedding.

* A Go `string` is a sequence of bytes.  It is written here as a Lean `String`
  in which every character stands for the byte with the same code (all the
  characters the program inspects are ASCII).
* A Go `int` is taken to be 64 bits wide.  Values parsed from text are checked
  against that range where the library does so (`strconv.Atoi`, `fmt.Sscanf`).
  The session counters are `Int`: each of them only counts events of one run.
  An increment `x++` of a global outside a lock is a read of `x` followed by a
  write of the value read plus one.
* The global variables of the program are the fields of `State`; a function
  that mutates globals takes a `State` and returns the new one.
* `time.Now()` is an argument (`now`) of the functions that read the clock.
* In the transition systems one step of one task is atomic, and an execution
  is a sequence of steps of the tasks in any order.  A blocking operation
  (`Lock()` on a held mutex, a send on a full channel, `wg.Wait()` with a
  counter above zero) is a step that cannot be taken.
-/

namespace S3eker

/-! ## Data model -/

/-- The record type `Bucket` (`full_bucket_url`, `file_count`, `scraped_at`). -/
structure Bucket where
  URL : String
  FileCount : Int
  ScrapedAt : String
deriving DecidableEq, Repr

/-- The persisted wrapper `BucketCollection`. -/
structure BucketCollection where
  LastUpdated : String
  TotalBuckets : Int
  Description : String
  Buckets : List Bucket
deriving DecidableEq, Repr

/-- A Go `map[string]bool`, as an association list with at most one entry per
key when built with `BoolMap.set` from `BoolMap.empty`. -/
abbrev BoolMap := List (String × Bool)

/-- Result of `make(map[string]bool)`. -/
def BoolMap.empty : BoolMap := []

/-- Index expression `m[k]`: the stored value, `false` for a missing key. -/
def BoolMap.get : BoolMap → String → Bool
  | [], _ => false
  | (k', v) :: rest, k => if k' = k then v else BoolMap.get rest k

/-- Assignment `m[k] = v`. -/
def BoolMap.set : BoolMap → String → Bool → BoolMap
  | [], k, v => [(k, v)]
  | (k', v') :: rest, k, v =>
    if k' = k then (k, v) :: rest else (k', v') :: BoolMap.set rest k v

/-- A `chan Bucket`: its capacity and the values sent and not yet received. -/
structure Chan where
  cap : Nat
  queue : List Bucket
deriving DecidableEq, Repr

/-- The statement `select { case ch <- b: default: }`: the value is queued when
there is room and dropped otherwise. -/
def Chan.trySend (ch : Chan) (b : Bucket) : Chan :=
  if ch.queue.length < ch.cap then { ch with queue := ch.queue ++ [b] } else ch

/-- The package-level variables the pipeline reads and writes. -/
structure State where
  totalRequests : Int
  successCount : Int
  bucketsFound : Int
  newBucketsFound : Int
  buckets : List Bucket
  existingBuckets : BoolMap
  guiUpdates : Option Chan
  lastStatusCode : Int
  errorCount : Int
deriving DecidableEq, Repr

/-- The variables at program start: every counter zero, `buckets` and
`guiUpdates` nil, the map not yet made. -/
def State.initial : State :=
  { totalRequests := 0, successCount := 0, bucketsFound := 0, newBucketsFound := 0,
    buckets := [], existingBuckets := BoolMap.empty, guiUpdates := none,
    lastStatusCode := 0, errorCount := 0 }

/-! ## History store: insert (`processResponse`, lines 187-212) -/

/-- The critical section of `processResponse` (between `bucketsMutex.Lock()`
and `bucketsMutex.Unlock()`), for a row that produced the identity `decoded`
and the file count `count`.  The Boolean tells which branch ran: `false` for
the early return on a known identity, `true` when a record was appended. -/
def insertBucket (st : State) (decoded : String) (count : Int) (now : String) :
    State × Bool :=
  if st.existingBuckets.get decoded then
    (st, false)
  else
    let b : Bucket := { URL := decoded, FileCount := count, ScrapedAt := now }
    let st1 : State :=
      { st with
        buckets := st.buckets ++ [b]
        existingBuckets := st.existingBuckets.set decoded true
        bucketsFound := st.bucketsFound + 1
        newBucketsFound := st.newBucketsFound + 1 }
    let st2 : State :=
      match st1.guiUpdates with
      | none => st1
      | some ch => { st1 with guiUpdates := some (ch.trySend b) }
    (st2, true)

/-! ## Checkpoint file: JSON documents and the two decoders

The file is read and written through the JSON library.  A document is a tree
(`Json`); the encoder and the two decoders below follow the `json:"..."` tags
of `Bucket` and `BucketCollection`.  Member names are compared as written (the
library also accepts another letter case).  `loadExistingBuckets` is stated
over the outcome of the two decoders (`CheckpointFile`), whatever the content
of the file; the decoders below are applied to documents of the encoder. -/

/-- Least value of a Go `int`. -/
def minInt : Int := -9223372036854775808

/-- Greatest value of a Go `int`. -/
def maxInt : Int := 9223372036854775807

/-- Whether an integer is a value of the Go type `int`. -/
def isGoInt (n : Int) : Bool := decide (minInt ≤ n) && decide (n ≤ maxInt)

/-- A JSON document whose number literals are integers. -/
inductive Json where
  | null : Json
  | bool (b : Bool) : Json
  | num (n : Int) : Json
  | str (s : String) : Json
  | arr (items : List Json) : Json
  | obj (fields : List (String × Json)) : Json

/-- Encoding of one `Bucket`: the three tagged fields, none of them optional. -/
def encodeBucket (b : Bucket) : Json :=
  Json.obj [("full_bucket_url", Json.str b.URL), ("file_count", Json.num b.FileCount),
    ("scraped_at", Json.str b.ScrapedAt)]

/-- Encoding of a `[]Bucket`.  The slice `buckets` is nil whenever it is empty
(it only grows by `append`), and a nil slice is written as `null`. -/
def encodeBuckets : List Bucket → Json
  | [] => Json.null
  | b :: bs => Json.arr ((b :: bs).map encodeBucket)

/-- Encoding of a `BucketCollection`: the fields tagged `omitempty` are left
out when they hold the zero value of their type. -/
def encodeCollection (c : BucketCollection) : Json :=
  Json.obj
    ((if c.LastUpdated = "" then [] else [("last_updated", Json.str c.LastUpdated)]) ++
     (if c.TotalBuckets = 0 then [] else [("total_buckets", Json.num c.TotalBuckets)]) ++
     (if c.Description = "" then [] else [("description", Json.str c.Description)]) ++
     [("buckets", encodeBuckets c.Buckets)])

/-- Decoding into a `string` field: a string, or `null` for the empty string. -/
def decodeString : Json → Option String
  | Json.str s => some s
  | Json.null => some ""
  | _ => none

/-- Decoding into an `int` field holding `old`: an integer literal in range;
`null` leaves the field as it is. -/
def decodeInt (old : Int) : Json → Option Int
  | Json.num n => if isGoInt n then some n else none
  | Json.null => some old
  | _ => none

/-- The members of an object are taken in order; a member whose name is not a
tag of `Bucket` is skipped. -/
def decodeBucketFields : List (String × Json) → Bucket → Option Bucket
  | [], b => some b
  | (k, v) :: rest, b =>
    if k = "full_bucket_url" then
      match decodeString v with
      | some s => decodeBucketFields rest { b with URL := s }
      | none => none
    else if k = "file_count" then
      match decodeInt b.FileCount v with
      | some n => decodeBucketFields rest { b with FileCount := n }
      | none => none
    else if k = "scraped_at" then
      match decodeString v with
      | some s => decodeBucketFields rest { b with ScrapedAt := s }
      | none => none
    else decodeBucketFields rest b

/-- Decoding into a `Bucket`: an object, or `null` for the zero value. -/
def decodeBucket : Json → Option Bucket
  | Json.obj fields => decodeBucketFields fields ⟨"", 0, ""⟩
  | Json.null => some ⟨"", 0, ""⟩
  | _ => none

/-- Decoding of the elements of an array, failing at the first bad element. -/
def decodeBucketItems : List Json → Option (List Bucket)
  | [] => some []
  | j :: js =>
    match decodeBucket j with
    | some b =>
      match decodeBucketItems js with
      | some bs => some (b :: bs)
      | none => none
    | none => none

/-- Decoding into a `[]Bucket`: an array of buckets, or `null`. -/
def decodeBuckets : Json → Option (List Bucket)
  | Json.arr items => decodeBucketItems items
  | Json.null => some []
  | _ => none

/-- Members of an object decoded into a `BucketCollection`. -/
def decodeCollectionFields : List (String × Json) → BucketCollection → Option BucketCollection
  | [], c => some c
  | (k, v) :: rest, c =>
    if k = "last_updated" then
      match decodeString v with
      | some s => decodeCollectionFields rest { c with LastUpdated := s }
      | none => none
    else if k = "total_buckets" then
      match decodeInt c.TotalBuckets v with
      | some n => decodeCollectionFields rest { c with TotalBuckets := n }
      | none => none
    else if k = "description" then
      match decodeString v with
      | some s => decodeCollectionFields rest { c with Description := s }
      | none => none
    else if k = "buckets" then
      match decodeBuckets v with
      | some bs => decodeCollectionFields rest { c with Buckets := bs }
      | none => none
    else decodeCollectionFields rest c

/-- Decoding into a `BucketCollection`: an object, or `null`. -/
def decodeCollection : Json → Option BucketCollection
  | Json.obj fields => decodeCollectionFields fields ⟨"", 0, "", []⟩
  | Json.null => some ⟨"", 0, "", []⟩
  | _ => none

/-- The opened output file as `loadExistingBuckets` sees it: what
`Decode(&collection)` and, after the seek to the start, `Decode(&simpleBuckets)`
return on its content (`none` when the call returns an error). -/
structure CheckpointFile where
  asCollection : Option BucketCollection
  asArray : Option (List Bucket)
deriving DecidableEq, Repr

/-- A file whose content is not a JSON document: both calls fail. -/
def CheckpointFile.unparseable : CheckpointFile := ⟨none, none⟩

/-- A file holding the JSON document `doc`. -/
def CheckpointFile.ofJson (doc : Json) : CheckpointFile :=
  ⟨decodeCollection doc, decodeBuckets doc⟩

/-- The invariant of the history store: the map answers `true` exactly for
the identities of the records in the sequence. -/
def InSync (st : State) : Prop :=
  ∀ k : String, st.existingBuckets.get k = true ↔ ∃ b ∈ st.buckets, b.URL = k

/-- Every integer a store would write to the checkpoint is a Go `int`: the
file counts of its records and the length of the sequence. -/
def GoInts (st : State) : Prop :=
  (∀ b ∈ st.buckets, isGoInt b.FileCount = true) ∧
    isGoInt (st.buckets.length : Int) = true

/-! ## History store: load and export -/

/-- The loop `for _, bucket := range bs { existingBuckets[bucket.URL] = true;
buckets = append(buckets, bucket) }` of `loadExistingBuckets`. -/
def loadLoop : List Bucket → State → State
  | [], st => st
  | bucket :: rest, st =>
    loadLoop rest
      { st with
        existingBuckets := st.existingBuckets.set bucket.URL true
        buckets := st.buckets ++ [bucket] }

/-- The second attempt of `loadExistingBuckets` ("Try as simple array"). -/
def loadSimpleArray (st : State) (f : CheckpointFile) : State :=
  match f.asArray with
  | some simpleBuckets =>
    { loadLoop simpleBuckets st with bucketsFound := (simpleBuckets.length : Int) }
  | none => st

/-- The function `loadExistingBuckets`.  `file` is `none` when `os.Open` fails
(no output file yet). -/
def loadExistingBuckets (st : State) (file : Option CheckpointFile) : State :=
  let st0 : State := { st with existingBuckets := BoolMap.empty }
  match file with
  | none => st0
  | some f =>
    match f.asCollection with
    | some collection =>
      if collection.Buckets.length > 0 then
        { loadLoop collection.Buckets st0 with
          bucketsFound := (collection.Buckets.length : Int) }
      else loadSimpleArray st0 f
    | none => loadSimpleArray st0 f

/-- The collection literal built in `saveResults`. -/
def exportCollection (st : State) (now : String) : BucketCollection :=
  { LastUpdated := now
    TotalBuckets := (st.buckets.length : Int)
    Description := "Merged and deduplicated buckets from scraping sessions"
    Buckets := st.buckets }

/-- The content of the output file: a JSON document, or any other text. -/
inductive FileContent where
  | json (doc : Json) : FileContent
  | text (raw : String) : FileContent

/-- What the two decoders of `loadExistingBuckets` return on a file with the
given content. -/
def CheckpointFile.ofContent : FileContent → CheckpointFile
  | FileContent.json doc => CheckpointFile.ofJson doc
  | FileContent.text _ => CheckpointFile.unparseable

/-- The function `saveResults`, as a function on the content of the output
file: `disk` is the content of the file before the call (`none` for no
file), `creatable` tells whether `os.Create` succeeds. -/
def saveResults (st : State) (now : String) (creatable : Bool) (disk : Option FileContent) :
    Option FileContent :=
  if st.newBucketsFound = 0 then disk
  else if creatable then some (FileContent.json (encodeCollection (exportCollection st now)))
  else disk

/-- A run of the history store: the load at start-up followed by the critical
section for each `(identity, file count, time)` in turn. -/
def runInserts (st : State) : List (String × Int × String) → State
  | [] => st
  | (d, c, t) :: rest => runInserts (insertBucket st d c t).1 rest

/-! ## Library functions used by the page parser

The functions of the Go standard library that `processResponse`,
`extractBucketParam` and `parseFileCount` call, on byte strings. -/

/-- Search loop of `strings.Index`: the offset of the first occurrence of `sub`
at or after the current position `i`, or `-1`. -/
def indexFrom (sub : List Char) : List Char → Nat → Int
  | [], i => if sub = [] then (i : Int) else -1
  | c :: cs, i => if sub.isPrefixOf (c :: cs) = true then (i : Int) else indexFrom sub cs (i + 1)

/-- The function `strings.Index(s, substr)`. -/
def stringsIndex (s substr : String) : Int := indexFrom substr.data s.data 0

/-- The function `strings.Contains(s, substr)`, which is `Index(s, substr) >= 0`. -/
def stringsContains (s substr : String) : Bool := decide (stringsIndex s substr ≥ 0)

/-- Slice expression `s[lo:]`. -/
def sliceFrom (s : String) (lo : Int) : String := ⟨s.data.drop lo.toNat⟩

/-- Slice expression `s[lo:hi]`. -/
def slice (s : String) (lo hi : Int) : String := ⟨(s.data.take hi.toNat).drop lo.toNat⟩

/-- Lower-casing of one byte of the ASCII range. -/
def lowerByte (c : Char) : Char :=
  if 65 ≤ c.toNat ∧ c.toNat ≤ 90 then Char.ofNat (c.toNat + 32) else c

/-- The function `strings.ToLower`, exact on ASCII text; bytes outside the
ASCII range are kept (the library maps non-ASCII letters as well). -/
def stringsToLower (s : String) : String := ⟨s.data.map lowerByte⟩

/-- The call `strings.ReplaceAll(s, old, new)` for a one-byte `old`. -/
def stringsReplaceAll (s : String) (old : Char) (new : String) : String :=
  ⟨s.data.flatMap (fun c => if c = old then new.data else [c])⟩

/-- The UTF-8 encodings of the code points Go treats as white space: the six
ASCII ones, U+0085, U+00A0, U+1680, U+2000 to U+200A, U+2028, U+2029, U+202F,
U+205F and U+3000. -/
def spaceSeqs : List (List Nat) :=
  [[0x09], [0x0A], [0x0B], [0x0C], [0x0D], [0x20],
   [0xC2, 0x85], [0xC2, 0xA0], [0xE1, 0x9A, 0x80],
   [0xE2, 0x80, 0x80], [0xE2, 0x80, 0x81], [0xE2, 0x80, 0x82], [0xE2, 0x80, 0x83],
   [0xE2, 0x80, 0x84], [0xE2, 0x80, 0x85], [0xE2, 0x80, 0x86], [0xE2, 0x80, 0x87],
   [0xE2, 0x80, 0x88], [0xE2, 0x80, 0x89], [0xE2, 0x80, 0x8A],
   [0xE2, 0x80, 0xA8], [0xE2, 0x80, 0xA9], [0xE2, 0x80, 0xAF],
   [0xE2, 0x81, 0x9F], [0xE3, 0x80, 0x80]]

/-- Number of bytes of the white-space rune the text starts with, 0 when it
does not start with one. -/
def spaceWidth (cs : List Char) : Nat :=
  match spaceSeqs.find? (fun p => p.isPrefixOf (cs.map Char.toNat)) with
  | some p => p.length
  | none => 0

/-- Number of bytes of the white-space rune the text ends with, 0 when it does
not end with one; the argument is the text reversed. -/
def spaceWidthRev (rev : List Char) : Nat :=
  match spaceSeqs.find? (fun p => p.reverse.isPrefixOf (rev.map Char.toNat)) with
  | some p => p.length
  | none => 0

/-- Removal of leading white space (`strings.TrimLeftFunc(s, unicode.IsSpace)`);
the first argument bounds the number of runes removed. -/
def trimLeftSpace : Nat → List Char → List Char
  | 0, cs => cs
  | n + 1, cs => if spaceWidth cs = 0 then cs else trimLeftSpace n (cs.drop (spaceWidth cs))

/-- Removal of trailing white space, on the reversed text. -/
def trimRightSpaceRev : Nat → List Char → List Char
  | 0, rev => rev
  | n + 1, rev =>
    if spaceWidthRev rev = 0 then rev else trimRightSpaceRev n (rev.drop (spaceWidthRev rev))

/-- The function `strings.TrimSpace` on a list of bytes. -/
def trimSpaceBytes (cs : List Char) : List Char :=
  (trimRightSpaceRev cs.length (trimLeftSpace cs.length cs).reverse).reverse

/-- The function `strings.TrimSpace`. -/
def stringsTrimSpace (s : String) : String := ⟨trimSpaceBytes s.data⟩

/-- The helper `ishex` of `net/url`. -/
def ishex (c : Char) : Bool :=
  decide (48 ≤ c.toNat ∧ c.toNat ≤ 57) || decide (97 ≤ c.toNat ∧ c.toNat ≤ 102) ||
    decide (65 ≤ c.toNat ∧ c.toNat ≤ 70)

/-- The helper `unhex` of `net/url`. -/
def unhex (c : Char) : Nat :=
  if 48 ≤ c.toNat ∧ c.toNat ≤ 57 then c.toNat - 48
  else if 97 ≤ c.toNat ∧ c.toNat ≤ 102 then c.toNat - 97 + 10
  else if 65 ≤ c.toNat ∧ c.toNat ≤ 70 then c.toNat - 65 + 10
  else 0

/-- The function `unescape` of `net/url` in query-component mode: `%XY` with
two hex digits becomes the byte `XY`, `+` becomes a space, and a `%` that is
not followed by two hex digits is an `EscapeError` (`none`). -/
def unescapeBytes : List Char → Option (List Char)
  | [] => some []
  | c :: rest =>
    if c = '%' then
      match rest with
      | a :: b :: rest2 =>
        if ishex a && ishex b then
          match unescapeBytes rest2 with
          | some t => some (Char.ofNat (unhex a * 16 + unhex b) :: t)
          | none => none
        else none
      | _ => none
    else
      match unescapeBytes rest with
      | some t => some ((if c = '+' then ' ' else c) :: t)
      | none => none

/-- The function `url.QueryUnescape`; `none` stands for a non-nil error. -/
def queryUnescape (s : String) : Option String :=
  match unescapeBytes s.data with
  | some t => some ⟨t⟩
  | none => none

/-- Whether a byte is one of `0` to `9`. -/
def isDigit (c : Char) : Bool := decide (48 ≤ c.toNat ∧ c.toNat ≤ 57)

/-- Whether a byte is `+` or `-`. -/
def isSign (c : Char) : Bool := decide (c = '+') || decide (c = '-')

/-- Digit loop of the integer parser: `n = n*10 + (ch - '0')`, a syntax error
(`none`) at the first byte that is not a digit. -/
def parseDigits : List Char → Nat → Option Nat
  | [], n => some n
  | ch :: rest, n => if isDigit ch then parseDigits rest (n * 10 + (ch.toNat - 48)) else none

/-- The function `strconv.ParseInt(s, 10, 64)`: an optional sign, then one or
more digits; a syntax error for anything else and a range error for a value
that is not an `int`, both `none`. -/
def parseInt (s : List Char) : Option Int :=
  match s with
  | [] => none
  | c :: rest =>
    let body := if isSign c then rest else c :: rest
    if body = [] then none
    else
      match parseDigits body 0 with
      | none => none
      | some n =>
        let v : Int := if c = '-' then -(n : Int) else (n : Int)
        if isGoInt v then some v else none

/-- The function `strconv.Atoi`, which agrees with `ParseInt(s, 10, 0)`
converted to `int`. -/
def strconvAtoi (s : String) : Option Int := parseInt s.data

/-- The method `SkipSpace` of the scanner behind `fmt.Sscanf`: white space is
skipped, except that a newline is an error. -/
def skipSpace : Nat → List Char → Option (List Char)
  | 0, cs => some cs
  | n + 1, cs =>
    match cs with
    | [] => some []
    | c :: rest =>
      if c = '\r' ∧ rest.head? = some '\n' then skipSpace n rest
      else if c = '\n' then none
      else if spaceWidth cs = 0 then some cs
      else skipSpace n (cs.drop (spaceWidth cs))

/-- The loop `for s.accept(digits) {}`: the digits read into the token. -/
def acceptDigits : List Char → List Char
  | [] => []
  | c :: rest => if isDigit c then c :: acceptDigits rest else []

/-- The call `fmt.Sscanf(s, "%d", &count)`: the value stored in `count`, or
`none` when the scan fails and `count` is left as it was.  After the leading
white space the scanner accepts one sign, then requires a digit and reads all
the digits that follow; the token is converted by `ParseInt`. -/
def sscanfInt (s : String) : Option Int :=
  match skipSpace s.data.length s.data with
  | none => none
  | some [] => none
  | some (c :: rest) =>
    let body := if isSign c then rest else c :: rest
    let digits := acceptDigits body
    if digits = [] then none
    else parseInt (if isSign c then c :: digits else digits)

/-! ## Page parser -/

/-- The function `extractBucketParam`. -/
def extractBucketParam (bucketURL : String) : String :=
  let start := stringsIndex bucketURL "bucket="
  if start = -1 then ""
  else
    let start := start + 7
    let stop := stringsIndex (sliceFrom bucketURL start) "&"
    if stop = -1 then sliceFrom bucketURL start
    else slice bucketURL start (start + stop)

/-- The function `parseFileCount`. -/
def parseFileCount (s : String) : Int :=
  let s := stringsReplaceAll s ',' ""
  let s := stringsTrimSpace s
  match strconvAtoi s with
  | some count => count
  | none =>
    match sscanfInt s with
    | some count => count
    | none => 0

/-- One `td` cell as the parser reads it: `Text()` of the cell and the result
of `Find("a").Attr("href")` on it (`none` when there is no link or the link
has no `href`). -/
structure Cell where
  text : String
  href : Option String
deriving DecidableEq, Repr

/-- One table row: the selection `s.Find("td")`. -/
abbrev Row := List Cell

/-- The selection `cols.Eq(i)`: the empty selection when the index is out of
range, which has the empty text and no attribute. -/
def Row.eq (cols : Row) (i : Nat) : Cell := cols.getD i ⟨"", none⟩

/-- The row callback of `processResponse` up to the threshold test (lines
141-185): the identity and the file count of the row, or `none` when one of
the `return` statements is reached. -/
def rowCandidate (minFiles : Int) (cols : Row) : Option (String × Int) :=
  if cols.length < 4 then none
  else
    match (cols.eq 1).href with
    | none => none
    | some bucketURL =>
      if !stringsContains bucketURL "bucket=" then none
      else
        let bucketParam := extractBucketParam bucketURL
        if bucketParam = "" then none
        else
          let decoded :=
            match queryUnescape bucketParam with
            | some d => d
            | none => bucketParam
          let targetKeywords : List String := [""]
          let lowerBucket := stringsToLower decoded
          let found := targetKeywords.any (fun keyword => stringsContains lowerBucket keyword)
          if !found then none
          else
            let countText := stringsTrimSpace (cols.eq 2).text
            let count := parseFileCount countText
            if count < minFiles then none else some (decoded, count)

/-- The whole row callback of `processResponse`: the filters, then the
critical section. -/
def processRow (st : State) (minFiles : Int) (now : String) (cols : Row) : State :=
  match rowCandidate minFiles cols with
  | none => st
  | some (decoded, count) => (insertBucket st decoded count now).1

/-- The iteration `Each(func(i int, s *goquery.Selection) {...})` from row `i`
on; `clock i` is the time at which row `i` is handled. -/
def processRows (minFiles : Int) (clock : Nat → String) : List Row → Nat → State → State
  | [], _, st => st
  | cols :: rest, i, st =>
    processRows minFiles clock rest (i + 1) (processRow st minFiles (clock i) cols)

/-- The function `processResponse`.  `doc` is the list of rows matched by
`table.table-bordered tbody tr`, or `none` when the document cannot be read. -/
def processResponse (st : State) (minFiles : Int) (clock : Nat → String)
    (doc : Option (List Row)) : State :=
  match doc with
  | none => st
  | some rows => processRows minFiles clock rows 0 st

/-! ## Reading a file count, in the words of the specification

The notions used to state what `parseFileCount` returns: a text that is a
decimal integer, the integer a text begins with, and their value. -/

/-- Value of a string of decimal digits. -/
def digitsValue (ds : List Char) : Nat := ds.foldl (fun n c => n * 10 + (c.toNat - 48)) 0

/-- Whether the text is a decimal integer: an optional sign followed by one or
more digits and nothing else. -/
def isDecimalInteger (t : String) : Bool :=
  match t.data with
  | [] => false
  | c :: rest =>
    if isSign c then !rest.isEmpty && rest.all isDigit else (c :: rest).all isDigit

/-- The integer written by a decimal integer text. -/
def decimalValue (t : String) : Int :=
  match t.data with
  | [] => 0
  | c :: rest =>
    if c = '-' then -(digitsValue rest : Int)
    else if c = '+' then (digitsValue rest : Int)
    else (digitsValue (c :: rest) : Int)

/-- The integer the text begins with: an optional sign and the longest run of
digits after it, when there is at least one digit. -/
def leadingInteger (t : String) : Option String :=
  match t.data with
  | [] => none
  | c :: rest =>
    if isSign c then
      if (rest.takeWhile isDigit).isEmpty then none
      else some ⟨c :: rest.takeWhile isDigit⟩
    else
      if ((c :: rest).takeWhile isDigit).isEmpty then none
      else some ⟨(c :: rest).takeWhile isDigit⟩

/-- The column text with the commas removed and the surrounding white space
trimmed, as `parseFileCount` computes it in its first two statements. -/
def strippedCount (s : String) : String := stringsTrimSpace (stringsReplaceAll s ',' "")

/-! ## The query of a link target, in the words of the specification

What "the query parameter named `bucket`" of a link target is: the target
without its fragment, the text after the first `?`, cut at every `&`, each
piece cut at its first `=`. -/

/-- The pieces of a text between the occurrences of a separator. -/
def splitAtSep (sep : Char) : List Char → List (List Char)
  | [] => [[]]
  | c :: cs =>
    if c = sep then [] :: splitAtSep sep cs
    else
      match splitAtSep sep cs with
      | [] => [[c]]
      | piece :: pieces => (c :: piece) :: pieces

/-- The name and value pairs of the query of a link target. -/
def queryParams (target : String) : List (String × String) :=
  let noFragment := target.data.takeWhile (fun c => c ≠ '#')
  let query := (noFragment.dropWhile (fun c => c ≠ '?')).drop 1
  (splitAtSep '&' query).map
    (fun piece => (⟨piece.takeWhile (fun c => c ≠ '=')⟩,
      ⟨(piece.dropWhile (fun c => c ≠ '=')).drop 1⟩))

/-- The value of the first query parameter with the given name, if any. -/
def queryParam (target name : String) : Option String :=
  match (queryParams target).find? (fun nv => nv.1 = name) with
  | some nv => some nv.2
  | none => none

/-! ## Page fetcher (`scrape`) -/

/-- An HTTP response as `scrape` uses it: the status code and the body as
`processResponse` reads it. -/
structure Response where
  StatusCode : Int
  Body : Option (List Row)

/-- The pair `resp, err` returned by `client.Do(req)`: without error there is
a response; with an error the response is nil except in the redirect-policy
case, where both are set. -/
inductive FetchResult where
  | ok (resp : Response) : FetchResult
  | failed (resp : Option Response) : FetchResult

/-- Where a goroutine stands inside `scrape` (lines 110-133): before
`req.Header.Set` and `client.Do`; at `totalRequests++`, before the read of the
variable and before the write of the value read plus one; likewise at
`errorCount++`; at the assignment of `lastStatusCode` in the error branch; at
the assignment of line 129; at `successCount++`, before the read and before
the write; inside `processResponse`; after the return.  The function takes no
lock around these statements, so that each read and each write of a counter
is a step of its own. -/
inductive ScrapePc where
  | request : ScrapePc
  | readTotal : ScrapePc
  | writeTotal (v : Int) : ScrapePc
  | readError : ScrapePc
  | writeError (v : Int) : ScrapePc
  | statusOnError : ScrapePc
  | status : ScrapePc
  | readSuccess : ScrapePc
  | writeSuccess (v : Int) : ScrapePc
  | parsing : ScrapePc
  | returned : ScrapePc
deriving DecidableEq, Repr

/-- One goroutine running `scrape`: its place; whether `http.NewRequest`
returned a request (`false` for the nil pointer it returns with the error that
`scrape` discards, when the URL does not parse); what `client.Do` returns;
the clock; the rows `processResponse` still has to visit and the index of the
first of them. -/
structure Fetch where
  pc : ScrapePc
  req : Bool
  result : FetchResult
  clock : Nat → String
  rows : List Row
  row : Nat

/-- The goroutines inside `scrape` and the globals they share.  `panicked` is
set by a nil dereference in one of them, which ends the program. -/
structure FetchSys where
  minFiles : Int
  st : State
  tasks : List Fetch
  panicked : Bool

/-- The test of line 119 and the one nested in it: where `scrape` goes after
`totalRequests++`. -/
def afterTotal : FetchResult → ScrapePc
  | FetchResult.failed _ => ScrapePc.readError
  | FetchResult.ok resp =>
    if resp.StatusCode ≠ 200 then ScrapePc.statusOnError else ScrapePc.status

/-- The response held by `resp`, nil after an error outside the
redirect-policy case. -/
def FetchResult.response : FetchResult → Option Response
  | FetchResult.failed resp => resp
  | FetchResult.ok resp => some resp

/-- The rows `processResponse(resp.Body)` iterates over: none when the
document cannot be read. -/
def FetchResult.rows (r : FetchResult) : List Row :=
  match r.response with
  | some resp =>
    match resp.Body with
    | some rows => rows
    | none => []
  | none => []

/-- One step of goroutine `i` inside `scrape`, `none` when the goroutine has
returned or is missing, or the program has ended.  `req.Header.Set` on a nil
request panics.  A row of `processResponse` is one step: what it shares with
other goroutines lies between `bucketsMutex.Lock()` and `Unlock()`. -/
def stepScrape (s : FetchSys) (i : Nat) : Option FetchSys :=
  if s.panicked then none
  else
    match s.tasks[i]? with
    | none => none
    | some t =>
      match t.pc with
      | ScrapePc.request =>
        if t.req then some { s with tasks := s.tasks.set i { t with pc := ScrapePc.readTotal } }
        else some { s with panicked := true }
      | ScrapePc.readTotal =>
        some { s with
          tasks := s.tasks.set i { t with pc := ScrapePc.writeTotal s.st.totalRequests } }
      | ScrapePc.writeTotal v =>
        some { s with
          st := { s.st with totalRequests := v + 1 }
          tasks := s.tasks.set i { t with pc := afterTotal t.result } }
      | ScrapePc.readError =>
        some { s with
          tasks := s.tasks.set i { t with pc := ScrapePc.writeError s.st.errorCount } }
      | ScrapePc.writeError v =>
        some { s with
          st := { s.st with errorCount := v + 1 }
          tasks := s.tasks.set i { t with pc := ScrapePc.statusOnError } }
      | ScrapePc.statusOnError =>
        match t.result.response with
        | some resp =>
          some { s with
            st := { s.st with lastStatusCode := resp.StatusCode }
            tasks := s.tasks.set i { t with pc := ScrapePc.returned } }
        | none => some { s with tasks := s.tasks.set i { t with pc := ScrapePc.returned } }
      | ScrapePc.status =>
        match t.result.response with
        | some resp =>
          some { s with
            st := { s.st with lastStatusCode := resp.StatusCode }
            tasks := s.tasks.set i { t with pc := ScrapePc.readSuccess } }
        | none => some { s with panicked := true }
      | ScrapePc.readSuccess =>
        some { s with
          tasks := s.tasks.set i { t with pc := ScrapePc.writeSuccess s.st.successCount } }
      | ScrapePc.writeSuccess v =>
        some { s with
          st := { s.st with successCount := v + 1 }
          tasks := s.tasks.set i
            { t with pc := ScrapePc.parsing, rows := t.result.rows, row := 0 } }
      | ScrapePc.parsing =>
        match t.rows with
        | cols :: rest =>
          some { s with
            st := processRow s.st s.minFiles (t.clock t.row) cols
            tasks := s.tasks.set i { t with rows := rest, row := t.row + 1 } }
        | [] => some { s with tasks := s.tasks.set i { t with pc := ScrapePc.returned } }
      | ScrapePc.returned => none

/-- An execution of the goroutines: at each step the index of the goroutine
that moves; `none` if one of the steps cannot be taken. -/
def runScrapes (s : FetchSys) : List Nat → Option FetchSys
  | [] => some s
  | i :: rest =>
    match stepScrape s i with
    | some s2 => runScrapes s2 rest
    | none => none

/-- The goroutines at the call of `scrape`, each with what `http.NewRequest`
and `client.Do` return to it and with its clock. -/
def FetchSys.start (minFiles : Int) (st : State)
    (calls : List (Bool × FetchResult × (Nat → String))) : FetchSys :=
  { minFiles := minFiles, st := st,
    tasks := calls.map (fun c => ⟨ScrapePc.request, c.1, c.2.1, c.2.2, [], 0⟩),
    panicked := false }

/-- Whether every goroutine has returned from `scrape`. -/
def FetchSys.allReturned (s : FetchSys) : Bool :=
  s.tasks.all (fun t => decide (t.pc = ScrapePc.returned))

/-- The steps of goroutine 0 for as long as it has one, at most `n`. -/
def runAlone : Nat → FetchSys → FetchSys
  | 0, s => s
  | n + 1, s =>
    match stepScrape s 0 with
    | some s2 => runAlone n s2
    | none => s

/-- The function `scrape` called by one goroutine while no other goroutine
runs it: the globals after the return, `none` when the call panics.  The
number of steps allowed is the largest number a call can take. -/
def scrape (st : State) (minFiles : Int) (clock : Nat → String) (req : Bool)
    (r : FetchResult) : Option State :=
  let s := runAlone (r.rows.length + 7) (FetchSys.start minFiles st [(req, r, clock)])
  if s.panicked then none else some s.st

/-- The outcome `Success`: a response without error and with status 200. -/
def FetchResult.isSuccess : FetchResult → Bool
  | FetchResult.ok resp => decide (resp.StatusCode = 200)
  | FetchResult.failed _ => false

/-- The outcome `TransportError`: `client.Do` returned an error. -/
def FetchResult.isTransportError : FetchResult → Bool
  | FetchResult.ok _ => false
  | FetchResult.failed _ => true

/-! ## The records a page contributes, in the words of the specification -/

/-- The rows of a page that pass the row filters, in document order, each as
the identity, file count and time of the record it would create; `i` is the
index of the first row. -/
def pageCandidates (minFiles : Int) (clock : Nat → String) :
    List Row → Nat → List (String × Int × String)
  | [], _ => []
  | cols :: rest, i =>
    match rowCandidate minFiles cols with
    | some (decoded, count) =>
      (decoded, count, clock i) :: pageCandidates minFiles clock rest (i + 1)
    | none => pageCandidates minFiles clock rest (i + 1)

/-- Of a list of candidates, those whose identity is neither known before the
page (`known`) nor carried by an earlier candidate of the page (`earlier`),
in the order of the list. -/
def firstNew (known : String → Bool) :
    List String → List (String × Int × String) → List Bucket
  | _, [] => []
  | earlier, (d, c, t) :: rest =>
    if known d = false ∧ d ∉ earlier then
      ⟨d, c, t⟩ :: firstNew known (earlier ++ [d]) rest
    else firstNew known (earlier ++ [d]) rest

/-! ## Concurrent inserts under `bucketsMutex`

Several worker tasks run lines 187-212 of `processResponse` at the same time.
A task is at one of four places; one step of one task is one move between
places.  `bucketsMutex.Lock()` can be taken only while the mutex is free, so a
task that finds it held does not move. -/

/-- The statements of the critical section after the membership test (lines
195-211): the record is appended, the map and the two counters are updated
and the observer is notified. -/
def appendBucket (st : State) (decoded : String) (count : Int) (now : String) : State :=
  let b : Bucket := { URL := decoded, FileCount := count, ScrapedAt := now }
  let st1 : State :=
    { st with
      buckets := st.buckets ++ [b]
      existingBuckets := st.existingBuckets.set decoded true
      bucketsFound := st.bucketsFound + 1
      newBucketsFound := st.newBucketsFound + 1 }
  match st1.guiUpdates with
  | none => st1
  | some ch => { st1 with guiUpdates := some (ch.trySend b) }

/-- Where a task stands: before `bucketsMutex.Lock()` (line 188); holding the
mutex, before the test of line 189; holding the mutex after the test found the
identity absent (line 195); after `bucketsMutex.Unlock()`. -/
inductive InsertPc where
  | beforeLock : InsertPc
  | locked : InsertPc
  | absent : InsertPc
  | finished : InsertPc
deriving DecidableEq, Repr

/-- One worker task: its place, the row values it carries, and whether it has
appended a record. -/
structure InsertTask where
  pc : InsertPc
  decoded : String
  count : Int
  now : String
  inserted : Bool
deriving DecidableEq, Repr

/-- The shared store, the state of `bucketsMutex`, and the tasks. -/
structure InsertSys where
  st : State
  mutexHeld : Bool
  tasks : List InsertTask
deriving DecidableEq, Repr

/-- One step of task `i`; a task that is blocked, finished or missing leaves
the system as it is. -/
def stepInsert (sys : InsertSys) (i : Nat) : InsertSys :=
  match sys.tasks[i]? with
  | none => sys
  | some t =>
    match t.pc with
    | InsertPc.beforeLock =>
      if sys.mutexHeld then sys
      else
        { sys with
          mutexHeld := true
          tasks := sys.tasks.set i { t with pc := InsertPc.locked } }
    | InsertPc.locked =>
      if sys.st.existingBuckets.get t.decoded then
        { sys with
          mutexHeld := false
          tasks := sys.tasks.set i { t with pc := InsertPc.finished } }
      else { sys with tasks := sys.tasks.set i { t with pc := InsertPc.absent } }
    | InsertPc.absent =>
      { st := appendBucket sys.st t.decoded t.count t.now
        mutexHeld := false
        tasks := sys.tasks.set i { t with pc := InsertPc.finished, inserted := true } }
    | InsertPc.finished => sys

/-- An interleaving: the tasks step in the order the schedule lists them. -/
def runSchedule (sys : InsertSys) : List Nat → InsertSys
  | [] => sys
  | i :: rest => runSchedule (stepInsert sys i) rest

/-- The start: every task before the lock, the mutex free. -/
def InsertSys.start (st : State) (ops : List (String × Int × String)) : InsertSys :=
  { st := st
    mutexHeld := false
    tasks := ops.map (fun op => ⟨InsertPc.beforeLock, op.1, op.2.1, op.2.2, false⟩) }

/-- Whether a task is inside the critical section. -/
def InsertTask.inside (t : InsertTask) : Bool :=
  decide (t.pc = InsertPc.locked) || decide (t.pc = InsertPc.absent)

/-- Number of records of the sequence with the identity `d`. -/
def countIdentity (st : State) (d : String) : Nat :=
  st.buckets.countP (fun b => decide (b.URL = d))

/-- The invariant of the concurrent inserts of one identity `d`, with `n0`
the value of `newBucketsFound` at the start: every task carries `d`; the
number of tasks inside the critical section is 1 when the mutex is held and 0
otherwise; the sequence holds one record for `d` when the map holds `d` and
none otherwise; `newBucketsFound` and the number of tasks that appended both
follow that number; no task is past the test with `d` in the map, and no task
has finished while `d` is not in the map. -/
def InsertInv (d : String) (n0 : Int) (sys : InsertSys) : Prop :=
  (∀ t ∈ sys.tasks, t.decoded = d) ∧
  sys.tasks.countP InsertTask.inside = (if sys.mutexHeld = true then 1 else 0) ∧
  countIdentity sys.st d = (if sys.st.existingBuckets.get d = true then 1 else 0) ∧
  sys.st.newBucketsFound = n0 + (countIdentity sys.st d : Int) ∧
  sys.tasks.countP (fun t => t.inserted) = countIdentity sys.st d ∧
  (sys.st.existingBuckets.get d = true →
    sys.tasks.countP (fun t => decide (t.pc = InsertPc.absent)) = 0) ∧
  (sys.st.existingBuckets.get d = false →
    sys.tasks.countP (fun t => decide (t.pc = InsertPc.finished)) = 0)

/-! ## Dispatcher (`runScraper`)

The pacing loop, the worker tasks it spawns and the signal handler that
cancels the context, as a transition system.  The time at which the ticker
fires is left open: the tick branch of the `select` can be taken whenever the
loop is at the `select`. -/

/-- The statements of `scrape` other than the call of `processResponse`, as
they run when no other goroutine is between its read and its write of a
counter (the steps of `stepScrape` from `request` to `parsing`).  They touch
neither the store nor the pool. -/
def scrapeCounters (st : State) (r : FetchResult) : State :=
  let st1 : State := { st with totalRequests := st.totalRequests + 1 }
  match r with
  | FetchResult.failed resp =>
    let st2 : State := { st1 with errorCount := st1.errorCount + 1 }
    match resp with
    | some rp => { st2 with lastStatusCode := rp.StatusCode }
    | none => st2
  | FetchResult.ok resp =>
    if resp.StatusCode ≠ 200 then { st1 with lastStatusCode := resp.StatusCode }
    else { st1 with lastStatusCode := resp.StatusCode, successCount := st1.successCount + 1 }

/-- The rows for which the `processResponse` called by `scrape` reaches the
critical section, in order. -/
def scrapeWork (minFiles : Int) (clock : Nat → String) (r : FetchResult) :
    List (String × Int × String) :=
  match r with
  | FetchResult.failed _ => []
  | FetchResult.ok resp =>
    if resp.StatusCode ≠ 200 then []
    else
      match resp.Body with
      | some rows => pageCandidates minFiles clock rows 0
      | none => []

/-- Where the pacing loop stands: at the `select`; at `sem <- struct{}{}` after
a tick; in `wg.Wait()` after the cancellation branch; after `saveResults`. -/
inductive LoopPc where
  | selecting : LoopPc
  | acquiring : LoopPc
  | draining : LoopPc
  | stopped : LoopPc
deriving DecidableEq, Repr

/-- Where a spawned task stands: about to call `scrape`; inside `scrape`, with
the rows still to insert; after `<-sem`, before the deferred `wg.Done()`;
finished. -/
inductive TaskPhase where
  | starting : TaskPhase
  | inserting : TaskPhase
  | reporting : TaskPhase
  | done : TaskPhase
deriving DecidableEq, Repr

/-- One spawned task: its place, what `client.Do` returns to it, the clock it
reads, and the rows it still has to insert. -/
structure Task where
  phase : TaskPhase
  result : FetchResult
  clock : Nat → String
  work : List (String × Int × String)

/-- Whether the task holds a pool slot. -/
def Task.holding (t : Task) : Bool :=
  decide (t.phase = TaskPhase.starting) || decide (t.phase = TaskPhase.inserting)

/-- Whether the task is counted by the wait group. -/
def Task.inFlight (t : Task) : Bool := !decide (t.phase = TaskPhase.done)

/-- Whether the task has given its pool slot back. -/
def Task.past (t : Task) : Bool := !t.holding

/-- The state of the dispatcher: the flags `-c` and `-min`, the context, the
loop, the channel `sem` (its length), the wait group, the tasks, the store and
the output file.  The last five fields record the history: the number of
calls of `saveResults`, the store the call saw, the numbers of slot
acquisitions and releases, and the records appended by the tasks. -/
structure Dispatcher where
  concurrency : Nat
  minFiles : Int
  cancelled : Bool
  pc : LoopPc
  sem : Nat
  wg : Nat
  tasks : List Task
  st : State
  disk : Option FileContent
  flushes : Nat
  flushed : Option State
  acquired : Nat
  released : Nat
  log : List Bucket

/-- What can happen next. -/
inductive Event where
  | interrupt : Event
  | tick : Event
  | spawn (result : FetchResult) (clock : Nat → String) : Event
  | seeCancel : Event
  | taskStep (i : Nat) : Event
  | flush (now : String) (creatable : Bool) : Event

/-- One step of task `i`, `none` when the task is finished or missing.  The
task has a request that is not nil.  The statements of `scrape` before
`processResponse` are one step here: they touch neither the pool, nor the wait
group, nor the store, which this system is about; how the counters fare when
these statements of several tasks interleave is the subject of `stepScrape`. -/
def stepTask (s : Dispatcher) (i : Nat) : Option Dispatcher :=
  match s.tasks[i]? with
  | none => none
  | some t =>
    match t.phase with
    | TaskPhase.starting =>
      some { s with
        st := scrapeCounters s.st t.result
        tasks := s.tasks.set i
          { t with phase := TaskPhase.inserting,
                   work := scrapeWork s.minFiles t.clock t.result } }
    | TaskPhase.inserting =>
      match t.work with
      | (d, c, now) :: rest =>
        some { s with
          st := (insertBucket s.st d c now).1
          log := s.log ++ (if (insertBucket s.st d c now).2 then [⟨d, c, now⟩] else [])
          tasks := s.tasks.set i { t with work := rest } }
      | [] =>
        some { s with
          sem := s.sem - 1
          released := s.released + 1
          tasks := s.tasks.set i { t with phase := TaskPhase.reporting } }
    | TaskPhase.reporting =>
      some { s with
        wg := s.wg - 1
        tasks := s.tasks.set i { t with phase := TaskPhase.done } }
    | TaskPhase.done => none

/-- One step of the system, `none` when the event cannot happen in the state:
the interrupt closes the context; the `select` takes the tick branch, or the
cancellation branch once the context is closed; the send on `sem` goes
through when the channel has room, followed by `wg.Add(1)` and the `go`
statement; a task steps; `wg.Wait()` returns when the counter is zero and
`saveResults` runs. -/
def step (s : Dispatcher) : Event → Option Dispatcher
  | Event.interrupt => some { s with cancelled := true }
  | Event.tick =>
    if s.pc = LoopPc.selecting then some { s with pc := LoopPc.acquiring } else none
  | Event.spawn result clock =>
    if s.pc = LoopPc.acquiring ∧ s.sem < s.concurrency then
      some { s with
        pc := LoopPc.selecting
        sem := s.sem + 1
        wg := s.wg + 1
        acquired := s.acquired + 1
        tasks := s.tasks ++ [⟨TaskPhase.starting, result, clock, []⟩] }
    else none
  | Event.seeCancel =>
    if s.pc = LoopPc.selecting ∧ s.cancelled = true then some { s with pc := LoopPc.draining }
    else none
  | Event.taskStep i => stepTask s i
  | Event.flush now creatable =>
    if s.pc = LoopPc.draining ∧ s.wg = 0 then
      some { s with
        pc := LoopPc.stopped
        disk := saveResults s.st now creatable s.disk
        flushes := s.flushes + 1
        flushed := some s.st }
    else none

/-- An execution: the events in order, `none` if one of them cannot happen. -/
def run (s : Dispatcher) : List Event → Option Dispatcher
  | [] => some s
  | e :: rest =>
    match step s e with
    | some s2 => run s2 rest
    | none => none

/-- The dispatcher when `runScraper` enters its loop. -/
def Dispatcher.start (concurrency : Nat) (minFiles : Int) (st : State)
    (disk : Option FileContent) : Dispatcher :=
  { concurrency := concurrency, minFiles := minFiles, cancelled := false,
    pc := LoopPc.selecting, sem := 0, wg := 0, tasks := [], st := st, disk := disk,
    flushes := 0, flushed := none, acquired := 0, released := 0, log := [] }

/-- The invariant of the dispatcher; `b0` is the record sequence at the start. -/
def DispInv (b0 : List Bucket) (s : Dispatcher) : Prop :=
  s.sem = s.tasks.countP Task.holding ∧
  s.sem ≤ s.concurrency ∧
  s.wg = s.tasks.countP Task.inFlight ∧
  s.acquired = s.tasks.length ∧
  s.released = s.tasks.countP Task.past ∧
  s.flushes = (if s.pc = LoopPc.stopped then 1 else 0) ∧
  (s.pc = LoopPc.stopped → s.wg = 0 ∧ s.flushed = some s.st) ∧
  (s.pc ≠ LoopPc.stopped → s.flushed = none) ∧
  (s.pc = LoopPc.draining ∨ s.pc = LoopPc.stopped → s.cancelled = true) ∧
  s.st.buckets = b0 ++ s.log

/-! ## A session of page processing -/

/-- The calls of `processResponse` of one session, in the order in which they
run: each with the threshold, the clock and the document of its page. -/
def runPages (st : State) : List (Int × (Nat → String) × Option (List Row)) → State
  | [] => st
  | (minFiles, clock, doc) :: rest => runPages (processResponse st minFiles clock doc) rest

/-! ## Pacing period (`runScraper`, line 345) -/

/-- The constant `time.Second`, in nanoseconds. -/
def timeSecond : Int := 1000000000

/-- Go's integer division `a / b`: the quotient truncated toward zero, and a
run-time panic (`none`) for a zero divisor. -/
def goDiv (a b : Int) : Option Int := if b = 0 then none else some (Int.tdiv a b)

/-- The expression `time.Second / time.Duration(rateLimit)`. -/
def pacingPeriod (rateLimit : Int) : Option Int := goDiv timeSecond rateLimit

/-- The call `time.NewTicker(d)`, which panics (`none`) for a period that is
not positive; otherwise the ticker, given by its period. -/
def newTicker (d : Int) : Option Int := if d ≤ 0 then none else some d

/-- The first statement of `runScraper`: the ticker created from the flag
`-r`, `none` when the statement panics. -/
def pacingTicker (rateLimit : Int) : Option Int :=
  match pacingPeriod rateLimit with
  | some d => newTicker d
  | none => none

/-! ## The root scraper (`main.go`)

The page processing of the earlier program, which has the threshold 1000 in
its text and neither observer channel nor diagnostics counters. -/

namespace Root

/-- The package-level variables of `main.go` that the pipeline touches. -/
structure State where
  totalRequests : Int
  successCount : Int
  bucketsFound : Int
  newBucketsFound : Int
  buckets : List Bucket
  existingBuckets : BoolMap
deriving DecidableEq, Repr

/-- The function `extractBucketParam` of `main.go` (lines 276-290). -/
def extractBucketParam (bucketURL : String) : String :=
  let start := stringsIndex bucketURL "bucket="
  if start = -1 then ""
  else
    let start := start + 7
    let stop := stringsIndex (sliceFrom bucketURL start) "&"
    if stop = -1 then sliceFrom bucketURL start
    else slice bucketURL start (start + stop)

/-- The function `parseFileCount` of `main.go` (lines 292-306). -/
def parseFileCount (s : String) : Int :=
  let s := stringsReplaceAll s ',' ""
  let s := stringsTrimSpace s
  match strconvAtoi s with
  | some count => count
  | none =>
    match sscanfInt s with
    | some count => count
    | none => 0

/-- The row callback of `processResponse` of `main.go` up to the threshold
test (lines 139-181). -/
def rowCandidate (cols : Row) : Option (String × Int) :=
  if cols.length < 4 then none
  else
    match (cols.eq 1).href with
    | none => none
    | some bucketURL =>
      if !stringsContains bucketURL "bucket=" then none
      else
        let bucketParam := extractBucketParam bucketURL
        if bucketParam = "" then none
        else
          let decoded :=
            match queryUnescape bucketParam with
            | some d => d
            | none => bucketParam
          let targetKeywords : List String := [""]
          let lowerBucket := stringsToLower decoded
          let found := targetKeywords.any (fun keyword => stringsContains lowerBucket keyword)
          if !found then none
          else
            let countText := stringsTrimSpace (cols.eq 2).text
            let count := parseFileCount countText
            if count < 1000 then none else some (decoded, count)

/-- The critical section of `processResponse` of `main.go` (lines 183-199). -/
def insertBucket (st : State) (decoded : String) (count : Int) (now : String) : State :=
  if st.existingBuckets.get decoded then st
  else
    { st with
      buckets := st.buckets ++ [{ URL := decoded, FileCount := count, ScrapedAt := now }]
      existingBuckets := st.existingBuckets.set decoded true
      bucketsFound := st.bucketsFound + 1
      newBucketsFound := st.newBucketsFound + 1 }

/-- The whole row callback of `main.go`. -/
def processRow (st : State) (now : String) (cols : Row) : State :=
  match rowCandidate cols with
  | none => st
  | some (decoded, count) => insertBucket st decoded count now

/-- The iteration over the rows, from row `i` on. -/
def processRows (clock : Nat → String) : List Row → Nat → State → State
  | [], _, st => st
  | cols :: rest, i, st => processRows clock rest (i + 1) (processRow st (clock i) cols)

/-- The function `processResponse` of `main.go`. -/
def processResponse (st : State) (clock : Nat → String) (doc : Option (List Row)) : State :=
  match doc with
  | none => st
  | some rows => processRows clock rows 0 st

end Root

/-- The variables of the scraper that the root scraper has too. -/
def State.toRoot (st : State) : Root.State :=
  { totalRequests := st.totalRequests, successCount := st.successCount,
    bucketsFound := st.bucketsFound, newBucketsFound := st.newBucketsFound,
    buckets := st.buckets, existingBuckets := st.existingBuckets }

/-! ## Lemmas on the map -/

theorem BoolMap.get_set_self (m : BoolMap) (k : String) (v : Bool) :
    (m.set k v).get k = v := by
  induction m with
  | nil => simp [BoolMap.set, BoolMap.get]
  | cons e rest ih =>
    obtain ⟨k', v'⟩ := e
    by_cases h : k' = k
    · simp [BoolMap.set, BoolMap.get, h]
    · simp [BoolMap.set, BoolMap.get, h, ih]

theorem BoolMap.get_set_other (m : BoolMap) (k k2 : String) (v : Bool) (h : k2 ≠ k) :
    (m.set k v).get k2 = m.get k2 := by
  induction m with
  | nil =>
    have h2 : ¬ k = k2 := fun e => h e.symm
    simp [BoolMap.set, BoolMap.get, h2]
  | cons e rest ih =>
    obtain ⟨k', v'⟩ := e
    by_cases h1 : k' = k
    · subst h1
      have h2 : ¬ k' = k2 := fun e => h e.symm
      simp [BoolMap.set, BoolMap.get, h2]
    · by_cases h3 : k' = k2
      · subst h3
        simp [BoolMap.set, BoolMap.get, h1]
      · simp [BoolMap.set, BoolMap.get, h1, h3, ih]

/-! ## Lemmas on insert -/

theorem insertBucket_known (st : State) (d : String) (c : Int) (t : String)
    (h : st.existingBuckets.get d = true) : insertBucket st d c t = (st, false) := by
  simp [insertBucket, h]

theorem insertBucket_buckets_new (st : State) (d : String) (c : Int) (t : String)
    (h : st.existingBuckets.get d = false) :
    (insertBucket st d c t).1.buckets = st.buckets ++ [⟨d, c, t⟩] := by
  unfold insertBucket
  simp only [h]
  cases hg : st.guiUpdates <;> simp

theorem insertBucket_map_new (st : State) (d : String) (c : Int) (t : String)
    (h : st.existingBuckets.get d = false) :
    (insertBucket st d c t).1.existingBuckets = st.existingBuckets.set d true := by
  unfold insertBucket
  simp only [h]
  cases hg : st.guiUpdates <;> simp

theorem insertBucket_counters_new (st : State) (d : String) (c : Int) (t : String)
    (h : st.existingBuckets.get d = false) :
    (insertBucket st d c t).2 = true ∧
    (insertBucket st d c t).1.bucketsFound = st.bucketsFound + 1 ∧
    (insertBucket st d c t).1.newBucketsFound = st.newBucketsFound + 1 := by
  unfold insertBucket
  simp only [h]
  cases hg : st.guiUpdates <;> simp


theorem insertBucket_inSync (st : State) (d : String) (c : Int) (t : String)
    (h : InSync st) : InSync (insertBucket st d c t).1 := by
  cases hd : st.existingBuckets.get d with
  | true => rw [insertBucket_known st d c t hd]; exact h
  | false =>
    intro k
    rw [insertBucket_map_new st d c t hd, insertBucket_buckets_new st d c t hd]
    by_cases hk : k = d
    · subst hk
      rw [BoolMap.get_set_self]
      simp only [true_iff]
      exact ⟨⟨k, c, t⟩, by simp, rfl⟩
    · rw [BoolMap.get_set_other _ _ _ _ hk, h k]
      constructor
      · rintro ⟨b, hb, rfl⟩
        exact ⟨b, by simp [hb], rfl⟩
      · rintro ⟨b, hb, rfl⟩
        simp only [List.mem_append, List.mem_singleton] at hb
        rcases hb with hb | hb
        · exact ⟨b, hb, rfl⟩
        · exact absurd (by rw [hb]) hk

theorem runInserts_inSync (ops : List (String × Int × String)) (st : State)
    (h : InSync st) : InSync (runInserts st ops) := by
  induction ops generalizing st with
  | nil => exact h
  | cons op rest ih =>
    obtain ⟨d, c, t⟩ := op
    exact ih _ (insertBucket_inSync st d c t h)

theorem loadLoop_buckets (bs : List Bucket) (st : State) :
    (loadLoop bs st).buckets = st.buckets ++ bs := by
  induction bs generalizing st with
  | nil => simp [loadLoop]
  | cons b rest ih => simp [loadLoop, ih]

theorem loadLoop_counters (bs : List Bucket) (st : State) :
    (loadLoop bs st).bucketsFound = st.bucketsFound ∧
    (loadLoop bs st).newBucketsFound = st.newBucketsFound := by
  induction bs generalizing st with
  | nil => simp [loadLoop]
  | cons b rest ih => simp [loadLoop, ih]

theorem loadLoop_inSync (bs : List Bucket) (st : State) (h : InSync st) :
    InSync (loadLoop bs st) := by
  induction bs generalizing st with
  | nil => exact h
  | cons b rest ih =>
    apply ih
    intro k
    by_cases hk : k = b.URL
    · subst hk
      simp only [BoolMap.get_set_self, true_iff]
      exact ⟨b, by simp, rfl⟩
    · simp only [BoolMap.get_set_other _ _ _ _ hk, h k, List.mem_append, List.mem_singleton]
      constructor
      · rintro ⟨x, hx, rfl⟩
        exact ⟨x, Or.inl hx, rfl⟩
      · rintro ⟨x, hx | hx, rfl⟩
        · exact ⟨x, hx, rfl⟩
        · exact absurd (by rw [hx]) hk

theorem inSync_with_bucketsFound (st : State) (n : Int) (h : InSync st) :
    InSync { st with bucketsFound := n } := h

theorem loadSimpleArray_inSync (st : State) (f : CheckpointFile) (h : InSync st) :
    InSync (loadSimpleArray st f) := by
  unfold loadSimpleArray
  cases f.asArray with
  | none => exact h
  | some l => exact inSync_with_bucketsFound _ _ (loadLoop_inSync l st h)

theorem loadExistingBuckets_inSync (file : Option CheckpointFile) :
    InSync (loadExistingBuckets State.initial file) := by
  have h0 : InSync { State.initial with existingBuckets := BoolMap.empty } := by
    intro k
    simp [State.initial, BoolMap.empty, BoolMap.get]
  unfold loadExistingBuckets
  cases file with
  | none => exact h0
  | some f =>
    simp only
    cases f.asCollection with
    | none => exact loadSimpleArray_inSync _ f h0
    | some c =>
      simp only
      split
      · exact inSync_with_bucketsFound _ _ (loadLoop_inSync _ _ h0)
      · exact loadSimpleArray_inSync _ f h0


theorem insertBucket_nodup (st : State) (d : String) (c : Int) (t : String)
    (hs : InSync st) (hn : (st.buckets.map Bucket.URL).Nodup) :
    ((insertBucket st d c t).1.buckets.map Bucket.URL).Nodup := by
  cases hd : st.existingBuckets.get d with
  | true => rw [insertBucket_known st d c t hd]; exact hn
  | false =>
    rw [insertBucket_buckets_new st d c t hd, List.map_append]
    apply List.Nodup.append hn (by simp)
    intro u hu hu2
    simp only [List.map_cons, List.map_nil, List.mem_singleton] at hu2
    subst hu2
    obtain ⟨b, hb, hbu⟩ := List.mem_map.mp hu
    have : st.existingBuckets.get u = true := (hs u).mpr ⟨b, hb, hbu⟩
    rw [this] at hd
    exact Bool.noConfusion hd

theorem runInserts_nodup (ops : List (String × Int × String)) (st : State)
    (hs : InSync st) (hn : (st.buckets.map Bucket.URL).Nodup) :
    ((runInserts st ops).buckets.map Bucket.URL).Nodup := by
  induction ops generalizing st with
  | nil => exact hn
  | cons op rest ih =>
    obtain ⟨d, c, t⟩ := op
    exact ih _ (insertBucket_inSync st d c t hs) (insertBucket_nodup st d c t hs hn)

theorem decodeBucket_encodeBucket (b : Bucket) (h : isGoInt b.FileCount = true) :
    decodeBucket (encodeBucket b) = some b := by
  simp [decodeBucket, encodeBucket, decodeBucketFields, decodeString, decodeInt, h]

theorem decodeBucketItems_encode (bs : List Bucket)
    (h : ∀ b ∈ bs, isGoInt b.FileCount = true) :
    decodeBucketItems (bs.map encodeBucket) = some bs := by
  induction bs with
  | nil => simp [decodeBucketItems]
  | cons b rest ih =>
    have hb := decodeBucket_encodeBucket b (h b (by simp))
    have hr := ih (fun x hx => h x (by simp [hx]))
    simp [decodeBucketItems, hb, hr]

theorem decodeBuckets_encodeBuckets (bs : List Bucket)
    (h : ∀ b ∈ bs, isGoInt b.FileCount = true) :
    decodeBuckets (encodeBuckets bs) = some bs := by
  cases bs with
  | nil => simp [encodeBuckets, decodeBuckets]
  | cons b rest =>
    simp only [encodeBuckets, decodeBuckets]
    exact decodeBucketItems_encode (b :: rest) h

theorem decodeCollection_encodeCollection (c : BucketCollection)
    (hb : ∀ b ∈ c.Buckets, isGoInt b.FileCount = true)
    (ht : isGoInt c.TotalBuckets = true) :
    decodeCollection (encodeCollection c) = some c := by
  have hbs := decodeBuckets_encodeBuckets c.Buckets hb
  obtain ⟨lu, tb, ds, bs⟩ := c
  simp only at hbs ht
  by_cases h1 : lu = "" <;> by_cases h2 : tb = 0 <;> by_cases h3 : ds = "" <;>
    simp [decodeCollection, encodeCollection, decodeCollectionFields, decodeString,
      decodeInt, h1, h2, h3, hbs, ht]

theorem loadExistingBuckets_file (f : CheckpointFile) :
    (loadExistingBuckets State.initial (some f)).buckets =
      (match f.asCollection with
       | some c => if c.Buckets.length > 0 then c.Buckets
                   else (match f.asArray with | some l => l | none => [])
       | none => (match f.asArray with | some l => l | none => [])) := by
  obtain ⟨col, arr⟩ := f
  cases col with
  | none =>
    cases arr with
    | none => simp [loadExistingBuckets, loadSimpleArray, State.initial]
    | some l => simp [loadExistingBuckets, loadSimpleArray, loadLoop_buckets, State.initial]
  | some c =>
    by_cases hc : c.Buckets.length > 0
    · simp [loadExistingBuckets, hc, loadLoop_buckets, State.initial]
    · cases arr with
      | none => simp [loadExistingBuckets, loadSimpleArray, hc, State.initial]
      | some l =>
        simp [loadExistingBuckets, loadSimpleArray, hc, loadLoop_buckets, State.initial]

theorem loadExistingBuckets_counters (file : Option CheckpointFile) :
    (loadExistingBuckets State.initial file).bucketsFound =
      ((loadExistingBuckets State.initial file).buckets.length : Int) ∧
    (loadExistingBuckets State.initial file).newBucketsFound = 0 := by
  cases file with
  | none => simp [loadExistingBuckets, State.initial]
  | some f =>
    obtain ⟨col, arr⟩ := f
    cases col with
    | none =>
      cases arr with
      | none => simp [loadExistingBuckets, loadSimpleArray, State.initial]
      | some l =>
        simp [loadExistingBuckets, loadSimpleArray, loadLoop_buckets, loadLoop_counters,
          State.initial]
    | some c =>
      by_cases hc : c.Buckets.length > 0
      · simp [loadExistingBuckets, hc, loadLoop_buckets, loadLoop_counters, State.initial]
      · cases arr with
        | none => simp [loadExistingBuckets, loadSimpleArray, hc, State.initial]
        | some l =>
          simp [loadExistingBuckets, loadSimpleArray, hc, loadLoop_buckets, loadLoop_counters,
            State.initial]

/-! ## Lemmas on the page parser -/

theorem indexFrom_range (sub cs : List Char) (i : Nat) :
    indexFrom sub cs i = -1 ∨ (0 : Int) ≤ indexFrom sub cs i := by
  induction cs generalizing i with
  | nil =>
    unfold indexFrom
    split
    · exact Or.inr (Int.ofNat_nonneg i)
    · exact Or.inl rfl
  | cons c rest ih =>
    unfold indexFrom
    split
    · exact Or.inr (Int.ofNat_nonneg i)
    · exact ih (i + 1)

theorem stringsContains_empty (s : String) : stringsContains s "" = true := by
  unfold stringsContains stringsIndex
  cases hs : s.data with
  | nil => simp [indexFrom]
  | cons c rest => simp [indexFrom, List.isPrefixOf]

theorem stringsContains_of_extract (u : String) (h : extractBucketParam u ≠ "") :
    stringsContains u "bucket=" = true := by
  unfold stringsContains
  rcases indexFrom_range "bucket=".data u.data 0 with h1 | h1
  · exfalso
    apply h
    unfold extractBucketParam
    simp [stringsIndex, h1]
  · simpa [stringsIndex] using h1

theorem rowCandidate_of_valid (minFiles : Int) (cols : Row) (bucketURL : String)
    (hlen : 4 ≤ cols.length) (hhref : (cols.eq 1).href = some bucketURL)
    (hparam : extractBucketParam bucketURL ≠ "") :
    rowCandidate minFiles cols =
      if parseFileCount (stringsTrimSpace (cols.eq 2).text) < minFiles then none
      else some
        ((match queryUnescape (extractBucketParam bucketURL) with
          | some d => d
          | none => extractBucketParam bucketURL),
         parseFileCount (stringsTrimSpace (cols.eq 2).text)) := by
  have hlen2 : ¬ cols.length < 4 := by omega
  have hc := stringsContains_of_extract bucketURL hparam
  unfold rowCandidate
  simp only [hlen2, if_false, hhref, hc, Bool.not_true, hparam, List.any_cons, List.any_nil,
    stringsContains_empty, Bool.or_false, Bool.false_eq_true]

theorem ishex_percent : ishex '%' = false := by decide

theorem unescapeBytes_other (c : Char) (rest : List Char) (hc : c ≠ '%')
    (h : unescapeBytes rest = none) : unescapeBytes (c :: rest) = none := by
  unfold unescapeBytes
  simp only [hc, if_false, h]

theorem unescapeBytes_short (rest : List Char) (h : rest.length < 2) :
    unescapeBytes ('%' :: rest) = none := by
  unfold unescapeBytes
  match rest, h with
  | [], _ => simp
  | [a], _ => simp
  | a :: b :: tl, h => simp only [List.length_cons] at h; omega

theorem unescapeBytes_not_hex (a b : Char) (tl : List Char)
    (h : (ishex a && ishex b) = false) : unescapeBytes ('%' :: a :: b :: tl) = none := by
  unfold unescapeBytes
  simp [h]

theorem unescapeBytes_after_hex (a b : Char) (tl : List Char)
    (h : unescapeBytes tl = none) : unescapeBytes ('%' :: a :: b :: tl) = none := by
  unfold unescapeBytes
  by_cases hx : (ishex a && ishex b) = true
  · simp [hx, h]
  · simp [hx]

theorem unescapeBytes_at_bad (rest : List Char)
    (hrest : ∀ a b tl, rest = a :: b :: tl → (ishex a && ishex b) = false) :
    unescapeBytes ('%' :: rest) = none := by
  match rest, hrest with
  | [], _ => exact unescapeBytes_short [] (by simp)
  | [a], _ => exact unescapeBytes_short [a] (by simp)
  | a :: b :: tl, hrest => exact unescapeBytes_not_hex a b tl (hrest a b tl rfl)

/-- A `%` that is not followed by two hex digits makes the whole value fail to
decode, whatever precedes it. -/
theorem unescapeBytes_bad_escape (n : Nat) (pre rest : List Char) (hn : pre.length ≤ n)
    (hrest : ∀ a b tl, rest = a :: b :: tl → (ishex a && ishex b) = false) :
    unescapeBytes (pre ++ '%' :: rest) = none := by
  induction n generalizing pre with
  | zero =>
    have : pre = [] := List.length_eq_zero.mp (by omega)
    subst this
    exact unescapeBytes_at_bad rest hrest
  | succ n ih =>
    match pre, hn with
    | [], _ => exact unescapeBytes_at_bad rest hrest
    | [c], _ =>
      have h0 : unescapeBytes ('%' :: rest) = none := unescapeBytes_at_bad rest hrest
      by_cases hc : c = '%'
      · subst hc
        match rest with
        | [] => exact unescapeBytes_short _ (by simp)
        | a :: tl => exact unescapeBytes_not_hex '%' a tl (by simp [ishex_percent])
      · exact unescapeBytes_other c _ hc h0
    | [c, a], hn2 =>
      have h1 : unescapeBytes ([a] ++ '%' :: rest) = none :=
        ih [a] (by simp only [List.length_cons, List.length_nil] at hn2 ⊢; omega)
      by_cases hc : c = '%'
      · subst hc
        exact unescapeBytes_not_hex a '%' rest (by simp [ishex_percent])
      · exact unescapeBytes_other c _ hc h1
    | c :: a :: b :: pre2, hn2 =>
      have h1 : unescapeBytes ((a :: b :: pre2) ++ '%' :: rest) = none :=
        ih (a :: b :: pre2) (by simp only [List.length_cons] at hn2 ⊢; omega)
      have h2 : unescapeBytes (pre2 ++ '%' :: rest) = none :=
        ih pre2 (by simp only [List.length_cons] at hn2; omega)
      by_cases hc : c = '%'
      · subst hc
        exact unescapeBytes_after_hex a b _ h2
      · exact unescapeBytes_other c _ hc h1

/-! ## Lemmas on the integer parsers -/

theorem parseDigits_eq (cs : List Char) (n : Nat) :
    parseDigits cs n =
      if cs.all isDigit = true then
        some (cs.foldl (fun n c => n * 10 + (c.toNat - 48)) n)
      else none := by
  induction cs generalizing n with
  | nil => simp [parseDigits]
  | cons c rest ih =>
    unfold parseDigits
    by_cases hc : isDigit c = true
    · simp only [hc, if_true, ih, List.all_cons, Bool.true_and, List.foldl_cons]
    · simp only [hc, List.all_cons, Bool.false_eq_true, if_false]
      simp [Bool.eq_false_iff.mpr hc]

theorem acceptDigits_eq (cs : List Char) : acceptDigits cs = cs.takeWhile isDigit := by
  induction cs with
  | nil => rfl
  | cons c rest ih =>
    unfold acceptDigits
    by_cases hc : isDigit c = true
    · simp [hc, ih, List.takeWhile]
    · simp [hc, List.takeWhile]

theorem isSign_iff (c : Char) : isSign c = true ↔ c = '+' ∨ c = '-' := by
  simp [isSign]

theorem isDigit_not_sign (c : Char) (h : isSign c = true) : isDigit c = false := by
  rcases (isSign_iff c).mp h with rfl | rfl <;> decide

theorem parseInt_eq (t : String) :
    parseInt t.data =
      if isDecimalInteger t = true ∧ isGoInt (decimalValue t) = true then
        some (decimalValue t)
      else none := by
  unfold parseInt isDecimalInteger decimalValue
  cases ht : t.data with
  | nil => simp
  | cons c rest =>
    simp only
    by_cases hs : isSign c = true
    · simp only [hs, if_true]
      cases rest with
      | nil => simp
      | cons r rs =>
        have hne : ¬ (r :: rs) = [] := by simp
        simp only [hne, if_false, parseDigits_eq, List.isEmpty_cons, Bool.not_false,
          Bool.true_and]
        by_cases hall : (r :: rs).all isDigit = true
        · simp only [hall, if_true, true_and]
          rcases (isSign_iff c).mp hs with rfl | rfl
          · simp [digitsValue]
          · simp [digitsValue]
        · simp only [hall, if_false, false_and]
          simp
    · have hm : ¬ c = '-' := fun h => hs ((isSign_iff c).mpr (Or.inr h))
      have hp : ¬ c = '+' := fun h => hs ((isSign_iff c).mpr (Or.inl h))
      have hne : ¬ (c :: rest) = [] := by simp
      simp only [hs, hm, hp, if_false, hne, parseDigits_eq, Bool.false_eq_true]
      by_cases hall : (c :: rest).all isDigit = true
      · simp only [hall, if_true, true_and]
        simp [digitsValue]
      · simp only [hall, if_false, false_and]
        simp

theorem spaceSeqs_length_pos : ∀ p ∈ spaceSeqs, p.length ≠ 0 := by decide

theorem spaceWidth_eq_zero_iff (cs : List Char) :
    spaceWidth cs = 0 ↔ ∀ p ∈ spaceSeqs, ¬ p <+: cs.map Char.toNat := by
  unfold spaceWidth
  cases hf : spaceSeqs.find? (fun p => p.isPrefixOf (cs.map Char.toNat)) with
  | none =>
    simp only [true_iff]
    intro p hp hpre
    have := List.find?_eq_none.mp hf p hp
    exact this (List.isPrefixOf_iff_prefix.mpr hpre)
  | some p =>
    have hmem : p ∈ spaceSeqs := List.mem_of_find?_eq_some hf
    have hpre : p.isPrefixOf (cs.map Char.toNat) = true :=
      @List.find?_some _ (fun q : List Nat => q.isPrefixOf (cs.map Char.toNat)) p spaceSeqs hf
    simp only
    constructor
    · intro h0
      exact absurd h0 (spaceSeqs_length_pos p hmem)
    · intro hall
      exact absurd (List.isPrefixOf_iff_prefix.mp hpre) (hall p hmem)

theorem spaceWidth_of_head (cs l : List Char) (hpre : l <+: cs) (h : spaceWidth cs = 0) :
    spaceWidth l = 0 := by
  rw [spaceWidth_eq_zero_iff] at h ⊢
  intro p hp hpl
  exact h p hp (hpl.trans (hpre.map Char.toNat))

theorem spaceWidth_trimLeftSpace (n : Nat) (cs : List Char) (hn : cs.length ≤ n) :
    spaceWidth (trimLeftSpace n cs) = 0 := by
  induction n generalizing cs with
  | zero =>
    have : cs = [] := List.length_eq_zero.mp (by omega)
    subst this
    decide
  | succ n ih =>
    unfold trimLeftSpace
    by_cases hw : spaceWidth cs = 0
    · simp only [hw, if_true]
    · simp only [hw, if_false]
      apply ih
      rw [List.length_drop]
      omega

theorem trimRightSpaceRev_drop (n : Nat) (rev : List Char) :
    ∃ k, trimRightSpaceRev n rev = rev.drop k := by
  induction n generalizing rev with
  | zero => exact ⟨0, by simp [trimRightSpaceRev]⟩
  | succ n ih =>
    unfold trimRightSpaceRev
    by_cases hw : spaceWidthRev rev = 0
    · exact ⟨0, by simp [hw]⟩
    · obtain ⟨k, hk⟩ := ih (rev.drop (spaceWidthRev rev))
      exact ⟨spaceWidthRev rev + k, by simp only [hw, if_false, hk, List.drop_drop]⟩

theorem spaceWidth_trimSpaceBytes (cs : List Char) : spaceWidth (trimSpaceBytes cs) = 0 := by
  unfold trimSpaceBytes
  obtain ⟨k, hk⟩ := trimRightSpaceRev_drop cs.length (trimLeftSpace cs.length cs).reverse
  rw [hk]
  apply spaceWidth_of_head (trimLeftSpace cs.length cs)
  · rw [← List.reverse_reverse (trimLeftSpace cs.length cs)]
    rw [List.reverse_prefix]
    simp only [List.reverse_reverse]
    exact List.drop_suffix k _
  · exact spaceWidth_trimLeftSpace cs.length cs (le_refl _)

theorem skipSpace_of_spaceWidth (n : Nat) (cs : List Char) (h : spaceWidth cs = 0) :
    skipSpace n cs = some cs := by
  cases n with
  | zero => rfl
  | succ n =>
    unfold skipSpace
    cases cs with
    | nil => rfl
    | cons c rest =>
      have hr : ¬ c = '\r' := by
        rintro rfl
        have h1 := (spaceWidth_eq_zero_iff _).mp h [0x0D] (by decide)
        exact h1 (by simp)
      have hn : ¬ c = '\n' := by
        rintro rfl
        have h1 := (spaceWidth_eq_zero_iff _).mp h [0x0A] (by decide)
        exact h1 (by simp)
      simp only [hr, hn, false_and, if_false, h, if_true]

theorem sscanfInt_eq (t : String) (h : spaceWidth t.data = 0) :
    sscanfInt t =
      match leadingInteger t with
      | some tok => parseInt tok.data
      | none => none := by
  unfold sscanfInt leadingInteger
  rw [skipSpace_of_spaceWidth _ _ h]
  cases ht : t.data with
  | nil => rfl
  | cons c rest =>
    simp only [acceptDigits_eq]
    by_cases hs : isSign c = true
    · simp only [hs, if_true]
      by_cases he : rest.takeWhile isDigit = []
      · simp [he]
      · simp [he]
    · simp only [hs, Bool.false_eq_true, if_false]
      by_cases he : (c :: rest).takeWhile isDigit = []
      · simp [he]
      · simp [he]

theorem all_takeWhile_isDigit (cs : List Char) : (cs.takeWhile isDigit).all isDigit = true := by
  induction cs with
  | nil => rfl
  | cons c rest ih =>
    by_cases hc : isDigit c = true
    · simp [List.takeWhile, hc, ih]
    · simp [List.takeWhile, hc]

theorem takeWhile_of_all (cs : List Char) (h : cs.all isDigit = true) :
    cs.takeWhile isDigit = cs := by
  induction cs with
  | nil => rfl
  | cons c rest ih =>
    simp only [List.all_cons, Bool.and_eq_true] at h
    simp [List.takeWhile, h.1, ih h.2]

theorem leadingInteger_isDecimal (t tok : String) (h : leadingInteger t = some tok) :
    isDecimalInteger tok = true := by
  unfold leadingInteger at h
  cases ht : t.data with
  | nil => simp [ht] at h
  | cons c rest =>
    simp only [ht] at h
    by_cases hs : isSign c = true
    · simp only [hs, if_true] at h
      by_cases he : (rest.takeWhile isDigit).isEmpty = true
      · simp [he] at h
      · simp only [he, Bool.false_eq_true, if_false, Option.some.injEq] at h
        subst h
        simp only [isDecimalInteger, hs, if_true, all_takeWhile_isDigit, Bool.and_true]
        simpa using he
    · simp only [hs, Bool.false_eq_true, if_false] at h
      by_cases he : ((c :: rest).takeWhile isDigit).isEmpty = true
      · simp [he] at h
      · simp only [he, Bool.false_eq_true, if_false, Option.some.injEq] at h
        subst h
        have hc : isDigit c = true := by
          by_contra hc
          simp [List.takeWhile, hc] at he
        have hns : isSign c = false := Bool.eq_false_iff.mpr hs
        simp only [isDecimalInteger, List.takeWhile, hc, hns, Bool.false_eq_true, if_false,
          List.all_cons, Bool.true_and, all_takeWhile_isDigit]

theorem leadingInteger_of_isDecimal (t : String) (h : isDecimalInteger t = true) :
    leadingInteger t = some t := by
  unfold isDecimalInteger at h
  unfold leadingInteger
  have hmk : ∀ l, t.data = l → (⟨l⟩ : String) = t := by
    intro l hl
    subst hl
    rfl
  cases ht : t.data with
  | nil => simp [ht] at h
  | cons c rest =>
    simp only [ht] at h
    by_cases hs : isSign c = true
    · simp only [hs, if_true, Bool.and_eq_true] at h
      simp only [hs, if_true, takeWhile_of_all rest h.2]
      have hne : rest.isEmpty = false := by simpa using h.1
      simp only [hne, Bool.false_eq_true, if_false, hmk _ ht]
    · simp only [hs, Bool.false_eq_true, if_false] at h
      simp only [hs, Bool.false_eq_true, if_false, takeWhile_of_all _ h, List.isEmpty_cons,
        hmk _ ht]

/-- What `parseFileCount` returns, in terms of the integer the stripped text
begins with. -/
theorem parseFileCount_eq (s : String) :
    parseFileCount s =
      match leadingInteger (strippedCount s) with
      | some tok => if isGoInt (decimalValue tok) = true then decimalValue tok else 0
      | none => 0 := by
  have hw : spaceWidth (strippedCount s).data = 0 := spaceWidth_trimSpaceBytes _
  have hp : parseFileCount s =
      match strconvAtoi (strippedCount s) with
      | some count => count
      | none =>
        match sscanfInt (strippedCount s) with
        | some count => count
        | none => 0 := rfl
  rw [hp, sscanfInt_eq _ hw]
  unfold strconvAtoi
  rw [parseInt_eq (strippedCount s)]
  by_cases hd : isDecimalInteger (strippedCount s) = true
  · rw [leadingInteger_of_isDecimal _ hd]
    by_cases hr : isGoInt (decimalValue (strippedCount s)) = true
    · simp [hd, hr]
    · simp [hd, hr, parseInt_eq (strippedCount s)]
  · cases hl : leadingInteger (strippedCount s) with
    | none => simp [hd]
    | some tok =>
      have htok := leadingInteger_isDecimal _ _ hl
      by_cases hr : isGoInt (decimalValue tok) = true
      · simp [hd, hr, htok, parseInt_eq tok]
      · simp [hd, hr, htok, parseInt_eq tok]

/-! ## Lemmas on `strings.Index` and `extractBucketParam` -/

theorem indexFrom_spec (sub cs : List Char) (i : Nat) :
    (indexFrom sub cs i = -1 ∧ ∀ j, j ≤ cs.length → ¬ sub <+: cs.drop j) ∨
    (∃ k, k ≤ cs.length ∧ indexFrom sub cs i = ((i + k : Nat) : Int) ∧ sub <+: cs.drop k ∧
      ∀ j, j < k → ¬ sub <+: cs.drop j) := by
  induction cs generalizing i with
  | nil =>
    unfold indexFrom
    by_cases hs : sub = []
    · right
      refine ⟨0, le_refl _, by simp [hs], by simp [hs], ?_⟩
      intro j hj
      omega
    · left
      refine ⟨by simp [hs], ?_⟩
      intro j _ hpre
      simp only [List.drop_nil, List.prefix_nil] at hpre
      exact hs hpre
  | cons c rest ih =>
    unfold indexFrom
    by_cases hp : sub.isPrefixOf (c :: rest) = true
    · right
      refine ⟨0, Nat.zero_le _, by simp [hp], ?_, ?_⟩
      · simpa using List.isPrefixOf_iff_prefix.mp hp
      · intro j hj
        omega
    · have hnp : ¬ sub <+: c :: rest := fun h => hp (List.isPrefixOf_iff_prefix.mpr h)
      simp only [hp, Bool.false_eq_true, if_false]
      rcases ih (i + 1) with ⟨h1, h2⟩ | ⟨k, hk, h1, h2, h3⟩
      · left
        refine ⟨h1, ?_⟩
        intro j hj
        cases j with
        | zero => simpa using hnp
        | succ j =>
          simp only [List.drop_succ_cons]
          exact h2 j (by simp only [List.length_cons] at hj; omega)
      · right
        refine ⟨k + 1, by simp only [List.length_cons]; omega, ?_, ?_, ?_⟩
        · rw [h1]
          congr 1
          omega
        · simpa using h2
        · intro j hj
          cases j with
          | zero => simpa using hnp
          | succ j =>
            simp only [List.drop_succ_cons]
            exact h3 j (by omega)

theorem stringsContains_iff (s sub : String) :
    stringsContains s sub = true ↔ ∃ j, j ≤ s.data.length ∧ sub.data <+: s.data.drop j := by
  unfold stringsContains stringsIndex
  rcases indexFrom_spec sub.data s.data 0 with ⟨h1, h2⟩ | ⟨k, hk, h1, h2, _⟩
  · rw [h1]
    simp only [ge_iff_le, decide_eq_true_eq]
    constructor
    · intro h
      omega
    · rintro ⟨j, hj, hpre⟩
      exact absurd hpre (h2 j hj)
  · rw [h1]
    simp only [ge_iff_le, decide_eq_true_eq]
    constructor
    · intro _
      exact ⟨k, hk, h2⟩
    · intro _
      exact Int.ofNat_nonneg _

theorem not_mem_of_no_occurrence (c : Char) (cs : List Char)
    (h : ∀ j, j ≤ cs.length → ¬ [c] <+: cs.drop j) : c ∉ cs := by
  induction cs with
  | nil => simp
  | cons x rest ih =>
    intro hmem
    rcases List.mem_cons.mp hmem with rfl | hm
    · exact h 0 (Nat.zero_le _) (by simp)
    · refine ih ?_ hm
      intro j hj
      have := h (j + 1) (by simp only [List.length_cons]; omega)
      simpa using this

theorem not_mem_take_of_first (c : Char) (cs : List Char) (m : Nat)
    (h : ∀ j, j < m → ¬ [c] <+: cs.drop j) : c ∉ cs.take m := by
  induction cs generalizing m with
  | nil => simp
  | cons x rest ih =>
    cases m with
    | zero => simp
    | succ m =>
      intro hmem
      simp only [List.take_succ_cons, List.mem_cons] at hmem
      rcases hmem with rfl | hm
      · exact h 0 (Nat.succ_pos _) (by simp)
      · refine ih m ?_ hm
        intro j hj
        have := h (j + 1) (by omega)
        simpa using this

theorem extractBucketParam_unfold (u : String) :
    extractBucketParam u =
      if indexFrom "bucket=".data u.data 0 = -1 then ""
      else if indexFrom "&".data
          (u.data.drop (indexFrom "bucket=".data u.data 0 + 7).toNat) 0 = -1 then
        ⟨u.data.drop (indexFrom "bucket=".data u.data 0 + 7).toNat⟩
      else
        ⟨(u.data.take (indexFrom "bucket=".data u.data 0 + 7 +
            indexFrom "&".data
              (u.data.drop (indexFrom "bucket=".data u.data 0 + 7).toNat) 0).toNat).drop
          (indexFrom "bucket=".data u.data 0 + 7).toNat⟩ := rfl

theorem extractBucketParam_found (u : String) (h : stringsContains u "bucket=" = true) :
    ∃ pre tail : List Char,
      u.data = pre ++ "bucket=".data ++ (extractBucketParam u).data ++ tail ∧
      (∀ j, j < pre.length → ¬ "bucket=".data <+: u.data.drop j) ∧
      '&' ∉ (extractBucketParam u).data ∧
      (tail = [] ∨ ∃ t, tail = '&' :: t) := by
  rcases indexFrom_spec "bucket=".data u.data 0 with ⟨h1, _⟩ | ⟨k, hk, h1, h2, h3⟩
  · exfalso
    unfold stringsContains stringsIndex at h
    rw [h1] at h
    simp at h
  · obtain ⟨rest, hrest⟩ := h2
    have hstart : indexFrom "bucket=".data u.data 0 = (k : Int) := by
      rw [h1, Nat.zero_add]
    have hne : ¬ (k : Int) = -1 := by omega
    have hnat : ((k : Int) + 7).toNat = k + 7 := by omega
    have hdrop : u.data.drop (k + 7) = rest := by
      have h7 : ("bucket=".data ++ rest).drop 7 = rest := rfl
      rw [← h7, hrest, List.drop_drop]
    have hu : u.data = u.data.take k ++ "bucket=".data ++ rest := by
      rw [List.append_assoc, hrest, List.take_append_drop]
    have hlen : (u.data.take k).length = k := by
      rw [List.length_take]
      omega
    rcases indexFrom_spec ['&'] rest 0 with ⟨i1, i2⟩ | ⟨m, hm, i1, i2, i3⟩
    · have hidx : indexFrom "&".data rest 0 = -1 := i1
      have hres : extractBucketParam u = ⟨rest⟩ := by
        rw [extractBucketParam_unfold, hstart, if_neg hne, hnat, hdrop, hidx, if_pos rfl]
      refine ⟨u.data.take k, [], ?_, ?_, ?_, Or.inl rfl⟩
      · rw [hres, List.append_nil]
        exact hu
      · intro j hj
        exact h3 j (by omega)
      · rw [hres]
        exact not_mem_of_no_occurrence '&' rest i2
    · have hidx : indexFrom "&".data rest 0 = (m : Int) := by
        have : indexFrom "&".data rest 0 = ((0 + m : Nat) : Int) := i1
        rw [this, Nat.zero_add]
      have hm1 : ¬ (m : Int) = -1 := by omega
      have hnat2 : ((k : Int) + 7 + (m : Int)).toNat = (k + 7) + m := by omega
      have hres : extractBucketParam u = ⟨rest.take m⟩ := by
        rw [extractBucketParam_unfold, hstart, if_neg hne, hnat, hdrop, hidx, if_neg hm1, hnat2,
          List.drop_take, hdrop]
        simp
      obtain ⟨t, ht⟩ := i2
      refine ⟨u.data.take k, rest.drop m, ?_, ?_, ?_, Or.inr ⟨t, ?_⟩⟩
      · rw [hres]
        simp only [List.append_assoc, List.take_append_drop]
        rw [← List.append_assoc]
        exact hu
      · intro j hj
        exact h3 j (by omega)
      · rw [hres]
        exact not_mem_take_of_first '&' rest m i3
      · exact ht.symm

theorem extractBucketParam_absent (u : String) (h : stringsContains u "bucket=" = false) :
    extractBucketParam u = "" := by
  unfold stringsContains at h
  rcases indexFrom_range "bucket=".data u.data 0 with h1 | h1
  · unfold extractBucketParam
    simp [stringsIndex, h1]
  · exfalso
    simp only [stringsIndex, ge_iff_le, decide_eq_false_iff_not] at h
    exact h h1

/-! ## Frame lemmas: what the page parser leaves alone -/

theorem insertBucket_frame (st : State) (d : String) (c : Int) (t : String) :
    (insertBucket st d c t).1.totalRequests = st.totalRequests ∧
    (insertBucket st d c t).1.successCount = st.successCount ∧
    (insertBucket st d c t).1.lastStatusCode = st.lastStatusCode ∧
    (insertBucket st d c t).1.errorCount = st.errorCount := by
  unfold insertBucket
  cases hd : st.existingBuckets.get d with
  | true => simp
  | false => cases hg : st.guiUpdates <;> simp [hg]

theorem processRow_frame (st : State) (minFiles : Int) (now : String) (cols : Row) :
    (processRow st minFiles now cols).totalRequests = st.totalRequests ∧
    (processRow st minFiles now cols).successCount = st.successCount ∧
    (processRow st minFiles now cols).lastStatusCode = st.lastStatusCode ∧
    (processRow st minFiles now cols).errorCount = st.errorCount := by
  unfold processRow
  cases rowCandidate minFiles cols with
  | none => simp
  | some dc => exact insertBucket_frame st dc.1 dc.2 now

theorem processRows_frame (minFiles : Int) (clock : Nat → String) (rows : List Row) (i : Nat)
    (st : State) :
    (processRows minFiles clock rows i st).totalRequests = st.totalRequests ∧
    (processRows minFiles clock rows i st).successCount = st.successCount ∧
    (processRows minFiles clock rows i st).lastStatusCode = st.lastStatusCode ∧
    (processRows minFiles clock rows i st).errorCount = st.errorCount := by
  induction rows generalizing i st with
  | nil => simp [processRows]
  | cons cols rest ih =>
    unfold processRows
    have h1 := ih (i + 1) (processRow st minFiles (clock i) cols)
    have h2 := processRow_frame st minFiles (clock i) cols
    exact ⟨h1.1.trans h2.1, h1.2.1.trans h2.2.1, h1.2.2.1.trans h2.2.2.1,
      h1.2.2.2.trans h2.2.2.2⟩

theorem processResponse_frame (st : State) (minFiles : Int) (clock : Nat → String)
    (doc : Option (List Row)) :
    (processResponse st minFiles clock doc).totalRequests = st.totalRequests ∧
    (processResponse st minFiles clock doc).successCount = st.successCount ∧
    (processResponse st minFiles clock doc).lastStatusCode = st.lastStatusCode ∧
    (processResponse st minFiles clock doc).errorCount = st.errorCount := by
  cases doc with
  | none => simp [processResponse]
  | some rows => exact processRows_frame minFiles clock rows 0 st

/-! ## Lemmas on page processing -/

theorem processRows_eq_runInserts (minFiles : Int) (clock : Nat → String) (rows : List Row)
    (i : Nat) (st : State) :
    processRows minFiles clock rows i st =
      runInserts st (pageCandidates minFiles clock rows i) := by
  induction rows generalizing i st with
  | nil => rfl
  | cons cols rest ih =>
    unfold processRows pageCandidates processRow
    cases hc : rowCandidate minFiles cols with
    | none => simp only [ih]
    | some dc =>
      obtain ⟨d, c⟩ := dc
      simp only [ih, runInserts]

theorem insertBucket_counters_known (st : State) (d : String) (c : Int) (t : String)
    (h : st.existingBuckets.get d = true) :
    (insertBucket st d c t).1 = st := by
  rw [insertBucket_known st d c t h]

theorem runInserts_firstNew (known : String → Bool) (ops : List (String × Int × String))
    (earlier : List String) (st : State)
    (hrel : ∀ k, st.existingBuckets.get k = true ↔ (known k = true ∨ k ∈ earlier)) :
    (runInserts st ops).buckets = st.buckets ++ firstNew known earlier ops ∧
    (runInserts st ops).bucketsFound =
      st.bucketsFound + ((firstNew known earlier ops).length : Int) ∧
    (runInserts st ops).newBucketsFound =
      st.newBucketsFound + ((firstNew known earlier ops).length : Int) := by
  induction ops generalizing earlier st with
  | nil => simp [runInserts, firstNew]
  | cons op rest ih =>
    obtain ⟨d, c, t⟩ := op
    unfold runInserts firstNew
    cases hd : st.existingBuckets.get d with
    | true =>
      have hk : ¬ (known d = false ∧ d ∉ earlier) := by
        rintro ⟨h1, h2⟩
        rcases (hrel d).mp hd with h | h
        · rw [h1] at h
          exact Bool.noConfusion h
        · exact h2 h
      rw [insertBucket_counters_known st d c t hd]
      simp only [hk, if_false]
      apply ih
      intro k
      rw [hrel k, List.mem_append, List.mem_singleton]
      constructor
      · rintro (h | h)
        · exact Or.inl h
        · exact Or.inr (Or.inl h)
      · rintro (h | h | h)
        · exact Or.inl h
        · exact Or.inr h
        · subst h
          exact (hrel k).mp hd
    | false =>
      have hk : known d = false ∧ d ∉ earlier := by
        constructor
        · cases hkd : known d with
          | false => rfl
          | true =>
            have := (hrel d).mpr (Or.inl hkd)
            rw [hd] at this
            exact Bool.noConfusion this
        · intro hmem
          have := (hrel d).mpr (Or.inr hmem)
          rw [hd] at this
          exact Bool.noConfusion this
      rw [if_pos hk]
      have hnew : (insertBucket st d c t).1.buckets = st.buckets ++ [⟨d, c, t⟩] ∧
          (insertBucket st d c t).1.bucketsFound = st.bucketsFound + 1 ∧
          (insertBucket st d c t).1.newBucketsFound = st.newBucketsFound + 1 :=
        ⟨insertBucket_buckets_new st d c t hd, (insertBucket_counters_new st d c t hd).2⟩
      have hrel2 : ∀ k, (insertBucket st d c t).1.existingBuckets.get k = true ↔
          (known k = true ∨ k ∈ earlier ++ [d]) := by
        intro k
        rw [insertBucket_map_new st d c t hd, List.mem_append, List.mem_singleton]
        by_cases hkd : k = d
        · subst hkd
          rw [BoolMap.get_set_self]
          simp
        · rw [BoolMap.get_set_other _ _ _ _ hkd, hrel k]
          constructor
          · rintro (h | h)
            · exact Or.inl h
            · exact Or.inr (Or.inl h)
          · rintro (h | h | h)
            · exact Or.inl h
            · exact Or.inr h
            · exact absurd h hkd
      obtain ⟨h1, h2, h3⟩ := ih (earlier ++ [d]) (insertBucket st d c t).1 hrel2
      rw [h1, h2, h3, hnew.1, hnew.2.1, hnew.2.2]
      refine ⟨by simp, ?_, ?_⟩
      · simp only [List.length_cons, Nat.cast_add, Nat.cast_one]
        omega
      · simp only [List.length_cons, Nat.cast_add, Nat.cast_one]
        omega

theorem rowCandidate_threshold (minFiles : Int) (cols : Row) (d : String) (c : Int)
    (h : rowCandidate minFiles cols = some (d, c)) : minFiles ≤ c := by
  unfold rowCandidate at h
  by_cases h1 : cols.length < 4
  · simp [h1] at h
  · cases h2 : (cols.eq 1).href with
    | none => simp [h1, h2] at h
    | some u =>
      by_cases h3 : stringsContains u "bucket=" = true
      · by_cases h4 : extractBucketParam u = ""
        · simp [h1, h2, h3, h4] at h
        · by_cases h5 : parseFileCount (stringsTrimSpace (cols.eq 2).text) < minFiles
          · simp [h1, h2, h3, h4, h5, stringsContains_empty] at h
          · simp only [h1, h2, h3, h4, h5, stringsContains_empty, if_false, Bool.not_true,
              List.any_cons, List.any_nil, Bool.or_false, Bool.false_eq_true,
              Option.some.injEq, Prod.mk.injEq] at h
            obtain ⟨_, rfl⟩ := h
            omega
      · simp [h1, h2, h3] at h

theorem pageCandidates_threshold (minFiles : Int) (clock : Nat → String) (rows : List Row)
    (i : Nat) : ∀ op ∈ pageCandidates minFiles clock rows i, minFiles ≤ op.2.1 := by
  induction rows generalizing i with
  | nil => simp [pageCandidates]
  | cons cols rest ih =>
    unfold pageCandidates
    cases hc : rowCandidate minFiles cols with
    | none => exact ih (i + 1)
    | some dc =>
      obtain ⟨d, c⟩ := dc
      intro op hop
      simp only [List.mem_cons] at hop
      rcases hop with rfl | hop
      · exact rowCandidate_threshold minFiles cols d c hc
      · exact ih (i + 1) op hop

theorem firstNew_subset (known : String → Bool) (ops : List (String × Int × String))
    (earlier : List String) :
    ∀ b ∈ firstNew known earlier ops, (b.URL, b.FileCount, b.ScrapedAt) ∈ ops := by
  induction ops generalizing earlier with
  | nil => simp [firstNew]
  | cons op rest ih =>
    obtain ⟨d, c, t⟩ := op
    unfold firstNew
    intro b hb
    split at hb
    · simp only [List.mem_cons] at hb
      rcases hb with rfl | hb
      · simp
      · exact List.mem_cons_of_mem _ (ih _ b hb)
    · exact List.mem_cons_of_mem _ (ih _ b hb)

theorem processResponse_appended (st : State) (minFiles : Int) (clock : Nat → String)
    (rows : List Row) :
    (processResponse st minFiles clock (some rows)).buckets =
      st.buckets ++ firstNew (fun k => st.existingBuckets.get k) []
        (pageCandidates minFiles clock rows 0) ∧
    (processResponse st minFiles clock (some rows)).bucketsFound =
      st.bucketsFound + ((firstNew (fun k => st.existingBuckets.get k) []
        (pageCandidates minFiles clock rows 0)).length : Int) ∧
    (processResponse st minFiles clock (some rows)).newBucketsFound =
      st.newBucketsFound + ((firstNew (fun k => st.existingBuckets.get k) []
        (pageCandidates minFiles clock rows 0)).length : Int) := by
  unfold processResponse
  simp only [processRows_eq_runInserts]
  exact runInserts_firstNew (fun k => st.existingBuckets.get k) _ [] st (by simp)

/-! ## Lemmas on concurrent inserts -/

theorem countP_set_eq {α : Type} (p : α → Bool) (l : List α) (i : Nat) (t t2 : α)
    (h : l[i]? = some t) :
    (l.set i t2).countP p + (if p t = true then 1 else 0) =
      l.countP p + (if p t2 = true then 1 else 0) := by
  induction l generalizing i with
  | nil => simp at h
  | cons x rest ih =>
    cases i with
    | zero =>
      simp only [List.getElem?_cons_zero, Option.some.injEq] at h
      subst h
      simp only [List.set_cons_zero, List.countP_cons]
      omega
    | succ i =>
      simp only [List.getElem?_cons_succ] at h
      have := ih i h
      simp only [List.set_cons_succ, List.countP_cons]
      omega

theorem mem_of_getElem?_eq {α : Type} (l : List α) (i : Nat) (t : α) (h : l[i]? = some t) :
    t ∈ l := by
  obtain ⟨hi, rfl⟩ := List.getElem?_eq_some_iff.mp h
  exact List.getElem_mem hi

theorem insertBucket_eq_append (st : State) (d : String) (c : Int) (t : String) :
    insertBucket st d c t =
      if st.existingBuckets.get d = true then (st, false) else (appendBucket st d c t, true) :=
  rfl

theorem appendBucket_facts (st : State) (d : String) (c : Int) (t : String) :
    (appendBucket st d c t).buckets = st.buckets ++ [⟨d, c, t⟩] ∧
    (appendBucket st d c t).existingBuckets = st.existingBuckets.set d true ∧
    (appendBucket st d c t).bucketsFound = st.bucketsFound + 1 ∧
    (appendBucket st d c t).newBucketsFound = st.newBucketsFound + 1 := by
  unfold appendBucket
  cases hg : st.guiUpdates <;> simp [hg]

theorem countIdentity_append (st : State) (d : String) (c : Int) (t : String) :
    countIdentity (appendBucket st d c t) d = countIdentity st d + 1 := by
  unfold countIdentity
  rw [(appendBucket_facts st d c t).1, List.countP_append]
  simp

theorem stepInsert_inv (d : String) (n0 : Int) (sys : InsertSys) (i : Nat)
    (h : InsertInv d n0 sys) : InsertInv d n0 (stepInsert sys i) := by
  obtain ⟨hdec, hin, hcnt, hnew, hins, habs, hfin⟩ := h
  unfold stepInsert
  cases hget : sys.tasks[i]? with
  | none => exact ⟨hdec, hin, hcnt, hnew, hins, habs, hfin⟩
  | some t =>
    have htmem : t ∈ sys.tasks := mem_of_getElem?_eq _ _ _ hget
    have htd : t.decoded = d := hdec t htmem
    have hset : ∀ t2 : InsertTask, t2.decoded = d → ∀ x ∈ sys.tasks.set i t2, x.decoded = d := by
      intro t2 h2 x hx
      rcases List.mem_or_eq_of_mem_set hx with hx | hx
      · exact hdec x hx
      · rw [hx]; exact h2
    have cIn := fun t2 => countP_set_eq InsertTask.inside sys.tasks i t t2 hget
    have cIns := fun t2 => countP_set_eq (fun t => t.inserted) sys.tasks i t t2 hget
    have cAbs := fun t2 =>
      countP_set_eq (fun t => decide (t.pc = InsertPc.absent)) sys.tasks i t t2 hget
    have cFin := fun t2 =>
      countP_set_eq (fun t => decide (t.pc = InsertPc.finished)) sys.tasks i t t2 hget
    have hle : sys.tasks.countP (fun t => decide (t.pc = InsertPc.absent)) ≤
        sys.tasks.countP InsertTask.inside := by
      apply List.countP_mono_left
      intro x _ hx
      simp only [decide_eq_true_eq] at hx
      simp [InsertTask.inside, hx]
    simp only
    cases hpc : t.pc with
    | beforeLock =>
      simp only
      cases hm : sys.mutexHeld with
      | true =>
        simp only [if_true]
        exact ⟨hdec, hin, hcnt, hnew, hins, habs, hfin⟩
      | false =>
        simp only [Bool.false_eq_true, if_false]
        have c1 := cIn { t with pc := InsertPc.locked }
        have c2 := cIns { t with pc := InsertPc.locked }
        have c3 := cAbs { t with pc := InsertPc.locked }
        have c4 := cFin { t with pc := InsertPc.locked }
        simp only [InsertTask.inside, hpc, decide_True, decide_False, Bool.or_false,
          Bool.or_self, Bool.false_eq_true, if_false, if_true, reduceCtorEq] at c1 c2 c3 c4
        rw [hm] at hin
        simp only [Bool.false_eq_true, if_false] at hin
        refine ⟨hset _ htd, ?_, hcnt, hnew, ?_, ?_, ?_⟩
        all_goals try dsimp only
        · simp only [if_true]; omega
        · omega
        · intro hg; have := habs hg; omega
        · intro hg; have := hfin hg; omega
    | locked =>
      simp only
      cases hg : sys.st.existingBuckets.get t.decoded with
      | true =>
        simp only [if_true]
        have c1 := cIn { t with pc := InsertPc.finished }
        have c2 := cIns { t with pc := InsertPc.finished }
        have c3 := cAbs { t with pc := InsertPc.finished }
        simp only [InsertTask.inside, hpc, decide_True, decide_False, Bool.or_false,
          Bool.or_self, Bool.true_or, Bool.false_eq_true, if_false, if_true,
          reduceCtorEq] at c1 c2 c3
        rw [htd] at hg
        refine ⟨hset _ htd, ?_, hcnt, hnew, ?_, ?_, ?_⟩
        all_goals try dsimp only
        · simp only [Bool.false_eq_true, if_false]
          split at hin <;> omega
        · omega
        · intro hg2; have := habs hg2; omega
        · intro hg2; rw [hg] at hg2; exact Bool.noConfusion hg2
      | false =>
        simp only [Bool.false_eq_true, if_false]
        have c1 := cIn { t with pc := InsertPc.absent }
        have c2 := cIns { t with pc := InsertPc.absent }
        have c4 := cFin { t with pc := InsertPc.absent }
        simp only [InsertTask.inside, hpc, decide_True, decide_False, Bool.or_false,
          Bool.or_self, Bool.true_or, Bool.or_true, Bool.false_eq_true, if_false, if_true,
          reduceCtorEq] at c1 c2 c4
        rw [htd] at hg
        refine ⟨hset _ htd, ?_, hcnt, hnew, ?_, ?_, ?_⟩
        all_goals try dsimp only
        · omega
        · omega
        · intro hg2; rw [hg] at hg2; exact Bool.noConfusion hg2
        · intro hg2; have := hfin hg2; omega
    | absent =>
      simp only
      have c1 := cIn { t with pc := InsertPc.finished, inserted := true }
      have c2 := cIns { t with pc := InsertPc.finished, inserted := true }
      have c3 := cAbs { t with pc := InsertPc.finished, inserted := true }
      simp only [InsertTask.inside, hpc, decide_True, decide_False, Bool.or_false,
        Bool.or_self, Bool.true_or, Bool.or_true, Bool.false_eq_true, if_false, if_true,
        reduceCtorEq] at c1 c2 c3
      subst htd
      have hgd : sys.st.existingBuckets.get t.decoded = false := by
        cases hg : sys.st.existingBuckets.get t.decoded with
        | false => rfl
        | true => have := habs hg; omega
      rw [hgd] at hcnt
      simp only [Bool.false_eq_true, if_false] at hcnt
      have hf := appendBucket_facts sys.st t.decoded t.count t.now
      have hci := countIdentity_append sys.st t.decoded t.count t.now
      have hgd2 : (appendBucket sys.st t.decoded t.count t.now).existingBuckets.get t.decoded
          = true := by
        rw [hf.2.1, BoolMap.get_set_self]
      refine ⟨hset _ rfl, ?_, ?_, ?_, ?_, ?_, ?_⟩
      all_goals try dsimp only
      · simp only [Bool.false_eq_true, if_false]
        split at hin <;> omega
      · rw [hgd2, hci]; simp only [if_true]; omega
      · rw [hf.2.2.2, hci, hnew]; push_cast; omega
      · rw [hci]
        have hti : t.inserted = false := by
          cases hi : t.inserted with
          | false => rfl
          | true =>
            have : 0 < sys.tasks.countP (fun t => t.inserted) :=
              List.countP_pos_iff.mpr ⟨t, htmem, hi⟩
            omega
        rw [hti] at c2
        simp only [Bool.false_eq_true, if_false] at c2
        omega
      · intro _
        split at hin <;> omega
      · intro hg2; rw [hgd2] at hg2; exact Bool.noConfusion hg2
    | finished =>
      simp only
      exact ⟨hdec, hin, hcnt, hnew, hins, habs, hfin⟩

theorem stepInsert_length (sys : InsertSys) (i : Nat) :
    (stepInsert sys i).tasks.length = sys.tasks.length := by
  unfold stepInsert
  cases hget : sys.tasks[i]? with
  | none => rfl
  | some t =>
    simp only
    cases hpc : t.pc with
    | beforeLock => simp only; split <;> simp
    | locked => simp only; split <;> simp
    | absent => simp
    | finished => rfl

theorem runSchedule_inv (d : String) (n0 : Int) (sched : List Nat) (sys : InsertSys)
    (h : InsertInv d n0 sys) :
    InsertInv d n0 (runSchedule sys sched) ∧
      (runSchedule sys sched).tasks.length = sys.tasks.length := by
  induction sched generalizing sys with
  | nil => exact ⟨h, rfl⟩
  | cons i rest ih =>
    unfold runSchedule
    have := ih (stepInsert sys i) (stepInsert_inv d n0 sys i h)
    exact ⟨this.1, this.2.trans (stepInsert_length sys i)⟩

theorem insertInv_start (st : State) (d : String) (cts : List (Int × String))
    (hmap : st.existingBuckets.get d = false) (hseq : ∀ b ∈ st.buckets, b.URL ≠ d) :
    InsertInv d st.newBucketsFound
      (InsertSys.start st (cts.map (fun ct => (d, ct.1, ct.2)))) := by
  have hz : countIdentity st d = 0 := by
    unfold countIdentity
    rw [List.countP_eq_zero]
    intro b hb
    simpa using hseq b hb
  unfold InsertSys.start
  refine ⟨?_, ?_, ?_, ?_, ?_, ?_, ?_⟩
  · intro t ht
    simp only [List.map_map, List.mem_map, Function.comp] at ht
    obtain ⟨ct, _, rfl⟩ := ht
    rfl
  · simp only [Bool.false_eq_true, if_false, List.countP_eq_zero, List.map_map, List.mem_map,
      Function.comp]
    rintro t ⟨ct, _, rfl⟩
    simp [InsertTask.inside]
  · rw [hz, hmap]; simp
  · rw [hz]; simp
  · rw [hz, List.countP_eq_zero]
    simp only [List.map_map, List.mem_map, Function.comp]
    rintro t ⟨ct, _, rfl⟩
    simp
  · intro hg; rw [hmap] at hg; exact Bool.noConfusion hg
  · intro _
    rw [List.countP_eq_zero]
    simp only [List.map_map, List.mem_map, Function.comp]
    rintro t ⟨ct, _, rfl⟩
    simp

/-! ## Lemmas on the page fetcher -/

theorem runAlone_step (n : Nat) (s s2 : FetchSys) (h : stepScrape s 0 = some s2) :
    runAlone (n + 1) s = runAlone n s2 := by
  simp [runAlone, h]

theorem runAlone_stop (n : Nat) (s : FetchSys) (h : stepScrape s 0 = none) :
    runAlone n s = s := by
  cases n with
  | zero => rfl
  | succ m => simp [runAlone, h]

theorem runAlone_parsing (minFiles : Int) (req : Bool) (r : FetchResult)
    (clock : Nat → String) (rows : List Row) :
    ∀ (row : Nat) (st : State) (n : Nat), rows.length + 1 ≤ n →
      (runAlone n ⟨minFiles, st, [⟨ScrapePc.parsing, req, r, clock, rows, row⟩], false⟩).st =
          processRows minFiles clock rows row st ∧
      (runAlone n ⟨minFiles, st, [⟨ScrapePc.parsing, req, r, clock, rows, row⟩],
          false⟩).panicked = false := by
  induction rows with
  | nil =>
    intro row st n hn
    obtain ⟨m, rfl⟩ : ∃ m, n = m + 1 := ⟨n - 1, by simp at hn; omega⟩
    rw [runAlone_step m _
      ⟨minFiles, st, [⟨ScrapePc.returned, req, r, clock, [], row⟩], false⟩ (by rfl)]
    rw [runAlone_stop m _ (by rfl)]
    exact ⟨rfl, rfl⟩
  | cons cols rest ih =>
    intro row st n hn
    obtain ⟨m, rfl⟩ : ∃ m, n = m + 1 := ⟨n - 1, by simp at hn; omega⟩
    rw [runAlone_step m _
      ⟨minFiles, processRow st minFiles (clock row) cols,
        [⟨ScrapePc.parsing, req, r, clock, rest, row + 1⟩], false⟩ (by rfl)]
    have hm : rest.length + 1 ≤ m := by simp at hn; omega
    exact ih (row + 1) (processRow st minFiles (clock row) cols) m hm

theorem scrape_eq_counters_work (st : State) (minFiles : Int) (clock : Nat → String)
    (r : FetchResult) :
    scrape st minFiles clock true r =
      some (runInserts (scrapeCounters st r) (scrapeWork minFiles clock r)) := by
  unfold scrape FetchSys.start
  simp only [List.map_cons, List.map_nil]
  rw [runAlone_step _ _ ⟨minFiles, st, [⟨ScrapePc.readTotal, true, r, clock, [], 0⟩], false⟩
    (by rfl)]
  rw [runAlone_step _ _
    ⟨minFiles, st, [⟨ScrapePc.writeTotal st.totalRequests, true, r, clock, [], 0⟩], false⟩
    (by rfl)]
  rw [runAlone_step _ _
    ⟨minFiles, { st with totalRequests := st.totalRequests + 1 },
      [⟨afterTotal r, true, r, clock, [], 0⟩], false⟩ (by rfl)]
  cases r with
  | failed resp =>
    rw [runAlone_step _ _
      ⟨minFiles, { st with totalRequests := st.totalRequests + 1 },
        [⟨ScrapePc.writeError st.errorCount, true, FetchResult.failed resp, clock, [], 0⟩],
        false⟩ (by rfl)]
    rw [runAlone_step _ _
      ⟨minFiles,
        { st with totalRequests := st.totalRequests + 1, errorCount := st.errorCount + 1 },
        [⟨ScrapePc.statusOnError, true, FetchResult.failed resp, clock, [], 0⟩], false⟩
      (by rfl)]
    cases resp with
    | none =>
      rw [runAlone_step _ _
        ⟨minFiles,
          { st with totalRequests := st.totalRequests + 1, errorCount := st.errorCount + 1 },
          [⟨ScrapePc.returned, true, FetchResult.failed none, clock, [], 0⟩], false⟩ (by rfl)]
      rw [runAlone_stop _ _ (by rfl)]
      simp [scrapeCounters, scrapeWork, runInserts]
    | some rp =>
      rw [runAlone_step _ _
        ⟨minFiles,
          { st with totalRequests := st.totalRequests + 1, errorCount := st.errorCount + 1,
                    lastStatusCode := rp.StatusCode },
          [⟨ScrapePc.returned, true, FetchResult.failed (some rp), clock, [], 0⟩], false⟩
        (by rfl)]
      rw [runAlone_stop _ _ (by rfl)]
      simp [scrapeCounters, scrapeWork, runInserts]
  | ok resp =>
    by_cases h : resp.StatusCode = 200
    · have ha : afterTotal (FetchResult.ok resp) = ScrapePc.status := by simp [afterTotal, h]
      rw [ha]
      rw [runAlone_step _ _
        ⟨minFiles,
          { st with totalRequests := st.totalRequests + 1, lastStatusCode := resp.StatusCode },
          [⟨ScrapePc.readSuccess, true, FetchResult.ok resp, clock, [], 0⟩], false⟩ (by rfl)]
      rw [runAlone_step _ _
        ⟨minFiles,
          { st with totalRequests := st.totalRequests + 1, lastStatusCode := resp.StatusCode },
          [⟨ScrapePc.writeSuccess st.successCount, true, FetchResult.ok resp, clock, [], 0⟩],
          false⟩ (by rfl)]
      rw [runAlone_step _ _
        ⟨minFiles,
          { st with totalRequests := st.totalRequests + 1, lastStatusCode := resp.StatusCode,
                    successCount := st.successCount + 1 },
          [⟨ScrapePc.parsing, true, FetchResult.ok resp, clock,
            (FetchResult.ok resp).rows, 0⟩], false⟩ (by rfl)]
      have hp := runAlone_parsing minFiles true (FetchResult.ok resp) clock
        (FetchResult.ok resp).rows 0
        { st with totalRequests := st.totalRequests + 1, lastStatusCode := resp.StatusCode,
                  successCount := st.successCount + 1 }
        ((FetchResult.ok resp).rows.length + 1) (Nat.le_refl _)
      rw [hp.2, hp.1]
      simp only [Bool.false_eq_true, if_false, Option.some.injEq]
      rw [processRows_eq_runInserts]
      cases hb : resp.Body with
      | none =>
        simp [scrapeCounters, scrapeWork, FetchResult.rows, FetchResult.response, h, hb,
          pageCandidates]
      | some rows =>
        simp [scrapeCounters, scrapeWork, FetchResult.rows, FetchResult.response, h, hb]
    · have ha : afterTotal (FetchResult.ok resp) = ScrapePc.statusOnError := by
        simp [afterTotal, h]
      rw [ha]
      rw [runAlone_step _ _
        ⟨minFiles,
          { st with totalRequests := st.totalRequests + 1, lastStatusCode := resp.StatusCode },
          [⟨ScrapePc.returned, true, FetchResult.ok resp, clock, [], 0⟩], false⟩ (by rfl)]
      rw [runAlone_stop _ _ (by rfl)]
      simp [scrapeCounters, scrapeWork, runInserts, h]

theorem scrape_nil_request (st : State) (minFiles : Int) (clock : Nat → String)
    (r : FetchResult) :
    scrape st minFiles clock false r = none := by
  unfold scrape FetchSys.start
  simp only [List.map_cons, List.map_nil]
  rw [runAlone_step _ _ ⟨minFiles, st, [⟨ScrapePc.request, false, r, clock, [], 0⟩], true⟩
    (by rfl)]
  rw [runAlone_stop _ _ (by rfl)]
  rfl

/-- A call of `scrape` that no other call overlaps, with a request that is not
nil: it returns, `totalRequests` has grown by one, `successCount` by one for
status 200 only, `errorCount` by one for an error of `client.Do` only,
`lastStatusCode` is the status of a response that came without error, and
the store is untouched unless the status was 200. -/
theorem scrape_alone_transition (st : State) (minFiles : Int) (clock : Nat → String)
    (r : FetchResult) :
    ∃ st2, scrape st minFiles clock true r = some st2 ∧
      st2.totalRequests = st.totalRequests + 1 ∧
      st2.successCount = (if r.isSuccess then st.successCount + 1 else st.successCount) ∧
      st2.errorCount =
        (if r.isTransportError then st.errorCount + 1 else st.errorCount) ∧
      (∀ resp, r = FetchResult.ok resp → st2.lastStatusCode = resp.StatusCode) ∧
      (r.isSuccess = false →
        st2.buckets = st.buckets ∧ st2.existingBuckets = st.existingBuckets ∧
        st2.bucketsFound = st.bucketsFound ∧ st2.newBucketsFound = st.newBucketsFound) := by
  refine ⟨_, scrape_eq_counters_work st minFiles clock r, ?_⟩
  cases r with
  | failed resp =>
    cases resp <;>
      simp [scrapeCounters, scrapeWork, runInserts, FetchResult.isSuccess,
        FetchResult.isTransportError]
  | ok resp =>
    by_cases h : resp.StatusCode = 200
    · have hw : runInserts (scrapeCounters st (FetchResult.ok resp))
          (scrapeWork minFiles clock (FetchResult.ok resp)) =
          processResponse (scrapeCounters st (FetchResult.ok resp)) minFiles clock
            resp.Body := by
        cases hb : resp.Body with
        | none => simp [scrapeWork, h, hb, processResponse, runInserts]
        | some rows =>
          simp [scrapeWork, h, hb, processResponse, processRows_eq_runInserts]
      have hf := processResponse_frame (scrapeCounters st (FetchResult.ok resp)) minFiles
        clock resp.Body
      rw [hw, hf.1, hf.2.1, hf.2.2.1, hf.2.2.2]
      refine ⟨?_, ?_, ?_, ?_, ?_⟩
      · simp [scrapeCounters, h]
      · simp [scrapeCounters, FetchResult.isSuccess, h]
      · simp [scrapeCounters, FetchResult.isTransportError, h]
      · intro resp2 h2
        cases h2
        simp [scrapeCounters, h]
      · intro hs
        simp [FetchResult.isSuccess, h] at hs
    · simp [scrapeCounters, scrapeWork, runInserts, FetchResult.isSuccess,
        FetchResult.isTransportError, h]

/-! ## Lemmas on the dispatcher -/

theorem scrapeCounters_buckets (st : State) (r : FetchResult) :
    (scrapeCounters st r).buckets = st.buckets := by
  cases r with
  | failed resp => cases resp <;> simp [scrapeCounters]
  | ok resp =>
    by_cases h : resp.StatusCode = 200
    · simp [scrapeCounters, h]
    · simp [scrapeCounters, h]

theorem insertBucket_buckets_log (st : State) (d : String) (c : Int) (t : String) :
    (insertBucket st d c t).1.buckets =
      st.buckets ++ (if (insertBucket st d c t).2 = true then [⟨d, c, t⟩] else []) := by
  rw [insertBucket_eq_append]
  by_cases h : st.existingBuckets.get d = true
  · simp [h]
  · simp [h, (appendBucket_facts st d c t).1]

theorem stepTask_inv (b0 : List Bucket) (s s2 : Dispatcher) (i : Nat) (h : DispInv b0 s)
    (hs : stepTask s i = some s2) : DispInv b0 s2 := by
  obtain ⟨k1, k2, k3, k4, k5, k6, k7, k8, k9, k10⟩ := h
  unfold stepTask at hs
  cases hget : s.tasks[i]? with
  | none => simp [hget] at hs
  | some t =>
    have htmem : t ∈ s.tasks := mem_of_getElem?_eq _ _ _ hget
    have cH := fun t2 => countP_set_eq Task.holding s.tasks i t t2 hget
    have cF := fun t2 => countP_set_eq Task.inFlight s.tasks i t t2 hget
    have cN := fun t2 => countP_set_eq Task.past s.tasks i t t2 hget
    simp only [hget] at hs
    cases hph : t.phase with
    | done => simp [hph] at hs
    | starting =>
      have hfl : 0 < s.tasks.countP Task.inFlight :=
        List.countP_pos_iff.mpr ⟨t, htmem, by simp [Task.inFlight, hph]⟩
      have hns : s.pc ≠ LoopPc.stopped := fun hp => by have := (k7 hp).1; omega
      simp only [hph, Option.some.injEq] at hs
      subst hs
      have c1 := cH { t with phase := TaskPhase.inserting,
                             work := scrapeWork s.minFiles t.clock t.result }
      have c2 := cF { t with phase := TaskPhase.inserting,
                             work := scrapeWork s.minFiles t.clock t.result }
      have c3 := cN { t with phase := TaskPhase.inserting,
                             work := scrapeWork s.minFiles t.clock t.result }
      simp only [Task.past, Task.holding, Task.inFlight, hph, decide_True, decide_False, Bool.or_false,
        Bool.or_true, Bool.true_or, Bool.not_true, Bool.not_false, Bool.false_eq_true,
        if_false, if_true, reduceCtorEq] at c1 c2 c3
      refine ⟨?_, k2, ?_, ?_, ?_, k6, ?_, k8, k9, ?_⟩
      all_goals try dsimp only
      · omega
      · omega
      · rw [List.length_set]; exact k4
      · omega
      · intro hp; exact absurd hp hns
      · rw [scrapeCounters_buckets]; exact k10
    | inserting =>
      have hfl : 0 < s.tasks.countP Task.inFlight :=
        List.countP_pos_iff.mpr ⟨t, htmem, by simp [Task.inFlight, hph]⟩
      have hhl : 0 < s.tasks.countP Task.holding :=
        List.countP_pos_iff.mpr ⟨t, htmem, by simp [Task.holding, hph]⟩
      have hns : s.pc ≠ LoopPc.stopped := fun hp => by have := (k7 hp).1; omega
      simp only [hph] at hs
      cases hw : t.work with
      | nil =>
        simp only [hw, Option.some.injEq] at hs
        subst hs
        have c1 := cH { t with phase := TaskPhase.reporting }
        have c2 := cF { t with phase := TaskPhase.reporting }
        have c3 := cN { t with phase := TaskPhase.reporting }
        rw [hw] at c1 c2 c3
        simp only [Task.past, Task.holding, Task.inFlight, hph, decide_True, decide_False, Bool.or_false,
          Bool.or_true, Bool.true_or, Bool.or_self, Bool.not_true, Bool.not_false,
          Bool.false_eq_true, if_false, if_true, reduceCtorEq] at c1 c2 c3
        refine ⟨?_, ?_, ?_, ?_, ?_, k6, ?_, k8, k9, k10⟩
        all_goals try dsimp only
        · omega
        · omega
        · omega
        · rw [List.length_set]; exact k4
        · omega
        · intro hp; exact absurd hp hns
      | cons op rest =>
        obtain ⟨d, c, now⟩ := op
        simp only [hw, Option.some.injEq] at hs
        subst hs
        have c1 := cH { t with work := rest }
        have c2 := cF { t with work := rest }
        have c3 := cN { t with work := rest }
        simp only [Task.past, Task.holding, Task.inFlight, hph, decide_True, decide_False, Bool.or_false,
          Bool.or_true, Bool.true_or, Bool.or_self, Bool.not_true, Bool.not_false,
          Bool.false_eq_true, if_false, if_true, reduceCtorEq] at c1 c2 c3
        refine ⟨?_, k2, ?_, ?_, ?_, k6, ?_, k8, k9, ?_⟩
        all_goals try dsimp only
        · omega
        · omega
        · rw [List.length_set]; exact k4
        · omega
        · intro hp; exact absurd hp hns
        · rw [insertBucket_buckets_log, k10, List.append_assoc]
    | reporting =>
      have hfl : 0 < s.tasks.countP Task.inFlight :=
        List.countP_pos_iff.mpr ⟨t, htmem, by simp [Task.inFlight, hph]⟩
      have hns : s.pc ≠ LoopPc.stopped := fun hp => by have := (k7 hp).1; omega
      simp only [hph, Option.some.injEq] at hs
      subst hs
      have c1 := cH { t with phase := TaskPhase.done }
      have c2 := cF { t with phase := TaskPhase.done }
      have c3 := cN { t with phase := TaskPhase.done }
      simp only [Task.past, Task.holding, Task.inFlight, hph, decide_True, decide_False, Bool.or_false,
        Bool.or_true, Bool.true_or, Bool.or_self, Bool.not_true, Bool.not_false,
        Bool.false_eq_true, if_false, if_true, reduceCtorEq] at c1 c2 c3
      refine ⟨?_, k2, ?_, ?_, ?_, k6, ?_, k8, k9, k10⟩
      all_goals try dsimp only
      · omega
      · omega
      · rw [List.length_set]; exact k4
      · omega
      · intro hp; exact absurd hp hns

theorem step_inv (b0 : List Bucket) (s s2 : Dispatcher) (e : Event) (h : DispInv b0 s)
    (hs : step s e = some s2) : DispInv b0 s2 := by
  cases e with
  | taskStep i => exact stepTask_inv b0 s s2 i h hs
  | interrupt =>
    obtain ⟨k1, k2, k3, k4, k5, k6, k7, k8, k9, k10⟩ := h
    simp only [step, Option.some.injEq] at hs
    subst hs
    exact ⟨k1, k2, k3, k4, k5, k6, k7, k8, fun _ => rfl, k10⟩
  | tick =>
    obtain ⟨k1, k2, k3, k4, k5, k6, k7, k8, k9, k10⟩ := h
    simp only [step] at hs
    split at hs
    · rename_i hp
      simp only [Option.some.injEq] at hs
      subst hs
      rw [hp] at k6 k8
      refine ⟨k1, k2, k3, k4, k5, ?_, ?_, ?_, ?_, k10⟩
      all_goals try dsimp only
      · simpa using k6
      · intro h; exact absurd h (by decide)
      · intro _; exact k8 (by decide)
      · rintro (h | h) <;> exact absurd h (by decide)
    · exact absurd hs (by simp)
  | spawn result clock =>
    obtain ⟨k1, k2, k3, k4, k5, k6, k7, k8, k9, k10⟩ := h
    simp only [step] at hs
    split at hs
    · rename_i hp
      simp only [Option.some.injEq] at hs
      subst hs
      rw [hp.1] at k6 k8
      refine ⟨?_, ?_, ?_, ?_, ?_, ?_, ?_, ?_, ?_, k10⟩
      all_goals try dsimp only
      · rw [List.countP_append, ← k1]; simp [Task.holding]
      · omega
      · rw [List.countP_append, ← k3]; simp [Task.inFlight]
      · rw [List.length_append, k4]; simp
      · rw [List.countP_append, ← k5]; simp [Task.past, Task.holding]
      · simpa using k6
      · intro h; exact absurd h (by decide)
      · intro _; exact k8 (by decide)
      · rintro (h | h) <;> exact absurd h (by decide)
    · exact absurd hs (by simp)
  | seeCancel =>
    obtain ⟨k1, k2, k3, k4, k5, k6, k7, k8, k9, k10⟩ := h
    simp only [step] at hs
    split at hs
    · rename_i hp
      simp only [Option.some.injEq] at hs
      subst hs
      rw [hp.1] at k6 k8
      refine ⟨k1, k2, k3, k4, k5, ?_, ?_, ?_, ?_, k10⟩
      all_goals try dsimp only
      · simpa using k6
      · intro h; exact absurd h (by decide)
      · intro _; exact k8 (by decide)
      · intro _; exact hp.2
    · exact absurd hs (by simp)
  | flush now creatable =>
    obtain ⟨k1, k2, k3, k4, k5, k6, k7, k8, k9, k10⟩ := h
    simp only [step] at hs
    split at hs
    · rename_i hp
      simp only [Option.some.injEq] at hs
      subst hs
      rw [hp.1] at k6
      refine ⟨k1, k2, k3, k4, k5, ?_, ?_, ?_, ?_, k10⟩
      all_goals try dsimp only
      · simp only [if_true]
        simp only [reduceCtorEq, if_false] at k6
        omega
      · intro _; exact ⟨hp.2, rfl⟩
      · intro h; exact absurd rfl h
      · intro _; exact k9 (Or.inl hp.1)
    · exact absurd hs (by simp)

theorem run_inv (b0 : List Bucket) (events : List Event) (s s2 : Dispatcher)
    (h : DispInv b0 s) (hr : run s events = some s2) : DispInv b0 s2 := by
  induction events generalizing s with
  | nil =>
    simp only [run, Option.some.injEq] at hr
    subst hr
    exact h
  | cons e rest ih =>
    unfold run at hr
    cases hs : step s e with
    | none => simp [hs] at hr
    | some s1 =>
      simp only [hs] at hr
      exact ih s1 (step_inv b0 s s1 e h hs) hr

theorem dispInv_start (concurrency : Nat) (minFiles : Int) (st : State)
    (disk : Option FileContent) :
    DispInv st.buckets (Dispatcher.start concurrency minFiles st disk) := by
  unfold Dispatcher.start DispInv
  simp

theorem stepTask_grows (s s2 : Dispatcher) (i : Nat) (hs : stepTask s i = some s2) :
    s.log <+: s2.log ∧ s2.tasks.length = s.tasks.length ∧ s2.pc = s.pc ∧
      s2.acquired = s.acquired := by
  unfold stepTask at hs
  cases hget : s.tasks[i]? with
  | none => simp [hget] at hs
  | some t =>
    simp only [hget] at hs
    cases hph : t.phase with
    | done => simp [hph] at hs
    | starting =>
      simp only [hph, Option.some.injEq] at hs
      subst hs
      exact ⟨List.prefix_refl _, by simp, rfl, rfl⟩
    | inserting =>
      simp only [hph] at hs
      cases hw : t.work with
      | nil =>
        simp only [hw, Option.some.injEq] at hs
        subst hs
        exact ⟨List.prefix_refl _, by simp, rfl, rfl⟩
      | cons op rest =>
        obtain ⟨d, c, now⟩ := op
        simp only [hw, Option.some.injEq] at hs
        subst hs
        exact ⟨List.prefix_append _ _, by simp, rfl, rfl⟩
    | reporting =>
      simp only [hph, Option.some.injEq] at hs
      subst hs
      exact ⟨List.prefix_refl _, by simp, rfl, rfl⟩

theorem step_grows (s s2 : Dispatcher) (e : Event) (hs : step s e = some s2) :
    s.log <+: s2.log ∧ s.tasks.length ≤ s2.tasks.length := by
  cases e with
  | taskStep i =>
    have := stepTask_grows s s2 i hs
    exact ⟨this.1, by omega⟩
  | interrupt =>
    simp only [step, Option.some.injEq] at hs
    subst hs
    exact ⟨List.prefix_refl _, le_refl _⟩
  | tick =>
    simp only [step] at hs
    split at hs
    · simp only [Option.some.injEq] at hs
      subst hs
      exact ⟨List.prefix_refl _, le_refl _⟩
    · exact absurd hs (by simp)
  | spawn result clock =>
    simp only [step] at hs
    split at hs
    · simp only [Option.some.injEq] at hs
      subst hs
      exact ⟨List.prefix_refl _, by simp⟩
    · exact absurd hs (by simp)
  | seeCancel =>
    simp only [step] at hs
    split at hs
    · simp only [Option.some.injEq] at hs
      subst hs
      exact ⟨List.prefix_refl _, le_refl _⟩
    · exact absurd hs (by simp)
  | flush now creatable =>
    simp only [step] at hs
    split at hs
    · simp only [Option.some.injEq] at hs
      subst hs
      exact ⟨List.prefix_refl _, le_refl _⟩
    · exact absurd hs (by simp)

theorem run_grows (events : List Event) (s s2 : Dispatcher) (hr : run s events = some s2) :
    s.log <+: s2.log ∧ s.tasks.length ≤ s2.tasks.length := by
  induction events generalizing s with
  | nil =>
    simp only [run, Option.some.injEq] at hr
    subst hr
    exact ⟨List.prefix_refl _, le_refl _⟩
  | cons e rest ih =>
    unfold run at hr
    cases hs : step s e with
    | none => simp [hs] at hr
    | some s1 =>
      simp only [hs] at hr
      have h1 := step_grows s s1 e hs
      have h2 := ih s1 hr
      exact ⟨h1.1.trans h2.1, le_trans h1.2 h2.2⟩

theorem step_after_cancel_seen (s s2 : Dispatcher) (e : Event)
    (hp : s.pc = LoopPc.draining ∨ s.pc = LoopPc.stopped) (hs : step s e = some s2) :
    s2.tasks.length = s.tasks.length ∧ s2.acquired = s.acquired ∧
      (s2.pc = LoopPc.draining ∨ s2.pc = LoopPc.stopped) := by
  cases e with
  | taskStep i =>
    have := stepTask_grows s s2 i hs
    exact ⟨this.2.1, this.2.2.2, by rw [this.2.2.1]; exact hp⟩
  | interrupt =>
    simp only [step, Option.some.injEq] at hs
    subst hs
    exact ⟨rfl, rfl, hp⟩
  | tick =>
    simp only [step] at hs
    split at hs
    · rename_i h
      rcases hp with hp | hp <;> rw [hp] at h <;> exact absurd h (by decide)
    · exact absurd hs (by simp)
  | spawn result clock =>
    simp only [step] at hs
    split at hs
    · rename_i h
      rcases hp with hp | hp <;> rw [hp] at h <;> exact absurd h.1 (by decide)
    · exact absurd hs (by simp)
  | seeCancel =>
    simp only [step] at hs
    split at hs
    · rename_i h
      rcases hp with hp | hp <;> rw [hp] at h <;> exact absurd h.1 (by decide)
    · exact absurd hs (by simp)
  | flush now creatable =>
    simp only [step] at hs
    split at hs
    · simp only [Option.some.injEq] at hs
      subst hs
      exact ⟨rfl, rfl, Or.inr rfl⟩
    · exact absurd hs (by simp)

theorem run_after_cancel_seen (events : List Event) (s s2 : Dispatcher)
    (hp : s.pc = LoopPc.draining ∨ s.pc = LoopPc.stopped) (hr : run s events = some s2) :
    s2.tasks.length = s.tasks.length ∧ s2.acquired = s.acquired ∧
      (s2.pc = LoopPc.draining ∨ s2.pc = LoopPc.stopped) := by
  induction events generalizing s with
  | nil =>
    simp only [run, Option.some.injEq] at hr
    subst hr
    exact ⟨rfl, rfl, hp⟩
  | cons e rest ih =>
    unfold run at hr
    cases hs : step s e with
    | none => simp [hs] at hr
    | some s1 =>
      simp only [hs] at hr
      have h1 := step_after_cancel_seen s s1 e hp hs
      have h2 := ih s1 h1.2.2 hr
      exact ⟨h2.1.trans h1.1, h2.2.1.trans h1.2.1, h2.2.2⟩

theorem all_done_of_wg_zero (b0 : List Bucket) (s : Dispatcher) (h : DispInv b0 s)
    (hw : s.wg = 0) : ∀ t ∈ s.tasks, t.phase = TaskPhase.done := by
  obtain ⟨_, _, k3, _⟩ := h
  rw [hw] at k3
  have := List.countP_eq_zero.mp k3.symm
  intro t ht
  have h1 := this t ht
  simpa [Task.inFlight] using h1

theorem run_append (s : Dispatcher) (xs ys : List Event) :
    run s (xs ++ ys) = (run s xs).bind (fun s1 => run s1 ys) := by
  induction xs generalizing s with
  | nil => rfl
  | cons e rest ih =>
    simp only [List.cons_append, run]
    cases step s e with
    | none => rfl
    | some s1 => exact ih s1

/-- A task inside `scrape` reaches `<-sem` by its own steps, one step for each
row it still has to insert and one for the receive. -/
theorem inserting_task_releases (n : Nat) (s : Dispatcher) (i : Nat) (t : Task)
    (hget : s.tasks[i]? = some t) (hph : t.phase = TaskPhase.inserting)
    (hn : t.work.length = n) :
    ∃ s3 t3, run s (List.replicate (n + 1) (Event.taskStep i)) = some s3 ∧
      s3.sem = s.sem - 1 ∧ s3.released = s.released + 1 ∧
      s3.tasks[i]? = some t3 ∧ t3.phase = TaskPhase.reporting := by
  have hi : i < s.tasks.length := (List.getElem?_eq_some_iff.mp hget).1
  induction n generalizing s t with
  | zero =>
    have hw : t.work = [] := List.length_eq_zero.mp hn
    refine ⟨{ s with
        sem := s.sem - 1
        released := s.released + 1
        tasks := s.tasks.set i { t with phase := TaskPhase.reporting } },
      { t with phase := TaskPhase.reporting }, ?_, rfl, rfl, ?_, rfl⟩
    · simp [run, step, stepTask, hget, hph, hw]
    · simp [hi]
  | succ n ih =>
    cases hw : t.work with
    | nil => rw [hw] at hn; simp at hn
    | cons op rest =>
      obtain ⟨d, c, now⟩ := op
      have hlen : rest.length = n := by
        rw [hw] at hn
        simp only [List.length_cons] at hn
        omega
      have hex : ∃ s1 : Dispatcher, step s (Event.taskStep i) = some s1 ∧
          s1.tasks = s.tasks.set i { t with work := rest } ∧ s1.sem = s.sem ∧
          s1.released = s.released := by
        cases hstep : step s (Event.taskStep i) with
        | none => simp [step, stepTask, hget, hph, hw] at hstep
        | some s1 =>
          have heq := hstep
          simp only [step, stepTask, hget, hph, hw, Option.some.injEq] at heq
          subst heq
          exact ⟨_, rfl, by rw [hph], rfl, rfl⟩
      obtain ⟨s1, hstep, ht1, hs1, hr1⟩ := hex
      have hget1 : s1.tasks[i]? = some { t with work := rest } := by
        rw [ht1]
        simp [hi]
      have hi1 : i < s1.tasks.length := by
        rw [ht1, List.length_set]
        exact hi
      obtain ⟨s3, t3, h1, h2, h3, h4, h5⟩ := ih s1 { t with work := rest } hget1 hph hlen hi1
      refine ⟨s3, t3, ?_, by rw [h2, hs1], by rw [h3, hr1], h4, h5⟩
      rw [List.replicate_succ]
      simp only [run, hstep]
      exact h1

theorem holding_task_releases (s : Dispatcher) (i : Nat) (t : Task)
    (hget : s.tasks[i]? = some t) (hh : t.holding = true) :
    ∃ n s3 t3, run s (List.replicate n (Event.taskStep i)) = some s3 ∧
      s3.sem = s.sem - 1 ∧ s3.released = s.released + 1 ∧
      s3.tasks[i]? = some t3 ∧ t3.phase = TaskPhase.reporting := by
  have hi : i < s.tasks.length := (List.getElem?_eq_some_iff.mp hget).1
  cases hph : t.phase with
  | inserting =>
    obtain ⟨s3, t3, h⟩ := inserting_task_releases t.work.length s i t hget hph rfl
    exact ⟨_, s3, t3, h⟩
  | starting =>
    have hex : ∃ s1 : Dispatcher, step s (Event.taskStep i) = some s1 ∧
        s1.tasks = s.tasks.set i
          { t with phase := TaskPhase.inserting,
                   work := scrapeWork s.minFiles t.clock t.result } ∧
        s1.sem = s.sem ∧ s1.released = s.released := by
      cases hstep : step s (Event.taskStep i) with
      | none => simp [step, stepTask, hget, hph] at hstep
      | some s1 =>
        have heq := hstep
        simp only [step, stepTask, hget, hph, Option.some.injEq] at heq
        subst heq
        exact ⟨_, rfl, rfl, rfl, rfl⟩
    obtain ⟨s1, hstep, ht1, hs1, hr1⟩ := hex
    have hget1 : s1.tasks[i]? = some
        { t with phase := TaskPhase.inserting,
                 work := scrapeWork s.minFiles t.clock t.result } := by
      rw [ht1]
      simp [hi]
    obtain ⟨s3, t3, h1, h2, h3, h4, h5⟩ :=
      inserting_task_releases (scrapeWork s.minFiles t.clock t.result).length s1 i _
        hget1 rfl rfl
    refine ⟨(scrapeWork s.minFiles t.clock t.result).length + 1 + 1, s3, t3, ?_,
      by rw [h2, hs1], by rw [h3, hr1], h4, h5⟩
    rw [List.replicate_succ]
    simp only [run, hstep]
    exact h1
  | reporting => simp [Task.holding, hph] at hh
  | done => simp [Task.holding, hph] at hh

theorem holding_add_past (l : List Task) :
    l.countP Task.holding + l.countP Task.past = l.length := by
  induction l with
  | nil => rfl
  | cons t rest ih =>
    simp only [List.countP_cons, List.length_cons]
    have hp : Task.past t = !t.holding := rfl
    rw [hp]
    cases hh : t.holding
    · simp only [Bool.false_eq_true, if_false, Bool.not_false, if_true]
      omega
    · simp only [if_true, Bool.not_true, Bool.false_eq_true, if_false]
      omega

theorem flushed_store_final (b0 : List Bucket) (s : Dispatcher) (h : DispInv b0 s)
    (fs : State) (hfs : s.flushed = some fs) :
    fs = s.st ∧ (∀ t ∈ s.tasks, t.phase = TaskPhase.done) ∧ fs.buckets = b0 ++ s.log := by
  have h2 := h
  obtain ⟨_, _, _, _, _, _, k7, k8, _, k10⟩ := h
  by_cases hp : s.pc = LoopPc.stopped
  · obtain ⟨hw, hfl⟩ := k7 hp
    rw [hfl] at hfs
    simp only [Option.some.injEq] at hfs
    subst hfs
    exact ⟨rfl, all_done_of_wg_zero b0 s h2 hw, k10⟩
  · rw [k8 hp] at hfs
    exact absurd hfs (by simp)

/-! ## Lemmas on a session of page processing -/

theorem processResponse_grows (st : State) (minFiles : Int) (clock : Nat → String)
    (doc : Option (List Row)) :
    ∃ added : List Bucket,
      (processResponse st minFiles clock doc).buckets = st.buckets ++ added ∧
      (processResponse st minFiles clock doc).bucketsFound =
        st.bucketsFound + (added.length : Int) ∧
      (processResponse st minFiles clock doc).newBucketsFound =
        st.newBucketsFound + (added.length : Int) := by
  cases doc with
  | none => exact ⟨[], by simp [processResponse]⟩
  | some rows => exact ⟨_, processResponse_appended st minFiles clock rows⟩

theorem runPages_grows (pages : List (Int × (Nat → String) × Option (List Row)))
    (st : State) :
    ∃ added : List Bucket,
      (runPages st pages).buckets = st.buckets ++ added ∧
      (runPages st pages).bucketsFound = st.bucketsFound + (added.length : Int) ∧
      (runPages st pages).newBucketsFound = st.newBucketsFound + (added.length : Int) := by
  induction pages generalizing st with
  | nil => exact ⟨[], by simp [runPages]⟩
  | cons page rest ih =>
    obtain ⟨minFiles, clock, doc⟩ := page
    obtain ⟨a1, h1, h2, h3⟩ := processResponse_grows st minFiles clock doc
    obtain ⟨a2, g1, g2, g3⟩ := ih (processResponse st minFiles clock doc)
    refine ⟨a1 ++ a2, ?_, ?_, ?_⟩
    · simp only [runPages, g1, h1, List.append_assoc]
    · simp only [runPages, g2, h2, List.length_append, Nat.cast_add]
      omega
    · simp only [runPages, g3, h3, List.length_append, Nat.cast_add]
      omega

/-! ## Lemmas on the root scraper -/

theorem root_rowCandidate_eq (cols : Row) : Root.rowCandidate cols = rowCandidate 1000 cols :=
  rfl

theorem root_insertBucket_eq (st : State) (d : String) (c : Int) (t : String) :
    Root.insertBucket st.toRoot d c t = (insertBucket st d c t).1.toRoot := by
  unfold Root.insertBucket insertBucket
  cases hd : st.existingBuckets.get d with
  | true => simp [State.toRoot, hd]
  | false => cases hg : st.guiUpdates <;> simp [State.toRoot, hd, hg]

theorem root_processRow_eq (st : State) (now : String) (cols : Row) :
    Root.processRow st.toRoot now cols = (processRow st 1000 now cols).toRoot := by
  unfold Root.processRow processRow
  rw [root_rowCandidate_eq]
  cases rowCandidate 1000 cols with
  | none => rfl
  | some dc => exact root_insertBucket_eq st dc.1 dc.2 now

theorem root_processRows_eq (clock : Nat → String) (rows : List Row) (i : Nat) (st : State) :
    Root.processRows clock rows i st.toRoot = (processRows 1000 clock rows i st).toRoot := by
  induction rows generalizing i st with
  | nil => rfl
  | cons cols rest ih =>
    unfold Root.processRows processRows
    rw [root_processRow_eq, ih]

/-! ## The claims -/

/-- C1, dedup idempotence.  In a store where the identity `d` is present
neither in the map nor in the sequence, the critical section run for
`(d, c, t)` appends a record; run again for the same identity with any file
count `c2` and time `t2` it takes the early return and gives back the state
of the first run unchanged (sequence, map and every counter), and the records
with identity `d` in the sequence are exactly the one record of the first
run, with file count `c`. -/
theorem insert_twice_same_identity (st : State) (d : String) (c c2 : Int) (t t2 : String)
    (hmap : st.existingBuckets.get d = false)
    (hseq : ∀ b ∈ st.buckets, b.URL ≠ d) :
    (insertBucket st d c t).2 = true ∧
    (insertBucket (insertBucket st d c t).1 d c2 t2).2 = false ∧
    (insertBucket (insertBucket st d c t).1 d c2 t2).1 = (insertBucket st d c t).1 ∧
    (insertBucket (insertBucket st d c t).1 d c2 t2).1.buckets.filter
        (fun b => decide (b.URL = d)) = [⟨d, c, t⟩] := by
  have hget : (insertBucket st d c t).1.existingBuckets.get d = true := by
    rw [insertBucket_map_new st d c t hmap, BoolMap.get_set_self]
  have hsecond := insertBucket_known (insertBucket st d c t).1 d c2 t2 hget
  refine ⟨(insertBucket_counters_new st d c t hmap).1, ?_, ?_, ?_⟩
  · rw [hsecond]
  · rw [hsecond]
  · rw [hsecond]
    simp only
    rw [insertBucket_buckets_new st d c t hmap, List.filter_append]
    have hnone : st.buckets.filter (fun b => decide (b.URL = d)) = [] := by
      rw [List.filter_eq_nil_iff]
      intro b hb
      simpa using hseq b hb
    rw [hnone]
    simp

/-- Witness of C1 on the empty store: the identity `a.s3.amazonaws.com`
inserted with 1500 files and then with 99 files. -/
theorem insert_twice_same_identity_witness :
    (insertBucket (insertBucket State.initial "a.s3.amazonaws.com" 1500 "t1").1
        "a.s3.amazonaws.com" 99 "t2").2 = false ∧
    (insertBucket (insertBucket State.initial "a.s3.amazonaws.com" 1500 "t1").1
        "a.s3.amazonaws.com" 99 "t2").1.buckets = [⟨"a.s3.amazonaws.com", 1500, "t1"⟩] := by
  have h := insert_twice_same_identity State.initial "a.s3.amazonaws.com" 1500 99 "t1" "t2"
    (by decide) (by intro b hb; simp [State.initial] at hb)
  refine ⟨h.2.1, ?_⟩
  rw [h.2.2.1]
  decide

/-- C2, insert of a new identity.  When the map does not hold `d`, the
critical section reports an insertion, the map then answers `true` for `d` and
as before for every other key, the sequence is the old sequence followed by
the new record, and `bucketsFound` and `newBucketsFound` each grow by one. -/
theorem insert_new_identity (st : State) (d : String) (c : Int) (t : String)
    (hmap : st.existingBuckets.get d = false) :
    (insertBucket st d c t).2 = true ∧
    (insertBucket st d c t).1.existingBuckets.get d = true ∧
    (∀ k : String, k ≠ d →
      (insertBucket st d c t).1.existingBuckets.get k = st.existingBuckets.get k) ∧
    (insertBucket st d c t).1.buckets = st.buckets ++ [⟨d, c, t⟩] ∧
    (insertBucket st d c t).1.bucketsFound = st.bucketsFound + 1 ∧
    (insertBucket st d c t).1.newBucketsFound = st.newBucketsFound + 1 := by
  have hc := insertBucket_counters_new st d c t hmap
  refine ⟨hc.1, ?_, ?_, insertBucket_buckets_new st d c t hmap, hc.2.1, hc.2.2⟩
  · rw [insertBucket_map_new st d c t hmap, BoolMap.get_set_self]
  · intro k hk
    rw [insertBucket_map_new st d c t hmap, BoolMap.get_set_other _ _ _ _ hk]

/-- Witness of C2: a store holding one record receives a second identity. -/
theorem insert_new_identity_witness :
    (insertBucket (insertBucket State.initial "a" 1500 "t1").1 "b" 2000 "t2").1.buckets =
      [⟨"a", 1500, "t1"⟩, ⟨"b", 2000, "t2"⟩] ∧
    (insertBucket (insertBucket State.initial "a" 1500 "t1").1 "b" 2000 "t2").1.newBucketsFound
      = 2 := by
  have h := insert_new_identity (insertBucket State.initial "a" 1500 "t1").1 "b" 2000 "t2"
    (by decide)
  refine ⟨?_, ?_⟩
  · rw [h.2.2.2.1]; decide
  · rw [h.2.2.2.2.2]; decide

/-- C3, sync invariant.  After `loadExistingBuckets` at program start on any
file (absent, or with any outcome of the two decoders) and any sequence of
runs of the critical section, the map answers `true` for a key exactly when
some record of the sequence has that key as its identity. -/
theorem store_stays_in_sync (file : Option CheckpointFile)
    (ops : List (String × Int × String)) (k : String) :
    (runInserts (loadExistingBuckets State.initial file) ops).existingBuckets.get k = true ↔
      ∃ b ∈ (runInserts (loadExistingBuckets State.initial file) ops).buckets, b.URL = k :=
  runInserts_inSync ops _ (loadExistingBuckets_inSync file) k

/-- C4 as stated fails: a parseable checkpoint that lists the identity `dup`
twice is loaded record by record without a membership test; after one new
discovery the collection `saveResults` writes still lists `dup` twice. -/
theorem export_unique_counterexample :
    ¬ ((exportCollection
          (runInserts
            (loadExistingBuckets State.initial
              (some ⟨some ⟨"", 2, "", [⟨"dup", 1000, "t0"⟩, ⟨"dup", 2000, "t1"⟩]⟩, none⟩))
            [("new", 5000, "t2")]) "t3").Buckets.map Bucket.URL).Nodup := by
  decide

/-- C4 amended.  When the records `loadExistingBuckets` loads from the
checkpoint carry pairwise distinct identities (in particular when nothing is
loaded), then after any sequence of runs of the critical section the records
of the exported collection carry pairwise distinct identities. -/
theorem export_unique_of_unique_checkpoint (file : Option CheckpointFile)
    (ops : List (String × Int × String)) (now : String)
    (hfile : ((loadExistingBuckets State.initial file).buckets.map Bucket.URL).Nodup) :
    ((exportCollection (runInserts (loadExistingBuckets State.initial file) ops) now).Buckets.map
      Bucket.URL).Nodup :=
  runInserts_nodup ops _ (loadExistingBuckets_inSync file) hfile

/-- Witness of the amended C4: a checkpoint with two distinct identities,
then an insert of a known and of a new identity. -/
theorem export_unique_of_unique_checkpoint_witness :
    ((exportCollection
        (runInserts
          (loadExistingBuckets State.initial
            (some ⟨some ⟨"", 2, "", [⟨"a", 1000, "t0"⟩, ⟨"b", 2000, "t1"⟩]⟩, none⟩))
          [("a", 7000, "t2"), ("c", 5000, "t3")]) "t4").Buckets.map Bucket.URL).Nodup :=
  export_unique_of_unique_checkpoint
    (some ⟨some ⟨"", 2, "", [⟨"a", 1000, "t0"⟩, ⟨"b", 2000, "t1"⟩]⟩, none⟩)
    [("a", 7000, "t2"), ("c", 5000, "t3")] "t4" (by decide)


/-- C5, load/export round trip.  For a store whose integers are Go `int`s,
writing the collection built by `saveResults` and loading that document at
program start gives back the record sequence of the store, record for record
(identity, file count and time, in order); so does loading the same records
written as a bare array. -/
theorem load_export_round_trip (st : State) (now : String) (hint : GoInts st) :
    (loadExistingBuckets State.initial
        (some (CheckpointFile.ofJson (encodeCollection (exportCollection st now))))).buckets
      = st.buckets ∧
    (loadExistingBuckets State.initial
        (some (CheckpointFile.ofJson (Json.arr (st.buckets.map encodeBucket))))).buckets
      = st.buckets := by
  obtain ⟨hb, hl⟩ := hint
  constructor
  · rw [loadExistingBuckets_file]
    have hc : decodeCollection (encodeCollection (exportCollection st now)) =
        some (exportCollection st now) :=
      decodeCollection_encodeCollection _ hb hl
    have ha : decodeBuckets (encodeCollection (exportCollection st now)) = none := by
      simp [decodeBuckets, encodeCollection]
    simp only [CheckpointFile.ofJson, hc, ha]
    split
    · rfl
    · rename_i hlen
      have : st.buckets = [] := by
        cases hbs : st.buckets with
        | nil => rfl
        | cons x xs => simp [exportCollection, hbs] at hlen
      rw [this]
  · rw [loadExistingBuckets_file]
    have hc : decodeCollection (Json.arr (st.buckets.map encodeBucket)) = none := by
      simp [decodeCollection]
    have ha : decodeBuckets (Json.arr (st.buckets.map encodeBucket)) = some st.buckets := by
      simp only [decodeBuckets]
      exact decodeBucketItems_encode _ hb
    simp only [CheckpointFile.ofJson, hc, ha]

/-- Witness of C5: a store of two records, one of them with file count 0. -/
theorem load_export_round_trip_witness :
    (loadExistingBuckets State.initial
        (some (CheckpointFile.ofJson (encodeCollection (exportCollection
          (runInserts State.initial [("a", 1500, "t1"), ("b", 0, "")]) "t3"))))).buckets
      = [⟨"a", 1500, "t1"⟩, ⟨"b", 0, ""⟩] := by
  have h := load_export_round_trip
    (runInserts State.initial [("a", 1500, "t1"), ("b", 0, "")]) "t3"
    (by constructor <;> decide)
  rw [h.1]
  decide

/-- C6, load fallback order.  `loadExistingBuckets` is a total function of the
file.  With no file the sequence stays empty.  When the first decoder succeeds
with at least one record the sequence is that collection's records.  When it
fails or gives no record, the sequence is what the second decoder returns, or
empty when that one fails too.  In each case `bucketsFound` is the number of
records loaded and `newBucketsFound` stays zero. -/
theorem load_fallback_order (file : Option CheckpointFile) :
    (file = none → (loadExistingBuckets State.initial file).buckets = []) ∧
    (∀ f c, file = some f → f.asCollection = some c → c.Buckets ≠ [] →
      (loadExistingBuckets State.initial file).buckets = c.Buckets) ∧
    (∀ f l, file = some f → (∀ c, f.asCollection = some c → c.Buckets = []) →
      f.asArray = some l → (loadExistingBuckets State.initial file).buckets = l) ∧
    (∀ f, file = some f → (∀ c, f.asCollection = some c → c.Buckets = []) →
      f.asArray = none → (loadExistingBuckets State.initial file).buckets = []) ∧
    (loadExistingBuckets State.initial file).bucketsFound =
      ((loadExistingBuckets State.initial file).buckets.length : Int) ∧
    (loadExistingBuckets State.initial file).newBucketsFound = 0 := by
  refine ⟨?_, ?_, ?_, ?_, ?_, ?_⟩
  · rintro rfl
    rfl
  · rintro f c rfl hc hne
    rw [loadExistingBuckets_file, hc]
    have : c.Buckets.length > 0 := List.length_pos.mpr hne
    simp [this]
  · rintro f l rfl hc ha
    rw [loadExistingBuckets_file, ha]
    cases hcol : f.asCollection with
    | none => rfl
    | some c => simp [hc c hcol]
  · rintro f rfl hc ha
    rw [loadExistingBuckets_file, ha]
    cases hcol : f.asCollection with
    | none => rfl
    | some c => simp [hc c hcol]
  · exact (loadExistingBuckets_counters file).1
  · exact (loadExistingBuckets_counters file).2

/-- Witness of C6: a file that decodes as a collection without records and
also as a bare array of one record loads the array. -/
theorem load_fallback_order_witness :
    (loadExistingBuckets State.initial
      (some ⟨some ⟨"", 0, "", []⟩, some [⟨"a", 1500, "t1"⟩]⟩)).buckets = [⟨"a", 1500, "t1"⟩] :=
  (load_fallback_order (some ⟨some ⟨"", 0, "", []⟩, some [⟨"a", 1500, "t1"⟩]⟩)).2.2.1
    ⟨some ⟨"", 0, "", []⟩, some [⟨"a", 1500, "t1"⟩]⟩ [⟨"a", 1500, "t1"⟩] rfl
    (by intro c hc; cases hc; rfl) rfl


/-- C7, threshold boundary.  For a row with at least four cells whose second
cell links to a target with a non-empty `bucket=` value, the row passes the
filters exactly when the file count parsed from the third cell is at least
`minFiles`; a count equal to `minFiles` passes and a count of `minFiles - 1`
does not. -/
theorem threshold_boundary (minFiles : Int) (cols : Row) (bucketURL : String)
    (hlen : 4 ≤ cols.length) (hhref : (cols.eq 1).href = some bucketURL)
    (hparam : extractBucketParam bucketURL ≠ "") :
    ((rowCandidate minFiles cols).isSome = true ↔
      minFiles ≤ parseFileCount (stringsTrimSpace (cols.eq 2).text)) ∧
    (parseFileCount (stringsTrimSpace (cols.eq 2).text) = minFiles →
      (rowCandidate minFiles cols).isSome = true) ∧
    (parseFileCount (stringsTrimSpace (cols.eq 2).text) = minFiles - 1 →
      rowCandidate minFiles cols = none) := by
  rw [rowCandidate_of_valid minFiles cols bucketURL hlen hhref hparam]
  refine ⟨?_, ?_, ?_⟩
  · by_cases h : parseFileCount (stringsTrimSpace (cols.eq 2).text) < minFiles
    · simp only [h, if_true, Option.isSome_none, Bool.false_eq_true, false_iff]
      omega
    · simp only [h, if_false, Option.isSome_some, true_iff]
      omega
  · intro h
    have h2 : ¬ parseFileCount (stringsTrimSpace (cols.eq 2).text) < minFiles := by omega
    simp only [h2, if_false, Option.isSome_some]
  · intro h
    have h2 : parseFileCount (stringsTrimSpace (cols.eq 2).text) < minFiles := by omega
    simp only [h2, if_true]

/-- Witness of C7: with `minFiles = 1000` a row showing `1,000` files passes. -/
theorem threshold_boundary_witness :
    (rowCandidate 1000
      [⟨"1", none⟩, ⟨"b", some "/buckets/files?bucket=b.s3.amazonaws.com"⟩,
       ⟨" 1,000 ", none⟩, ⟨"", none⟩]).isSome = true :=
  (threshold_boundary 1000
      [⟨"1", none⟩, ⟨"b", some "/buckets/files?bucket=b.s3.amazonaws.com"⟩,
       ⟨" 1,000 ", none⟩, ⟨"", none⟩]
      "/buckets/files?bucket=b.s3.amazonaws.com" (by decide) (by decide) (by decide)).2.1
    (by decide)

/-- C9, decode fallback.  For a row that passes the other filters (four cells,
a link with a non-empty `bucket=` value, a file count of at least `minFiles`),
the candidate exists whether or not `url.QueryUnescape` fails on the
extracted value: when it fails the identity is the extracted value itself,
when it succeeds the identity is the decoded value.  Every value that contains
`%zz` and every value that ends in `%` fails to decode. -/
theorem decode_fallback (minFiles : Int) (cols : Row) (bucketURL : String)
    (hlen : 4 ≤ cols.length) (hhref : (cols.eq 1).href = some bucketURL)
    (hparam : extractBucketParam bucketURL ≠ "")
    (hcount : minFiles ≤ parseFileCount (stringsTrimSpace (cols.eq 2).text)) :
    (queryUnescape (extractBucketParam bucketURL) = none →
      rowCandidate minFiles cols =
        some (extractBucketParam bucketURL,
          parseFileCount (stringsTrimSpace (cols.eq 2).text))) ∧
    (∀ d, queryUnescape (extractBucketParam bucketURL) = some d →
      rowCandidate minFiles cols =
        some (d, parseFileCount (stringsTrimSpace (cols.eq 2).text))) ∧
    (∀ pre post : String, queryUnescape (pre ++ "%zz" ++ post) = none) ∧
    (∀ pre : String, queryUnescape (pre ++ "%") = none) := by
  have h2 : ¬ parseFileCount (stringsTrimSpace (cols.eq 2).text) < minFiles := by omega
  rw [rowCandidate_of_valid minFiles cols bucketURL hlen hhref hparam]
  refine ⟨?_, ?_, ?_, ?_⟩
  · intro h
    simp only [h2, if_false, h]
  · intro d h
    simp only [h2, if_false, h]
  · intro pre post
    have hd : (pre ++ "%zz" ++ post).data = pre.data ++ '%' :: ('z' :: 'z' :: post.data) := by
      simp [String.data_append]
    unfold queryUnescape
    rw [hd, unescapeBytes_bad_escape pre.data.length pre.data _ (le_refl _)]
    intro a b tl h
    simp only [List.cons.injEq] at h
    obtain ⟨rfl, rfl, _⟩ := h
    decide
  · intro pre
    have hd : (pre ++ "%").data = pre.data ++ '%' :: [] := by
      simp [String.data_append]
    unfold queryUnescape
    rw [hd, unescapeBytes_bad_escape pre.data.length pre.data _ (le_refl _)]
    intro a b tl h
    simp at h

/-- Witness of C9: the link `?bucket=a%zz&page=2` gives the identity `a%zz`. -/
theorem decode_fallback_witness :
    rowCandidate 1000
      [⟨"1", none⟩, ⟨"b", some "/buckets/files?bucket=a%zz&page=2"⟩, ⟨"1500", none⟩,
       ⟨"", none⟩] = some ("a%zz", 1500) :=
  (decode_fallback 1000
    [⟨"1", none⟩, ⟨"b", some "/buckets/files?bucket=a%zz&page=2"⟩, ⟨"1500", none⟩, ⟨"", none⟩]
    "/buckets/files?bucket=a%zz&page=2" (by decide) (by decide) (by decide) (by decide)).1
    (by decide)


/-- C10 as stated fails: the text `9223372036854775808` is a decimal integer,
but it is no value of the type `int`; `strconv.Atoi` and `fmt.Sscanf` both
report a range error and `parseFileCount` returns 0, not that integer. -/
theorem parseFileCount_counterexample :
    isDecimalInteger (strippedCount "9223372036854775808") = true ∧
    decimalValue (strippedCount "9223372036854775808") = 9223372036854775808 ∧
    parseFileCount "9223372036854775808" = 0 := by
  decide

/-- C10 amended.  Let `t` be the column text without its commas and without
leading and trailing white space.  If `t` is a decimal integer that is a value
of the type `int`, `parseFileCount` returns it.  If `t` is not a decimal
integer but begins with one that is a value of `int`, `parseFileCount` returns
that leading integer.  In every other case (no leading integer, or one outside
the range of `int`) it returns 0.  The texts ` 1,234,567 `, `1500 files`,
`n/a` and the empty text give 1234567, 1500, 0 and 0. -/
theorem parseFileCount_spec (s : String) :
    (isDecimalInteger (strippedCount s) = true →
      isGoInt (decimalValue (strippedCount s)) = true →
      parseFileCount s = decimalValue (strippedCount s)) ∧
    (∀ tok, isDecimalInteger (strippedCount s) = false →
      leadingInteger (strippedCount s) = some tok → isGoInt (decimalValue tok) = true →
      parseFileCount s = decimalValue tok) ∧
    (leadingInteger (strippedCount s) = none → parseFileCount s = 0) ∧
    (∀ tok, leadingInteger (strippedCount s) = some tok →
      isGoInt (decimalValue tok) = false → parseFileCount s = 0) ∧
    parseFileCount " 1,234,567 " = 1234567 ∧ parseFileCount "1500 files" = 1500 ∧
    parseFileCount "n/a" = 0 ∧ parseFileCount "" = 0 := by
  refine ⟨?_, ?_, ?_, ?_, by decide, by decide, by decide, by decide⟩
  · intro hd hr
    rw [parseFileCount_eq, leadingInteger_of_isDecimal _ hd]
    simp only [hr, if_true]
  · intro tok _ hl hr
    rw [parseFileCount_eq, hl]
    simp only [hr, if_true]
  · intro hl
    rw [parseFileCount_eq, hl]
  · intro tok hl hr
    rw [parseFileCount_eq, hl]
    simp [hr]

/-- Witness of the amended C10: the text `-12 files`, which is not a decimal
integer and begins with `-12`. -/
theorem parseFileCount_spec_witness : parseFileCount "-12 files" = -12 :=
  (parseFileCount_spec "-12 files").2.1 "-12" (by decide) (by decide) (by decide)


/-- C11 as stated fails: `extractBucketParam` looks for the text `bucket=`, not
for a parameter of that name.  In `/files?mybucket=x&bucket=y` the parameter
named `bucket` has the value `y` and the function returns `x`; the target
`/files?mybucket=x` has no parameter named `bucket`, yet the function returns
`x` and the row is not skipped. -/
theorem bucket_param_counterexample :
    queryParam "/files?mybucket=x&bucket=y" "bucket" = some "y" ∧
    extractBucketParam "/files?mybucket=x&bucket=y" = "x" ∧
    queryParam "/files?mybucket=x" "bucket" = none ∧
    extractBucketParam "/files?mybucket=x" = "x" ∧
    rowCandidate 1000
      [⟨"1", none⟩, ⟨"b", some "/files?mybucket=x"⟩, ⟨"1500", none⟩, ⟨"", none⟩]
      = some ("x", 1500) := by
  decide

/-- C11 amended.  A link target contains the text `bucket=` exactly when
`strings.Contains` says so.  When it does, the target is some text `pre`
without an earlier occurrence of `bucket=`, then `bucket=`, then the value
returned by `extractBucketParam`, then a rest that is empty or begins with
`&`; the returned value holds no `&`.  When it does not, the function returns
the empty string and a row with that link target gives no candidate. -/
theorem bucket_param_extraction (u : String) :
    (stringsContains u "bucket=" = true ↔
      ∃ j, j ≤ u.data.length ∧ "bucket=".data <+: u.data.drop j) ∧
    (stringsContains u "bucket=" = true →
      ∃ pre tail : List Char,
        u.data = pre ++ "bucket=".data ++ (extractBucketParam u).data ++ tail ∧
        (∀ j, j < pre.length → ¬ "bucket=".data <+: u.data.drop j) ∧
        '&' ∉ (extractBucketParam u).data ∧
        (tail = [] ∨ ∃ t, tail = '&' :: t)) ∧
    (stringsContains u "bucket=" = false →
      extractBucketParam u = "" ∧
      ∀ (minFiles : Int) (cols : Row), (cols.eq 1).href = some u →
        rowCandidate minFiles cols = none) := by
  refine ⟨stringsContains_iff u "bucket=", extractBucketParam_found u, ?_⟩
  intro h
  refine ⟨extractBucketParam_absent u h, ?_⟩
  intro minFiles cols hhref
  unfold rowCandidate
  split
  · rfl
  · simp only [hhref, h, Bool.not_false, if_true]

/-- Witness of the amended C11: a link target without `bucket=`. -/
theorem bucket_param_extraction_witness :
    rowCandidate 1000
      [⟨"1", none⟩, ⟨"b", some "/files?page=2"⟩, ⟨"1500", none⟩, ⟨"", none⟩] = none :=
  ((bucket_param_extraction "/files?page=2").2.2 (by decide)).2 1000
    [⟨"1", none⟩, ⟨"b", some "/files?page=2"⟩, ⟨"1500", none⟩, ⟨"", none⟩] (by decide)

/-- C12, fetch counter transition.  Two goroutines are inside `scrape` at the
same time, each answered with status 200 and a page without rows.  When both
read `totalRequests` before either writes it, and likewise `successCount`,
both calls return and each counter stands one above its value before the two
calls, not two; the same two calls one after the other leave both counters at
two.  With two transport errors interleaved in the same way `totalRequests`
and `errorCount` both end at one.  A call whose request is nil ends the
program at `req.Header.Set`, with `totalRequests` as it was. -/
theorem fetch_counter_lost_update :
    (runScrapes
        (FetchSys.start 1000 State.initial
          [(true, FetchResult.ok ⟨200, some []⟩, fun _ => "t0"),
           (true, FetchResult.ok ⟨200, some []⟩, fun _ => "t1")])
        [0, 1, 0, 1, 0, 1, 0, 1, 0, 1, 0, 1, 0, 1]).map
      (fun s => (s.allReturned, s.panicked, s.st.totalRequests, s.st.successCount)) =
      some (true, false, 1, 1) ∧
    (runScrapes
        (FetchSys.start 1000 State.initial
          [(true, FetchResult.ok ⟨200, some []⟩, fun _ => "t0"),
           (true, FetchResult.ok ⟨200, some []⟩, fun _ => "t1")])
        [0, 0, 0, 0, 0, 0, 0, 1, 1, 1, 1, 1, 1, 1]).map
      (fun s => (s.allReturned, s.panicked, s.st.totalRequests, s.st.successCount)) =
      some (true, false, 2, 2) ∧
    (runScrapes
        (FetchSys.start 1000 State.initial
          [(true, FetchResult.failed none, fun _ => "t0"),
           (true, FetchResult.failed none, fun _ => "t1")])
        [0, 1, 0, 1, 0, 1, 0, 1, 0, 1, 0, 1]).map
      (fun s => (s.allReturned, s.panicked, s.st.totalRequests, s.st.errorCount)) =
      some (true, false, 1, 1) ∧
    (runScrapes
        (FetchSys.start 1000 State.initial
          [(false, FetchResult.failed none, fun _ => "t0")])
        [0]).map
      (fun s => (s.allReturned, s.panicked, s.st.totalRequests)) =
      some (false, true, 0) := by
  refine ⟨?_, ?_, ?_, ?_⟩ <;> decide

/-- C13, no-new-data skip.  With `newBucketsFound` equal to zero `saveResults`
leaves the output file as it was, whatever it held (nothing, a document or
any other text).  With `newBucketsFound` different from zero and a file that
can be created, the file holds afterwards the encoding of the collection
built from the store, whatever it held before. -/
theorem no_new_data_skip (st : State) (now : String) (creatable : Bool)
    (disk : Option FileContent) :
    (st.newBucketsFound = 0 → saveResults st now creatable disk = disk) ∧
    (st.newBucketsFound ≠ 0 → creatable = true →
      saveResults st now creatable disk =
        some (FileContent.json (encodeCollection (exportCollection st now)))) := by
  constructor
  · intro h
    simp [saveResults, h]
  · intro h hc
    simp [saveResults, h, hc]

/-- Witness of C13: a session that loaded one record and found nothing new
leaves a file of arbitrary text untouched. -/
theorem no_new_data_skip_witness :
    saveResults (loadExistingBuckets State.initial
        (some ⟨some ⟨"", 1, "", [⟨"a", 1500, "t0"⟩]⟩, none⟩)) "t1" true
      (some (FileContent.text "kept")) = some (FileContent.text "kept") :=
  (no_new_data_skip (loadExistingBuckets State.initial
      (some ⟨some ⟨"", 1, "", [⟨"a", 1500, "t0"⟩]⟩, none⟩)) "t1" true
    (some (FileContent.text "kept"))).1 (by decide)


/-- C20 as stated fails: with the threshold `-10` (the flag `-min` takes any
integer) a row whose count column reads `-5` passes the threshold test and a
record with file count `-5` is appended. -/
theorem nonneg_file_count_counterexample :
    (processResponse State.initial (-10) (fun _ => "t")
      (some [[⟨"1", none⟩, ⟨"x", some "/files?bucket=x"⟩, ⟨"-5", none⟩, ⟨"", none⟩]])).buckets
      = [⟨"x", -5, "t"⟩] := by
  decide

/-- C20 amended.  For a threshold `minFiles` that is not negative, every record
in the sequence after `processResponse` was either there before the call or
has a file count of at least `minFiles`, hence not negative. -/
theorem nonneg_file_count (st : State) (minFiles : Int) (clock : Nat → String)
    (doc : Option (List Row)) (hmin : 0 ≤ minFiles) :
    ∀ b ∈ (processResponse st minFiles clock doc).buckets,
      b ∈ st.buckets ∨ (minFiles ≤ b.FileCount ∧ 0 ≤ b.FileCount) := by
  cases doc with
  | none =>
    intro b hb
    exact Or.inl hb
  | some rows =>
    intro b hb
    rw [(processResponse_appended st minFiles clock rows).1, List.mem_append] at hb
    rcases hb with hb | hb
    · exact Or.inl hb
    · right
      have hop := firstNew_subset _ _ _ b hb
      have := pageCandidates_threshold minFiles clock rows 0 _ hop
      simp only at this
      exact ⟨this, le_trans hmin this⟩

/-- Witness of the amended C20: with the threshold `0` the row reading `-5`
is rejected and the row reading `0` is accepted. -/
theorem nonneg_file_count_witness :
    (processResponse State.initial 0 (fun _ => "t")
      (some [[⟨"1", none⟩, ⟨"x", some "/files?bucket=x"⟩, ⟨"-5", none⟩, ⟨"", none⟩],
             [⟨"2", none⟩, ⟨"y", some "/files?bucket=y"⟩, ⟨"0", none⟩, ⟨"", none⟩]])).buckets.all
      (fun b => decide (0 ≤ b.FileCount)) = true := by
  rw [List.all_eq_true]
  intro b hb
  rcases nonneg_file_count State.initial 0 (fun _ => "t") _ (le_refl 0) b hb with h | h
  · simp [State.initial] at h
  · simpa using h.2


/-- C14, concurrency safety of insert.  `N >= 1` tasks carry the same identity
`d`, absent from the store, each with its own file count and time; they run
lines 187-212 in any interleaving of their steps, the mutex letting one task
at a time past `Lock()`.  At every point of every interleaving the sequence
holds at most one record for `d`, at most one task has appended, and
`newBucketsFound` has grown by at most one.  Once all tasks have finished the
sequence holds exactly one record for `d`, exactly one task has appended and
`newBucketsFound` has grown by exactly one. -/
theorem concurrent_insert_once (st : State) (d : String) (cts : List (Int × String))
    (sched : List Nat) (hN : 1 ≤ cts.length)
    (hmap : st.existingBuckets.get d = false) (hseq : ∀ b ∈ st.buckets, b.URL ≠ d) :
    countIdentity
      (runSchedule (InsertSys.start st (cts.map (fun ct => (d, ct.1, ct.2)))) sched).st d ≤ 1 ∧
    (runSchedule (InsertSys.start st (cts.map (fun ct => (d, ct.1, ct.2)))) sched).tasks.countP
      (fun t => t.inserted) ≤ 1 ∧
    (runSchedule (InsertSys.start st (cts.map (fun ct => (d, ct.1, ct.2))))
      sched).st.newBucketsFound ≤ st.newBucketsFound + 1 ∧
    ((∀ t ∈ (runSchedule (InsertSys.start st (cts.map (fun ct => (d, ct.1, ct.2))))
        sched).tasks, t.pc = InsertPc.finished) →
      countIdentity
        (runSchedule (InsertSys.start st (cts.map (fun ct => (d, ct.1, ct.2)))) sched).st d
        = 1 ∧
      (runSchedule (InsertSys.start st (cts.map (fun ct => (d, ct.1, ct.2)))) sched).tasks.countP
        (fun t => t.inserted) = 1 ∧
      (runSchedule (InsertSys.start st (cts.map (fun ct => (d, ct.1, ct.2))))
        sched).st.newBucketsFound = st.newBucketsFound + 1) := by
  obtain ⟨⟨_, _, hcnt, hnew, hins, _, hfin⟩, hlen⟩ :=
    runSchedule_inv d st.newBucketsFound sched _ (insertInv_start st d cts hmap hseq)
  have hle : countIdentity
      (runSchedule (InsertSys.start st (cts.map (fun ct => (d, ct.1, ct.2)))) sched).st d
      ≤ 1 := by
    rw [hcnt]
    split <;> omega
  refine ⟨hle, by omega, by omega, ?_⟩
  intro hall
  have hone : countIdentity
      (runSchedule (InsertSys.start st (cts.map (fun ct => (d, ct.1, ct.2)))) sched).st d
      = 1 := by
    rw [hcnt]
    cases hg : (runSchedule (InsertSys.start st (cts.map (fun ct => (d, ct.1, ct.2))))
        sched).st.existingBuckets.get d with
    | true => simp
    | false =>
      exfalso
      have h0 := hfin hg
      rw [List.countP_eq_zero] at h0
      have hpos : 0 < (runSchedule (InsertSys.start st (cts.map (fun ct => (d, ct.1, ct.2))))
          sched).tasks.length := by
        rw [hlen]
        simp only [InsertSys.start, List.length_map]
        omega
      obtain ⟨t, ht⟩ := List.exists_mem_of_length_pos hpos
      have := h0 t ht
      simp only [decide_eq_true_eq] at this
      exact this (hall t ht)
  refine ⟨hone, by omega, by omega⟩

/-- Witness of C14: three tasks carry the identity `a` into the empty store;
the schedule lets tasks 1 and 2 try the lock while task 0 holds it, and ends
with all three finished: one record, with the values of task 0. -/
theorem concurrent_insert_once_witness :
    (runSchedule (InsertSys.start State.initial
        ([(1500, "t0"), (1600, "t1"), (1700, "t2")].map (fun ct => ("a", ct.1, ct.2))))
      [0, 1, 0, 2, 1, 0, 2, 2, 1, 1, 2]).st.buckets = [⟨"a", 1500, "t0"⟩] ∧
    countIdentity (runSchedule (InsertSys.start State.initial
        ([(1500, "t0"), (1600, "t1"), (1700, "t2")].map (fun ct => ("a", ct.1, ct.2))))
      [0, 1, 0, 2, 1, 0, 2, 2, 1, 1, 2]).st "a" = 1 :=
  ⟨by decide,
   ((concurrent_insert_once State.initial "a" [(1500, "t0"), (1600, "t1"), (1700, "t2")]
      [0, 1, 0, 2, 1, 0, 2, 2, 1, 1, 2] (by decide) (by decide)
      (by intro b hb; simp [State.initial] at hb)).2.2.2 (by decide)).1⟩


/-- C15, drain before flush.  In every state reached by an execution of the
dispatcher `saveResults` has been called at most once.  Whenever the flush
step can be taken, every spawned task has finished, and the step hands the
store of that moment to `saveResults`.  Once it has been taken, the store it
saw is still the store, every task has finished, and its record sequence is
the sequence at the start followed by every record a task appended. -/
theorem drain_before_flush (concurrency : Nat) (minFiles : Int) (st : State)
    (disk : Option FileContent) (events : List Event) (s : Dispatcher)
    (hr : run (Dispatcher.start concurrency minFiles st disk) events = some s) :
    s.flushes ≤ 1 ∧
    (∀ now creatable s2, step s (Event.flush now creatable) = some s2 →
      (∀ t ∈ s.tasks, t.phase = TaskPhase.done) ∧ s2.flushed = some s.st ∧
      s2.disk = saveResults s.st now creatable s.disk) ∧
    (∀ fs, s.flushed = some fs →
      fs = s.st ∧ (∀ t ∈ s.tasks, t.phase = TaskPhase.done) ∧
      fs.buckets = st.buckets ++ s.log) := by
  have hinv := run_inv st.buckets events _ s (dispInv_start concurrency minFiles st disk) hr
  have hinv2 := hinv
  obtain ⟨_, _, _, _, _, k6, k7, k8, _, k10⟩ := hinv
  refine ⟨?_, ?_, ?_⟩
  · rw [k6]
    split <;> omega
  · intro now creatable s2 hs
    simp only [step] at hs
    split at hs
    · rename_i hp
      simp only [Option.some.injEq] at hs
      subst hs
      exact ⟨all_done_of_wg_zero st.buckets s hinv2 hp.2, rfl, rfl⟩
    · exact absurd hs (by simp)
  · intro fs hfs
    exact flushed_store_final st.buckets s hinv2 fs hfs

/-- Witness of C15: two tasks are spawned, the interrupt arrives while the
second is still inserting, both finish, the loop sees the cancellation and
flushes; the flushed store holds the records of both tasks. -/
theorem drain_before_flush_witness :
    ∃ s, run (Dispatcher.start 2 1000 State.initial none)
        [Event.tick,
         Event.spawn (FetchResult.ok ⟨200, some [[⟨"1", none⟩, ⟨"a", some "/f?bucket=a"⟩,
           ⟨"1,500", none⟩, ⟨"", none⟩]]⟩) (fun _ => "r0"),
         Event.tick,
         Event.spawn (FetchResult.ok ⟨200, some [[⟨"1", none⟩, ⟨"b", some "/f?bucket=b"⟩,
           ⟨"2,500", none⟩, ⟨"", none⟩]]⟩) (fun _ => "r1"),
         Event.taskStep 1, Event.taskStep 0, Event.taskStep 0, Event.interrupt,
         Event.taskStep 1, Event.taskStep 0, Event.taskStep 1, Event.taskStep 0,
         Event.taskStep 1, Event.seeCancel, Event.flush "t9" true] = some s ∧
      s.flushes = 1 ∧
      s.flushed.map (fun fs => fs.buckets) = some [⟨"a", 1500, "r0"⟩, ⟨"b", 2500, "r1"⟩] ∧
      ∀ fs, s.flushed = some fs → fs = s.st := by
  cases h : run (Dispatcher.start 2 1000 State.initial none)
      [Event.tick,
       Event.spawn (FetchResult.ok ⟨200, some [[⟨"1", none⟩, ⟨"a", some "/f?bucket=a"⟩,
         ⟨"1,500", none⟩, ⟨"", none⟩]]⟩) (fun _ => "r0"),
       Event.tick,
       Event.spawn (FetchResult.ok ⟨200, some [[⟨"1", none⟩, ⟨"b", some "/f?bucket=b"⟩,
         ⟨"2,500", none⟩, ⟨"", none⟩]]⟩) (fun _ => "r1"),
       Event.taskStep 1, Event.taskStep 0, Event.taskStep 0, Event.interrupt,
       Event.taskStep 1, Event.taskStep 0, Event.taskStep 1, Event.taskStep 0,
       Event.taskStep 1, Event.seeCancel, Event.flush "t9" true] with
  | none =>
    have hd : (run (Dispatcher.start 2 1000 State.initial none)
      [Event.tick,
       Event.spawn (FetchResult.ok ⟨200, some [[⟨"1", none⟩, ⟨"a", some "/f?bucket=a"⟩,
         ⟨"1,500", none⟩, ⟨"", none⟩]]⟩) (fun _ => "r0"),
       Event.tick,
       Event.spawn (FetchResult.ok ⟨200, some [[⟨"1", none⟩, ⟨"b", some "/f?bucket=b"⟩,
         ⟨"2,500", none⟩, ⟨"", none⟩]]⟩) (fun _ => "r1"),
       Event.taskStep 1, Event.taskStep 0, Event.taskStep 0, Event.interrupt,
       Event.taskStep 1, Event.taskStep 0, Event.taskStep 1, Event.taskStep 0,
       Event.taskStep 1, Event.seeCancel, Event.flush "t9" true]).isSome = true := by decide
    rw [h] at hd
    exact absurd hd (by simp)
  | some s =>
    have hd : ((run (Dispatcher.start 2 1000 State.initial none)
      [Event.tick,
       Event.spawn (FetchResult.ok ⟨200, some [[⟨"1", none⟩, ⟨"a", some "/f?bucket=a"⟩,
         ⟨"1,500", none⟩, ⟨"", none⟩]]⟩) (fun _ => "r0"),
       Event.tick,
       Event.spawn (FetchResult.ok ⟨200, some [[⟨"1", none⟩, ⟨"b", some "/f?bucket=b"⟩,
         ⟨"2,500", none⟩, ⟨"", none⟩]]⟩) (fun _ => "r1"),
       Event.taskStep 1, Event.taskStep 0, Event.taskStep 0, Event.interrupt,
       Event.taskStep 1, Event.taskStep 0, Event.taskStep 1, Event.taskStep 0,
       Event.taskStep 1, Event.seeCancel, Event.flush "t9" true]).map
        (fun s => (s.flushes, s.flushed.map (fun fs => fs.buckets)))) =
        some (1, some [⟨"a", 1500, "r0"⟩, ⟨"b", 2500, "r1"⟩]) := by decide
    rw [h] at hd
    simp only [Option.map_some', Option.some.injEq, Prod.mk.injEq] at hd
    have ht := drain_before_flush 2 1000 State.initial none _ s h
    exact ⟨s, rfl, hd.1, hd.2, fun fs hfs => (ht.2.2 fs hfs).1⟩


/-- C16 as stated fails: a task is spawned and the interrupt arrives before it
has inserted anything (the sequence is empty at that moment).  The task runs
to completion while the loop drains, and the checkpoint written by the flush,
when loaded, holds the record the task appended after the cancellation. -/
theorem checkpoint_at_cancellation_counterexample :
    (run (Dispatcher.start 2 1000 State.initial none)
      [Event.tick,
       Event.spawn (FetchResult.ok ⟨200, some [[⟨"1", none⟩, ⟨"a", some "/f?bucket=a"⟩,
         ⟨"1,500", none⟩, ⟨"", none⟩]]⟩) (fun _ => "r0"),
       Event.interrupt]).map
      (fun s => (s.cancelled, s.tasks.map (fun t => t.phase), s.st.buckets))
      = some (true, [TaskPhase.starting], []) ∧
    (run (Dispatcher.start 2 1000 State.initial none)
      ([Event.tick,
        Event.spawn (FetchResult.ok ⟨200, some [[⟨"1", none⟩, ⟨"a", some "/f?bucket=a"⟩,
          ⟨"1,500", none⟩, ⟨"", none⟩]]⟩) (fun _ => "r0"),
        Event.interrupt] ++
       [Event.taskStep 0, Event.taskStep 0, Event.taskStep 0, Event.taskStep 0,
        Event.seeCancel, Event.flush "t9" true])).map
      (fun s => (loadExistingBuckets State.initial
        (s.disk.map CheckpointFile.ofContent)).buckets)
      = some [⟨"a", 1500, "r0"⟩] := by
  decide

/-- C16 amended.  Take any execution of the dispatcher, any point of it (the
state `s1`, for instance the moment of the cancellation) and any later state
`s2` in which the flush has happened.  The store the flush saw begins with the
record sequence of `s1`, so it reflects every insertion completed by then; it
is the sequence at the start followed by every record a task appended, those
appended after `s1` by the tasks then in flight included; and every task,
among them all the tasks spawned by `s1`, has finished. -/
theorem checkpoint_after_drain (concurrency : Nat) (minFiles : Int) (st : State)
    (disk : Option FileContent) (before after : List Event) (s1 s2 : Dispatcher)
    (fs : State)
    (h1 : run (Dispatcher.start concurrency minFiles st disk) before = some s1)
    (h2 : run s1 after = some s2) (hf : s2.flushed = some fs) :
    s1.st.buckets <+: fs.buckets ∧
    fs.buckets = st.buckets ++ s2.log ∧
    (∀ t ∈ s2.tasks, t.phase = TaskPhase.done) ∧
    s1.tasks.length ≤ s2.tasks.length := by
  have hi1 := run_inv st.buckets before _ s1 (dispInv_start concurrency minFiles st disk) h1
  have hi2 := run_inv st.buckets after s1 s2 hi1 h2
  have hg := run_grows after s1 s2 h2
  obtain ⟨hfs, hdone, hb⟩ := flushed_store_final st.buckets s2 hi2 fs hf
  have k1 : s1.st.buckets = st.buckets ++ s1.log := hi1.2.2.2.2.2.2.2.2.2
  refine ⟨?_, hb, hdone, hg.2⟩
  rw [hb, k1]
  obtain ⟨extra, hextra⟩ := hg.1
  exact ⟨extra, by rw [List.append_assoc, hextra]⟩


/-- Witness of the amended C16: the interrupt arrives while the only task is
about to call `scrape`; the store the flush sees holds the record the task
appends afterwards. -/
theorem checkpoint_after_drain_witness :
    ∃ s1 s2 fs,
      run (Dispatcher.start 2 1000 State.initial none)
        [Event.tick,
         Event.spawn (FetchResult.ok ⟨200, some [[⟨"1", none⟩, ⟨"a", some "/f?bucket=a"⟩,
           ⟨"1,500", none⟩, ⟨"", none⟩]]⟩) (fun _ => "r0"),
         Event.interrupt] = some s1 ∧
      run s1 [Event.taskStep 0, Event.taskStep 0, Event.taskStep 0, Event.taskStep 0,
        Event.seeCancel, Event.flush "t9" true] = some s2 ∧
      s2.flushed = some fs ∧ s1.st.buckets <+: fs.buckets ∧
      ∀ t ∈ s2.tasks, t.phase = TaskPhase.done := by
  cases h1 : run (Dispatcher.start 2 1000 State.initial none)
      [Event.tick,
       Event.spawn (FetchResult.ok ⟨200, some [[⟨"1", none⟩, ⟨"a", some "/f?bucket=a"⟩,
         ⟨"1,500", none⟩, ⟨"", none⟩]]⟩) (fun _ => "r0"),
       Event.interrupt] with
  | none =>
    have hd : (run (Dispatcher.start 2 1000 State.initial none)
      [Event.tick,
       Event.spawn (FetchResult.ok ⟨200, some [[⟨"1", none⟩, ⟨"a", some "/f?bucket=a"⟩,
         ⟨"1,500", none⟩, ⟨"", none⟩]]⟩) (fun _ => "r0"),
       Event.interrupt]).isSome = true := by decide
    rw [h1] at hd
    exact absurd hd (by simp)
  | some s1 =>
    have hd : ((run (Dispatcher.start 2 1000 State.initial none)
      [Event.tick,
       Event.spawn (FetchResult.ok ⟨200, some [[⟨"1", none⟩, ⟨"a", some "/f?bucket=a"⟩,
         ⟨"1,500", none⟩, ⟨"", none⟩]]⟩) (fun _ => "r0"),
       Event.interrupt]).bind (fun s => run s
        [Event.taskStep 0, Event.taskStep 0, Event.taskStep 0, Event.taskStep 0,
         Event.seeCancel, Event.flush "t9" true])).isSome = true := by decide
    rw [h1] at hd
    simp only [Option.some_bind] at hd
    cases h2 : run s1 [Event.taskStep 0, Event.taskStep 0, Event.taskStep 0,
        Event.taskStep 0, Event.seeCancel, Event.flush "t9" true] with
    | none =>
      rw [h2] at hd
      exact absurd hd (by simp)
    | some s2 =>
      have hf : ((run (Dispatcher.start 2 1000 State.initial none)
        [Event.tick,
         Event.spawn (FetchResult.ok ⟨200, some [[⟨"1", none⟩, ⟨"a", some "/f?bucket=a"⟩,
           ⟨"1,500", none⟩, ⟨"", none⟩]]⟩) (fun _ => "r0"),
         Event.interrupt]).bind (fun s => (run s
          [Event.taskStep 0, Event.taskStep 0, Event.taskStep 0, Event.taskStep 0,
           Event.seeCancel, Event.flush "t9" true]).map
            (fun s => s.flushed.isSome))) = some true := by decide
      rw [h1] at hf
      simp only [Option.some_bind, h2, Option.map_some', Option.some.injEq] at hf
      obtain ⟨fs, hfs⟩ := Option.isSome_iff_exists.mp hf
      have ht := checkpoint_after_drain 2 1000 State.initial none _ _ s1 s2 fs h1 h2 hfs
      exact ⟨s1, s2, fs, rfl, h2, hfs, ht.1, ht.2.2.1⟩

/-- C17 as stated fails: with one pool slot, the loop takes a second tick while
the first task holds the slot and blocks at `sem <- struct{}{}`; the interrupt
arrives (one task spawned so far); the first task ends and frees the slot;
the blocked send goes through and a second task is spawned after the
cancellation. -/
theorem cancel_stops_dispatch_counterexample :
    (run (Dispatcher.start 1 1000 State.initial none)
      [Event.tick, Event.spawn (FetchResult.failed none) (fun _ => "r0"), Event.tick,
       Event.interrupt]).map
      (fun s => (s.cancelled, s.pc, s.tasks.length)) = some (true, LoopPc.acquiring, 1) ∧
    (run (Dispatcher.start 1 1000 State.initial none)
      ([Event.tick, Event.spawn (FetchResult.failed none) (fun _ => "r0"), Event.tick,
        Event.interrupt] ++
       [Event.taskStep 0, Event.taskStep 0,
        Event.spawn (FetchResult.failed none) (fun _ => "r1")])).map
      (fun s => (s.cancelled, s.tasks.length)) = some (true, 2) := by
  decide

/-- C17 amended.  Once the pacing loop has taken the cancellation branch of its
`select` (it is in `wg.Wait()` or past it), no event spawns a task: along
every continuation the number of tasks and of slot acquisitions stays the
same, the loop stays there, and the spawn step cannot be taken. -/
theorem no_spawn_after_cancel_seen (s s2 : Dispatcher) (events : List Event)
    (hp : s.pc = LoopPc.draining ∨ s.pc = LoopPc.stopped)
    (hr : run s events = some s2) :
    s2.tasks.length = s.tasks.length ∧ s2.acquired = s.acquired ∧
    (s2.pc = LoopPc.draining ∨ s2.pc = LoopPc.stopped) ∧
    (∀ result clock, step s2 (Event.spawn result clock) = none) := by
  obtain ⟨h1, h2, h3⟩ := run_after_cancel_seen events s s2 hp hr
  refine ⟨h1, h2, h3, ?_⟩
  intro result clock
  simp only [step]
  rcases h3 with h | h <;> simp [h]

/-- Witness of the amended C17: the loop has seen the cancellation with one
task in flight; the task finishes and the flush happens; there is still one
task. -/
theorem no_spawn_after_cancel_seen_witness :
    ∃ s s2,
      run (Dispatcher.start 2 1000 State.initial none)
        [Event.tick, Event.spawn (FetchResult.failed none) (fun _ => "r0"),
         Event.interrupt, Event.seeCancel] = some s ∧
      run s [Event.taskStep 0, Event.taskStep 0, Event.taskStep 0,
        Event.flush "t9" true] = some s2 ∧
      s2.tasks.length = s.tasks.length ∧
      ∀ result clock, step s2 (Event.spawn result clock) = none := by
  cases h1 : run (Dispatcher.start 2 1000 State.initial none)
      [Event.tick, Event.spawn (FetchResult.failed none) (fun _ => "r0"),
       Event.interrupt, Event.seeCancel] with
  | none =>
    have hd : (run (Dispatcher.start 2 1000 State.initial none)
      [Event.tick, Event.spawn (FetchResult.failed none) (fun _ => "r0"),
       Event.interrupt, Event.seeCancel]).isSome = true := by decide
    rw [h1] at hd
    exact absurd hd (by simp)
  | some s =>
    have hpc : (run (Dispatcher.start 2 1000 State.initial none)
      [Event.tick, Event.spawn (FetchResult.failed none) (fun _ => "r0"),
       Event.interrupt, Event.seeCancel]).map (fun s => s.pc) = some LoopPc.draining := by
      decide
    rw [h1] at hpc
    simp only [Option.map_some', Option.some.injEq] at hpc
    have hd : ((run (Dispatcher.start 2 1000 State.initial none)
      [Event.tick, Event.spawn (FetchResult.failed none) (fun _ => "r0"),
       Event.interrupt, Event.seeCancel]).bind (fun s => run s
        [Event.taskStep 0, Event.taskStep 0, Event.taskStep 0,
         Event.flush "t9" true])).isSome = true := by decide
    rw [h1] at hd
    simp only [Option.some_bind] at hd
    cases h2 : run s [Event.taskStep 0, Event.taskStep 0, Event.taskStep 0,
        Event.flush "t9" true] with
    | none =>
      rw [h2] at hd
      exact absurd hd (by simp)
    | some s2 =>
      have ht := no_spawn_after_cancel_seen s s2 _ (Or.inl hpc) h2
      exact ⟨s, s2, rfl, h2, ht.1, ht.2.2.2⟩

/-- C18, bounded pool.  In every state reached by an execution of the
dispatcher the number of tasks that hold a pool slot is the length of `sem`
and is at most the concurrency limit; there has been one slot acquisition for
each spawned task and one release for each task past its `scrape`, so that
slots held plus releases equals acquisitions.  A task that holds a slot
releases it by its own steps, whatever `client.Do` returned to it: after
finitely many of them `sem` is one shorter and one more release is counted. -/
theorem bounded_pool (concurrency : Nat) (minFiles : Int) (st : State)
    (disk : Option FileContent) (events : List Event) (s : Dispatcher)
    (hr : run (Dispatcher.start concurrency minFiles st disk) events = some s) :
    s.tasks.countP Task.holding ≤ concurrency ∧
    s.sem = s.tasks.countP Task.holding ∧
    s.acquired = s.tasks.length ∧
    s.released = s.tasks.countP Task.past ∧
    s.sem + s.released = s.acquired ∧
    (∀ i t, s.tasks[i]? = some t → t.holding = true →
      ∃ n s3 t3, run s (List.replicate n (Event.taskStep i)) = some s3 ∧
        s3.sem + 1 = s.sem ∧ s3.released = s.released + 1 ∧
        s3.tasks[i]? = some t3 ∧ t3.phase = TaskPhase.reporting) := by
  have hinv := run_inv st.buckets events _ s (dispInv_start concurrency minFiles st disk) hr
  obtain ⟨k1, k2, _, k4, k5, _⟩ := hinv
  have hconc : s.concurrency = concurrency := by
    have : ∀ (evs : List Event) (a b : Dispatcher), run a evs = some b →
        b.concurrency = a.concurrency := by
      intro evs
      induction evs with
      | nil =>
        intro a b h
        simp only [run, Option.some.injEq] at h
        subst h
        rfl
      | cons e rest ih =>
        intro a b h
        unfold run at h
        cases hs : step a e with
        | none => simp [hs] at h
        | some a1 =>
          simp only [hs] at h
          rw [ih a1 b h]
          cases e with
          | taskStep i =>
            simp only [step, stepTask] at hs
            split at hs
            · exact absurd hs (by simp)
            · split at hs
              · simp only [Option.some.injEq] at hs; subst hs; rfl
              · split at hs
                · simp only [Option.some.injEq] at hs; subst hs; rfl
                · simp only [Option.some.injEq] at hs; subst hs; rfl
              · simp only [Option.some.injEq] at hs; subst hs; rfl
              · exact absurd hs (by simp)
          | interrupt => simp only [step, Option.some.injEq] at hs; subst hs; rfl
          | tick =>
            simp only [step] at hs
            split at hs
            · simp only [Option.some.injEq] at hs; subst hs; rfl
            · exact absurd hs (by simp)
          | spawn result clock =>
            simp only [step] at hs
            split at hs
            · simp only [Option.some.injEq] at hs; subst hs; rfl
            · exact absurd hs (by simp)
          | seeCancel =>
            simp only [step] at hs
            split at hs
            · simp only [Option.some.injEq] at hs; subst hs; rfl
            · exact absurd hs (by simp)
          | flush now creatable =>
            simp only [step] at hs
            split at hs
            · simp only [Option.some.injEq] at hs; subst hs; rfl
            · exact absurd hs (by simp)
    exact this events _ s hr
  have hsum := holding_add_past s.tasks
  refine ⟨by omega, k1, k4, k5, by omega, ?_⟩
  intro i t hget hh
  obtain ⟨n, s3, t3, h1, h2, h3, h4, h5⟩ := holding_task_releases s i t hget hh
  have hpos : 0 < s.tasks.countP Task.holding :=
    List.countP_pos_iff.mpr ⟨t, mem_of_getElem?_eq _ _ _ hget, hh⟩
  exact ⟨n, s3, t3, h1, by omega, h3, h4, h5⟩

/-- Witness of C18: with one pool slot and a task holding it, the number of
holders equals the limit, and the task, whose fetch failed, gives the slot
back. -/
theorem bounded_pool_witness :
    ∃ s, run (Dispatcher.start 1 1000 State.initial none)
        [Event.tick, Event.spawn (FetchResult.failed none) (fun _ => "r0"),
         Event.tick] = some s ∧
      s.tasks.countP Task.holding ≤ 1 ∧ s.sem + s.released = s.acquired := by
  cases h1 : run (Dispatcher.start 1 1000 State.initial none)
      [Event.tick, Event.spawn (FetchResult.failed none) (fun _ => "r0"),
       Event.tick] with
  | none =>
    have hd : (run (Dispatcher.start 1 1000 State.initial none)
      [Event.tick, Event.spawn (FetchResult.failed none) (fun _ => "r0"),
       Event.tick]).isSome = true := by decide
    rw [h1] at hd
    exact absurd hd (by simp)
  | some s =>
    have ht := bounded_pool 1 1000 State.initial none _ s h1
    exact ⟨s, rfl, ht.1, ht.2.2.2.2.1⟩

/-- C21, counter and sequence invariant.  After `loadExistingBuckets` at
program start on any file and any sequence of calls of `processResponse`,
`bucketsFound` is the length of the record sequence and `newBucketsFound` is
that length minus the number of records loaded; the loaded records are the
beginning of the sequence; `newBucketsFound` is zero exactly when the sequence
is the loaded one.  Hence `saveResults` skips the write only when nothing was
discovered: when the sequence differs from the loaded one and the file can be
created, the collection is written. -/
theorem counter_sequence_invariant (file : Option CheckpointFile)
    (pages : List (Int × (Nat → String) × Option (List Row))) :
    (runPages (loadExistingBuckets State.initial file) pages).bucketsFound =
      ((runPages (loadExistingBuckets State.initial file) pages).buckets.length : Int) ∧
    (runPages (loadExistingBuckets State.initial file) pages).newBucketsFound =
      ((runPages (loadExistingBuckets State.initial file) pages).buckets.length : Int) -
        ((loadExistingBuckets State.initial file).buckets.length : Int) ∧
    (loadExistingBuckets State.initial file).buckets <+:
      (runPages (loadExistingBuckets State.initial file) pages).buckets ∧
    ((runPages (loadExistingBuckets State.initial file) pages).newBucketsFound = 0 ↔
      (runPages (loadExistingBuckets State.initial file) pages).buckets =
        (loadExistingBuckets State.initial file).buckets) ∧
    (∀ (now : String) (disk : Option FileContent),
      (runPages (loadExistingBuckets State.initial file) pages).buckets ≠
        (loadExistingBuckets State.initial file).buckets →
      saveResults (runPages (loadExistingBuckets State.initial file) pages) now true disk =
        some (FileContent.json (encodeCollection (exportCollection
          (runPages (loadExistingBuckets State.initial file) pages) now)))) := by
  obtain ⟨hl1, hl2⟩ := loadExistingBuckets_counters file
  obtain ⟨added, h1, h2, h3⟩ := runPages_grows pages (loadExistingBuckets State.initial file)
  have hiff : (runPages (loadExistingBuckets State.initial file) pages).newBucketsFound = 0 ↔
      (runPages (loadExistingBuckets State.initial file) pages).buckets =
        (loadExistingBuckets State.initial file).buckets := by
    rw [h3, hl2, h1]
    constructor
    · intro h
      have : added = [] := List.length_eq_zero.mp (by omega)
      rw [this, List.append_nil]
    · intro h
      have : added = [] := by simpa using h
      rw [this]
      simp
  refine ⟨?_, ?_, ?_, hiff, ?_⟩
  · rw [h2, hl1, h1, List.length_append]
    push_cast
    rfl
  · rw [h3, hl2, h1, List.length_append]
    push_cast
    omega
  · rw [h1]
    exact List.prefix_append _ _
  · intro now disk hne
    have hnz : (runPages (loadExistingBuckets State.initial file) pages).newBucketsFound ≠ 0 :=
      fun h0 => hne (hiff.mp h0)
    simp [saveResults, hnz]

/-- An instance of C21: one record is loaded, a page brings a known and a new
identity; the counters read 2 and 1. -/
theorem counter_sequence_invariant_witness :
    (runPages (loadExistingBuckets State.initial
        (some ⟨some ⟨"", 1, "", [⟨"a", 1500, "t0"⟩]⟩, none⟩))
      [(1000, fun _ => "r0",
        some [[⟨"1", none⟩, ⟨"a", some "/f?bucket=a"⟩, ⟨"1,500", none⟩, ⟨"", none⟩],
              [⟨"2", none⟩, ⟨"b", some "/f?bucket=b"⟩, ⟨"2,500", none⟩, ⟨"", none⟩]])]).bucketsFound
      = 2 ∧
    (runPages (loadExistingBuckets State.initial
        (some ⟨some ⟨"", 1, "", [⟨"a", 1500, "t0"⟩]⟩, none⟩))
      [(1000, fun _ => "r0",
        some [[⟨"1", none⟩, ⟨"a", some "/f?bucket=a"⟩, ⟨"1,500", none⟩, ⟨"", none⟩],
              [⟨"2", none⟩, ⟨"b", some "/f?bucket=b"⟩, ⟨"2,500", none⟩, ⟨"", none⟩]])]).newBucketsFound
      = 1 := by
  have h := counter_sequence_invariant
    (some ⟨some ⟨"", 1, "", [⟨"a", 1500, "t0"⟩]⟩, none⟩)
    [(1000, fun _ => "r0",
      some [[⟨"1", none⟩, ⟨"a", some "/f?bucket=a"⟩, ⟨"1,500", none⟩, ⟨"", none⟩],
            [⟨"2", none⟩, ⟨"b", some "/f?bucket=b"⟩, ⟨"2,500", none⟩, ⟨"", none⟩]])]
  refine ⟨?_, ?_⟩
  · rw [h.1]; decide
  · rw [h.2.1]; decide

/-- C22, pacing period.  The period `time.Second / time.Duration(rateLimit)`
is the quotient of 1,000,000,000 by `rateLimit` truncated toward zero.  It is
defined and positive exactly when `1 <= rateLimit <= 1,000,000,000`, and then
it is the integer quotient `q` with `q * rateLimit <= 1,000,000,000 <
(q + 1) * rateLimit`.  For `rateLimit = 0` the division panics; for a negative
`rateLimit` and for one above 1,000,000,000 the period is defined and not
positive.  `time.NewTicker` accepts the period exactly in the first case. -/
theorem pacing_period_defined (rateLimit : Int) :
    ((∃ d, pacingPeriod rateLimit = some d ∧ 0 < d) ↔
      (1 ≤ rateLimit ∧ rateLimit ≤ 1000000000)) ∧
    (1 ≤ rateLimit → ∃ q, pacingPeriod rateLimit = some q ∧
      q * rateLimit ≤ 1000000000 ∧ 1000000000 < (q + 1) * rateLimit) ∧
    pacingPeriod 0 = none ∧
    (rateLimit < 0 ∨ 1000000000 < rateLimit →
      ∃ d, pacingPeriod rateLimit = some d ∧ d ≤ 0) ∧
    ((pacingTicker rateLimit).isSome = true ↔
      (1 ≤ rateLimit ∧ rateLimit ≤ 1000000000)) := by
  have hpos : ∀ r : Int, 1 ≤ r → pacingPeriod r = some (1000000000 / r) := by
    intro r hr
    have hne : ¬ r = 0 := by omega
    unfold pacingPeriod goDiv timeSecond
    rw [if_neg hne, Int.tdiv_eq_ediv (by decide) (by omega)]
  have hq : ∀ r : Int, 1 ≤ r → (0 < (1000000000 : Int) / r ↔ r ≤ 1000000000) := by
    intro r hr
    have := @Int.le_ediv_iff_mul_le 1 1000000000 r (by omega)
    constructor
    · intro h
      have h1 := this.mp (by omega)
      omega
    · intro h
      have h1 := this.mpr (by omega)
      omega
  have hneg : ∀ r : Int, r < 0 → ∃ d, pacingPeriod r = some d ∧ d ≤ 0 := by
    intro r hr
    have hne : ¬ r = 0 := by omega
    refine ⟨Int.tdiv 1000000000 r, ?_, Int.tdiv_nonpos (by decide) (by omega)⟩
    unfold pacingPeriod goDiv timeSecond
    rw [if_neg hne]
  have hzero : pacingPeriod 0 = none := by
    unfold pacingPeriod goDiv
    simp
  have hmain : (∃ d, pacingPeriod rateLimit = some d ∧ 0 < d) ↔
      (1 ≤ rateLimit ∧ rateLimit ≤ 1000000000) := by
    constructor
    · rintro ⟨d, hd, hdpos⟩
      by_cases h0 : rateLimit = 0
      · rw [h0, hzero] at hd
        exact absurd hd (by simp)
      · by_cases hn : rateLimit < 0
        · obtain ⟨d2, hd2, hle⟩ := hneg rateLimit hn
          rw [hd] at hd2
          simp only [Option.some.injEq] at hd2
          omega
        · have h1 : 1 ≤ rateLimit := by omega
          rw [hpos rateLimit h1] at hd
          simp only [Option.some.injEq] at hd
          rw [← hd] at hdpos
          exact ⟨h1, (hq rateLimit h1).mp hdpos⟩
    · rintro ⟨h1, h2⟩
      exact ⟨_, hpos rateLimit h1, (hq rateLimit h1).mpr h2⟩
  refine ⟨hmain, ?_, hzero, ?_, ?_⟩
  · intro h1
    refine ⟨_, hpos rateLimit h1, ?_, ?_⟩
    · exact Int.ediv_mul_le 1000000000 (by omega)
    · exact Int.lt_ediv_add_one_mul_self 1000000000 (by omega)
  · rintro (hn | hbig)
    · exact hneg rateLimit hn
    · have h1 : 1 ≤ rateLimit := by omega
      refine ⟨_, hpos rateLimit h1, ?_⟩
      have := hq rateLimit h1
      have hnn : 0 ≤ (1000000000 : Int) / rateLimit := Int.ediv_nonneg (by decide) (by omega)
      by_contra hc
      have hp : 0 < (1000000000 : Int) / rateLimit := by omega
      have := this.mp hp
      omega
  · rw [← hmain]
    unfold pacingTicker newTicker
    cases hp : pacingPeriod rateLimit with
    | none => simp
    | some d =>
      by_cases hd : d ≤ 0
      · simp only [hd, if_true, Option.isSome_none, Bool.false_eq_true, Option.some.injEq,
          exists_eq_left', false_iff]
        omega
      · simp only [hd, if_false, Option.isSome_some, Option.some.injEq, exists_eq_left',
          true_iff]
        omega

/-- Instances of C22: the default `-r 100` gives a period of 10,000,000 ns;
`-r 3` gives 333,333,333 ns; `-r 0` panics in the division; `-r -5` and
`-r 2000000000` give the periods -200,000,000 and 0, which `time.NewTicker`
refuses. -/
theorem pacing_period_defined_witness :
    pacingTicker 100 = some 10000000 ∧ pacingTicker 3 = some 333333333 ∧
    pacingPeriod 0 = none ∧ pacingPeriod (-5) = some (-200000000) ∧
    pacingTicker (-5) = none ∧ pacingPeriod 2000000000 = some 0 ∧
    pacingTicker 2000000000 = none ∧ (pacingTicker 1000000000).isSome = true :=
  ⟨by decide, by decide, (pacing_period_defined 0).2.2.1, by decide, by decide, by decide,
    by decide, (pacing_period_defined 1000000000).2.2.2.2.mpr ⟨by decide, by decide⟩⟩

/-- C23, equivalence of the root scraper.  For every store of the scraper,
every clock and every page, `processResponse` of `main.go` run on the same
store (its record sequence, map and counters) ends in the store that
`processResponse` of `cmd/scraper/main.go` run with `minFiles = 1000` ends
in: the same records, the same map, the same `bucketsFound` and
`newBucketsFound`.  This holds with the observer channel nil or not, and every
store of the root scraper is the store of a state without observer channel.
The functions `extractBucketParam` and `parseFileCount` of the two files are
equal. -/
theorem root_scraper_equivalent :
    (∀ (st : State) (clock : Nat → String) (doc : Option (List Row)),
      Root.processResponse st.toRoot clock doc =
        (processResponse st 1000 clock doc).toRoot) ∧
    (∀ (st : State) (clock : Nat → String) (doc : Option (List Row)),
      (Root.processResponse st.toRoot clock doc).buckets =
        (processResponse st 1000 clock doc).buckets ∧
      (Root.processResponse st.toRoot clock doc).existingBuckets =
        (processResponse st 1000 clock doc).existingBuckets ∧
      (Root.processResponse st.toRoot clock doc).bucketsFound =
        (processResponse st 1000 clock doc).bucketsFound ∧
      (Root.processResponse st.toRoot clock doc).newBucketsFound =
        (processResponse st 1000 clock doc).newBucketsFound) ∧
    (∀ old : Root.State, ∃ st : State, st.guiUpdates = none ∧ st.toRoot = old) ∧
    Root.extractBucketParam = extractBucketParam ∧
    Root.parseFileCount = parseFileCount := by
  have hmain : ∀ (st : State) (clock : Nat → String) (doc : Option (List Row)),
      Root.processResponse st.toRoot clock doc =
        (processResponse st 1000 clock doc).toRoot := by
    intro st clock doc
    cases doc with
    | none => rfl
    | some rows => exact root_processRows_eq clock rows 0 st
  refine ⟨hmain, ?_, ?_, rfl, rfl⟩
  · intro st clock doc
    rw [hmain]
    exact ⟨rfl, rfl, rfl, rfl⟩
  · intro old
    exact ⟨{ totalRequests := old.totalRequests, successCount := old.successCount,
             bucketsFound := old.bucketsFound, newBucketsFound := old.newBucketsFound,
             buckets := old.buckets, existingBuckets := old.existingBuckets,
             guiUpdates := none, lastStatusCode := 0, errorCount := 0 }, rfl, rfl⟩

/-- An instance of C23: the same page on the empty store, once through the
root scraper and once through the scraper with an observer channel of
capacity one. -/
theorem root_scraper_equivalent_witness :
    (Root.processResponse State.initial.toRoot (fun _ => "r0")
      (some [[⟨"1", none⟩, ⟨"a", some "/f?bucket=a"⟩, ⟨"1,000", none⟩, ⟨"", none⟩],
             [⟨"2", none⟩, ⟨"b", some "/f?bucket=b"⟩, ⟨"999", none⟩, ⟨"", none⟩]])).buckets
      = [⟨"a", 1000, "r0"⟩] ∧
    (processResponse { State.initial with guiUpdates := some ⟨1, []⟩ } 1000 (fun _ => "r0")
      (some [[⟨"1", none⟩, ⟨"a", some "/f?bucket=a"⟩, ⟨"1,000", none⟩, ⟨"", none⟩],
             [⟨"2", none⟩, ⟨"b", some "/f?bucket=b"⟩, ⟨"999", none⟩, ⟨"", none⟩]])).buckets
      = [⟨"a", 1000, "r0"⟩] := by
  refine ⟨by decide, ?_⟩
  rw [← (root_scraper_equivalent.2.1 { State.initial with guiUpdates := some ⟨1, []⟩ }
    (fun _ => "r0") _).1]
  decide

end S3eker
